import Mathlib

/-! Verification development for the automagic provisioning tool
(src/provisioning-tool/automagic.py).  The Python source is shallowly
embedded: dictionaries become association lists with first-match lookup,
JSON values become an inductive type, and the operational fragments the
claims depend on (queue iteration, schema flattening, query matching,
column resolution, the OTA polling loop, file validation, the credential
retry loops and the dd-wrt mode switch) become executable Lean functions
mirroring the source line by line. -/

namespace Automagic

/-! ### Decimal rendering of naturals

Python `str(i)` on a non-negative int is Lean's `Nat.repr`.  The flatten
machinery needs two facts about it: every character it produces is a
decimal digit, and it is injective.  Core only defines `Nat.toDigitsCore`
by fuel, so we relate it to a clean structural function first. -/

/-- Decimal digit characters of a natural, most significant first;
mirrors what `Nat.toDigitsCore` computes when given enough fuel. -/
def reprDigits (n : Nat) : List Char :=
  if _h : n < 10 then [Nat.digitChar n]
  else reprDigits (n / 10) ++ [Nat.digitChar (n % 10)]
  decreasing_by
    exact Nat.div_lt_self (by omega) (by omega)

/-- Numeric value of a digit character. -/
def digitVal (c : Char) : Nat := c.toNat - 48

/-- Reads a most-significant-first digit list back as a natural. -/
def digitsVal (cs : List Char) : Nat := cs.foldl (fun a c => 10 * a + digitVal c) 0

/-! ### Python dictionaries

The source manipulates Python dicts; we embed them as association lists
kept in insertion order, looked up by first match.  Entries carrying a
duplicate key always carry equal values in every list the embedding
builds (Python dicts cannot hold duplicates), so first-match lookup is
the dict lookup. -/

/-- First-match lookup in an association list: Python `d[k]` / `k in d`. -/
def alookup {κ β : Type} [DecidableEq κ] : List (κ × β) → κ → Option β
  | [], _ => none
  | kv :: rest, k => if kv.1 = k then some kv.2 else alookup rest k

/-- Python `k in d`. -/
def hasKey {κ β : Type} [DecidableEq κ] (d : List (κ × β)) (k : κ) : Bool :=
  (alookup d k).isSome

/-- Python `d.update(u)` on dict `d`: keys of `d` keep their position but
take the value from `u` when `u` has one; keys of `u` absent from `d` are
appended in the order of `u`. -/
def dictUpd {κ β : Type} [DecidableEq κ] (d u : List (κ × β)) : List (κ × β) :=
  d.map (fun kv => match alookup u kv.1 with
    | some v => (kv.1, v)
    | none => kv)
  ++ u.filter (fun kv => ! hasKey d kv.1)

/-! ### JSON values

Registry records are JSON as loaded by `json.load`: objects keep file
order, so object fields are association lists in insertion order. -/

inductive JVal : Type where
  | str (s : String)
  | num (n : Int)
  | boolv (b : Bool)
  | null
  | obj (fields : List (String × JVal))
  | arr (elems : List JVal)

def JVal.isObj : JVal → Bool
  | .obj _ => true
  | _ => false

def JVal.isArr : JVal → Bool
  | .arr _ => true
  | _ => false

/-- The single-quote character, written by code point to keep literals plain. -/
def sq : String := (Char.ofNat 39).toString

mutual

/-- Python `repr()` of a JSON value (string escaping elided: the tool never
feeds quotes or backslashes through `str` of a container). -/
def pyRepr : JVal → String
  | .str s => sq ++ s ++ sq
  | .num n => toString n
  | .boolv true => "True"
  | .boolv false => "False"
  | .null => "None"
  | .obj fs => "\x7b" ++ pyReprFields fs ++ "\x7d"
  | .arr es => "[" ++ pyReprElems es ++ "]"

def pyReprFields : List (String × JVal) → String
  | [] => ""
  | [(k, v)] => sq ++ k ++ sq ++ ": " ++ pyRepr v
  | (k, v) :: rest => sq ++ k ++ sq ++ ": " ++ pyRepr v ++ ", " ++ pyReprFields rest

def pyReprElems : List JVal → String
  | [] => ""
  | [e] => pyRepr e
  | e :: rest => pyRepr e ++ ", " ++ pyReprElems rest

end

/-- Python `str()` of a JSON value, as applied by `flatten` to leaves. -/
def pyStr : JVal → String
  | .str s => s
  | .num n => toString n
  | .boolv true => "True"
  | .boolv false => "False"
  | .null => "None"
  | v => pyRepr v

/-! ### The flatten machinery (automagic.py lines 2220-2255)

`flatten` turns a nested record into a flat dict from both short key and
fully-qualified dotted path to stringified value, plus a coverage guide
mapping each path to a per-device-type normalized path in which the
regex `\.[0-9]+\.` is rewritten to `.[n].`. -/

abbrev Flat := List (String × String)

abbrev GuideInner := List (Option String × String)

abbrev Guide := List (String × GuideInner)

/-- One left-to-right non-overlapping pass of `re.sub` with the pattern
dot-digits-dot and the replacement `.[n].`, written with a fuel argument
so the recursion is structural: a match consumes its trailing dot and
scanning resumes after it, exactly as `re.sub` does.  A fuel of at least
the list length never runs out, which normCharsF_fuel below proves. -/
def normCharsF : Nat → List Char → List Char
  | 0, cs => cs
  | _ + 1, [] => []
  | fuel + 1, c :: rest =>
    if c = '.' then
      match rest.takeWhile Char.isDigit, rest.dropWhile Char.isDigit with
      | _ :: _, '.' :: tail => '.' :: '[' :: 'n' :: ']' :: '.' :: normCharsF fuel tail
      | _, _ => c :: normCharsF fuel rest
    else c :: normCharsF fuel rest

def normChars (cs : List Char) : List Char := normCharsF cs.length cs

/-- Python `re.sub` of dot-digits-dot to the wildcard marker. -/
def pynorm (s : String) : String := ⟨normChars s.data⟩

/-- Removes one trailing dot, if present. -/
def stripDotChars : List Char → List Char
  | [] => []
  | [c] => if c = '.' then [] else [c]
  | c :: rest => c :: stripDotChars rest

/-- Python `re.sub` of a trailing dot to nothing. -/
def stripDot (s : String) : String := ⟨stripDotChars s.data⟩

/-- Python truthiness of an optional string: `None` and the empty string
are falsy. -/
def isFalsyS : Option String → Bool
  | none => true
  | some s => s = ""

/-- Splits a character list at every occurrence of a separator, like
Python split: the empty list yields one empty piece. -/
def splitCharsOn (sep : Char) : List Char → List (List Char)
  | [] => [[]]
  | c :: rest =>
    if c = sep then [] :: splitCharsOn sep rest
    else match splitCharsOn sep rest with
      | s :: ss => (c :: s) :: ss
      | [] => [[c]]

/-- Python `s.split(sep)` for a one-character separator. -/
def pySplit (s : String) (sep : Char) : List String :=
  (splitCharsOn sep s.data).map String.mk

/-- Python `s.endswith(suffix)`. -/
def pyEndsWith (s suffix : String) : Bool := suffix.data.isSuffixOf s.data

/-- Lines 2223-2224: recompute the device type from
`d["settings"]["device"]["type"]` when none was passed down.  The registry
stores the type as a JSON string; a non-string value would be used as a
raw dict key by Python and is rendered through `pyStr` here. -/
def extractDevtype : JVal → Option String
  | .obj fs =>
    match alookup fs "settings" with
    | some (.obj s1) =>
      match alookup s1 "device" with
      | some (.obj s2) =>
        match alookup s2 "type" with
        | some (.str t) => some t
        | some v => some (pyStr v)
        | none => none
      | _ => none
    | _ => none
  | _ => none

/-- The `deep_update(new_guide, guide)` call of line 2246: outer keys of
the old guide are folded into the new one, inner dicts merged with the
old entries overwriting. -/
def guideMerge (n o : Guide) : Guide :=
  n.map (fun pv => match alookup o pv.1 with
    | some inner => (pv.1, dictUpd pv.2 inner)
    | none => pv)
  ++ o.filter (fun pv => ! hasKey n pv.1)

mutual

/-- Lines 2220-2255 of automagic.py.  Dict iteration accumulates via
`new_data.update(result); result = new_data`, so earlier fields win; the
guide accumulates via `deep_update(new_guide, guide)`. -/
def flatten (d : JVal) (pre : String) (devtype0 : Option String) : Flat × Guide :=
  let devtype := if isFalsyS devtype0 && d.isObj then extractDevtype d else devtype0
  match d with
  | .obj fs => flattenFields fs pre devtype [] []
  | v =>
    let pk := stripDot (pynorm pre)
    let pre2 := stripDot pre
    ([(pre2, pyStr v)], [(pre2, [(devtype, pk)])])

def flattenFields (fs : List (String × JVal)) (pre : String) (devtype : Option String)
    (accF : Flat) (accG : Guide) : Flat × Guide :=
  match fs with
  | [] => (accF, accG)
  | (k, v) :: rest =>
    let contrib : Flat × Guide :=
      match v with
      | .obj gs => flatten (.obj gs) (pre ++ k ++ ".") devtype
      | .arr es => flattenElems es (pre ++ k ++ ".") 0 devtype [] []
      | w =>
        let pk := pynorm (pre ++ k)
        ([(k, pyStr w), (pre ++ k, pyStr w)],
         [(k, [(devtype, pk)]), (pre ++ k, [(devtype, pk)])])
    flattenFields rest pre devtype (dictUpd contrib.1 accF) (guideMerge contrib.2 accG)

def flattenElems (es : List JVal) (preK : String) (i : Nat) (devtype : Option String)
    (accF : Flat) (accG : Guide) : Flat × Guide :=
  match es with
  | [] => (accF, accG)
  | e :: rest =>
    let t := flatten e (preK ++ Nat.repr i ++ ".") devtype
    flattenElems rest preK (i + 1) devtype (dictUpd accF t.1) (dictUpd accG t.2)

end

/-! ### Leaves of a record

The leaves `flatten` visits, with the fully-qualified dotted path as a
segment list (array elements addressed by their decimal index). -/

mutual

def leavesOf : JVal → List (List String × String)
  | .obj fs => leavesFields fs
  | v => [([], pyStr v)]

def leavesFields : List (String × JVal) → List (List String × String)
  | [] => []
  | (k, v) :: rest =>
    (match v with
     | .obj gs => (leavesOf (.obj gs)).map (fun ps => (k :: ps.1, ps.2))
     | .arr es => leavesElems k es 0
     | w => [([k], pyStr w)]) ++ leavesFields rest

def leavesElems (k : String) (es : List JVal) (i : Nat) : List (List String × String) :=
  match es with
  | [] => []
  | e :: rest =>
    (match e with
     | .obj gs => (leavesOf (.obj gs)).map (fun ps => (k :: Nat.repr i :: ps.1, ps.2))
     | w => [([k, Nat.repr i], pyStr w)]) ++ leavesElems k rest (i + 1)

end

/-! ### Well-formed records

The hypotheses under which flatten is faithful: object keys are dot-free
and not all-digits, and each object's key list has no duplicates (Python
dicts cannot). -/

def digitSegB (cs : List Char) : Bool := (! cs.isEmpty) && cs.all Char.isDigit

def keyOK (k : String) : Bool := (! k.data.contains '.') && (! digitSegB k.data)

def nodupKeys : List String → Bool
  | [] => true
  | k :: rest => (! rest.contains k) && nodupKeys rest

mutual

def WFJ : JVal → Bool
  | .obj fs => nodupKeys (fs.map Prod.fst) && WFFields fs
  | .arr es => WFElems es
  | _ => true

def WFFields : List (String × JVal) → Bool
  | [] => true
  | (k, v) :: rest => keyOK k && WFJ v && WFFields rest

def WFElems : List JVal → Bool
  | [] => true
  | e :: rest => WFJ e && WFElems rest

end

/-! ### Device queue iteration (automagic.py lines 2189-2209)

For the provision-list operation, `read_device_queue` walks the queue in
order, skips records without ConfigInput, records whose ConfigStatus has
CompletedTime, records filtered out by group, and records whose SSID does
not match the active network, and yields the rest after stamping
InProgressTime.  Timestamps are modelled as naturals.  Python indexes
`cfg["SSID"]` unconditionally when an SSID filter is active and would
raise on a queue record lacking it; the model treats that as a mismatch,
which no claim exercises. -/

structure ConfigInput where
  ssid : Option String
  group : Option String
  extra : List (String × String)
deriving DecidableEq

structure ConfigStatus where
  completedTime : Option Nat
  inProgressTime : Option Nat
  extra : List (String × String)
deriving DecidableEq

structure QRec where
  configInput : Option ConfigInput
  configStatus : Option ConfigStatus
  extra : List (String × String)
deriving DecidableEq

/-- Line 2195: ConfigStatus is present and holds CompletedTime. -/
def hasCompleted (rec : QRec) : Bool :=
  match rec.configStatus with
  | some st => st.completedTime.isSome
  | none => false

/-- The skip condition of lines 2195-2197, with Python operator precedence:
completed, or group filter active and group missing or different, or ssid
filter active and different. -/
def skipRec (groupFilter ssidFilter : Option String) (cfg : ConfigInput) (rec : QRec) : Bool :=
  hasCompleted rec
  || (! isFalsyS groupFilter && ! (cfg.group == groupFilter))
  || (! isFalsyS ssidFilter && ! (cfg.ssid == ssidFilter))

/-- Lines 2191-2201 for one record: skipped records are untouched, yielded
records get InProgressTime (creating ConfigStatus when absent). -/
def processQRec (groupFilter ssidFilter : Option String) (t : Nat) (rec : QRec) : QRec × Bool :=
  match rec.configInput with
  | none => (rec, false)
  | some cfg =>
    if skipRec groupFilter ssidFilter cfg rec then (rec, false)
    else
      let st := rec.configStatus.getD ⟨none, none, []⟩
      ({ rec with configStatus := some { st with inProgressTime := some t } }, true)

/-- One full provision-list pass: the updated queue and the yielded
records, in order. -/
def read_device_queue_list (groupFilter ssidFilter : Option String) (t : Nat)
    (q : List QRec) : List QRec × List QRec :=
  let stepped := q.map (processQRec groupFilter ssidFilter t)
  (stepped.map Prod.fst, (stepped.filter Prod.snd).map Prod.fst)

/-! ### Record selection (automagic.py lines 2257-2271)

`match_rec` takes the flattened record.  It returns `none` exactly where
Python would raise: `rec["ID"]` is indexed unguarded when a restore filter
is active. -/

/-- Lines 2267-2270: the access check ran after all filters pass. -/
def accessCheck (rec : Flat) (access : String) : Option Bool :=
  if access ≠ "ALL" then
    let presumed := (alookup rec "Access").getD "Continuous"
    if presumed ≠ access then some false else some true
  else some true

/-- Lines 2257-2271.  Filter strings follow Python truthiness: a missing
or empty filter is inactive. -/
def match_rec (rec : Flat) (conds : List (String × String))
    (matchTag groupFilter restoreDevice : Option String) (access : String) : Option Bool :=
  if conds.any (fun q => ! (alookup rec q.1 == some q.2)) then some false
  else if (match matchTag with
    | some mt => ! (mt == "") &&
        (match alookup rec "Tags" with
         | none => true
         | some ts => ! (pySplit ts ',').contains mt)
    | none => false) then some false
  else if (match groupFilter with
    | some g => ! (g == "") && ! (alookup rec "Group" == some g)
    | none => false) then some false
  else match restoreDevice with
    | some rd =>
       if rd = "" ∨ rd = "ALL" then accessCheck rec access
       else match alookup rec "ID" with
         | none => none
         | some id0 => if rd ≠ id0 then some false else accessCheck rec access
    | none => accessCheck rec access

/-! ### Column resolution in query (automagic.py lines 2527-2543)

The query builds one guide over the registry with plain dict updates and
resolves each requested column: a verbatim guide key stands; otherwise
every guide key ending in a dot followed by the column overwrites the
mapping in turn, so the last key in guide iteration order wins. -/

/-- Lines 2536-2543 for one requested column over the guide key list in
iteration order. -/
def resolve_column (guideKeys : List String) (q : String) : String :=
  if guideKeys.contains q then q
  else match (guideKeys.filter (fun g => pyEndsWith g ("." ++ q))).getLast? with
    | some g => g
    | none => q

/-- Lines 2527-2534: the guide accumulated over the registry, skipping the
Format sentinel, as a key list in iteration order. -/
def guideKeysOf (db : List (String × JVal)) : List String :=
  (db.foldl (fun g kv =>
    if kv.1 = "Format" then g else dictUpd g (flatten kv.2 "" none).2) []).map Prod.fst

/-! ### The OTA polling loop (automagic.py lines 2330-2368)

Outcomes are the distinct terminal messages of `flash_device`.  The
device is a function from 0-based poll number to the reported
(status, old_version) pair, `none` for an unreachable poll; the wall-clock
bound becomes a poll budget. -/

inductive OTAOutcome : Type where
  | success (newv : String)
  | neverStarted
  | stillOld (v : String)
  | mismatch (v : String)
  | commFail
deriving DecidableEq

/-- Lines 2338-2367: `passes` counts completed polls, `seen` is
seen_updating, `lastv` the version of the last poll (used by the timeout
message).  Budget 0 is the while-condition expiring. -/
def ota_poll (newVersion : Option String) (origv : String)
    (dev : Nat → Option (String × String)) :
    Nat → Nat → Bool → String → OTAOutcome
  | 0, _, _, lastv => .stillOld lastv
  | budget + 1, passes, seen, _ =>
    match dev passes with
    | none => .commFail
    | some (st, v) =>
      if st = "updating" then ota_poll newVersion origv dev budget (passes + 1) true v
      else if seen then
        if isFalsyS newVersion || ! (origv == v) then
          if isFalsyS newVersion || newVersion == some v then .success v else .mismatch v
        else .stillOld v
      else if passes + 1 > 10 then .neverStarted
      else ota_poll newVersion origv dev budget (passes + 1) seen v

/-- The wait loop as entered at line 2335, after the OTA trigger. -/
def flash_poll (newVersion : Option String) (origv : String)
    (dev : Nat → Option (String × String)) (budget : Nat) : OTAOutcome :=
  ota_poll newVersion origv dev budget 0 false origv

/-! ### JSON file reading with validation (automagic.py lines 1888-1913) -/

/-- The `empty` argument: a JSON fallback value or the string sentinel
that makes an IOError fatal. -/
inductive FileEmpty : Type where
  | fail
  | val (v : JVal)

/-- The `validate` argument: False, True (registry and router files), or
the queue field list. -/
inductive JValidate : Type where
  | vFalse
  | vTrue
  | vFields (fs : List String)

inductive ReadResult : Type where
  | ok (v : JVal)
  | corruptExit
  | ioExit

/-- Python type() tags: dict, list, str, int, bool, NoneType. -/
def jtypeTag : JVal → Nat
  | .obj _ => 0
  | .arr _ => 1
  | .str _ => 2
  | .num _ => 3
  | .boolv _ => 4
  | .null => 5

/-- Lines 1888-1913.  `contents` is the parsed file, `none` for an
IOError.  Iterating a True validate cannot happen on the tool's calls (a
list result is rejected by the type check first), so the queue branch
reads its fields from the vFields form. -/
def read_json_file (contents : Option JVal) (empty : FileEmpty) (validate : JValidate) :
    ReadResult :=
  match contents with
  | none =>
    match empty with
    | .fail => .ioExit
    | .val v => .ok v
  | some r =>
    let valid : Bool :=
      match validate with
      | .vFalse => true
      | _ =>
        let etag := match empty with
          | .fail => jtypeTag (.str "fail")
          | .val e => jtypeTag e
        if etag ≠ jtypeTag r then false
        else match r with
          | .obj fs =>
            (match alookup fs "Format" with
             | some (.str s) => s = "automagic"
             | _ => false)
          | .arr (r0 :: _) =>
            (match r0 with
             | .obj f0 =>
               (match alookup f0 "ConfigInput" with
                | some (.obj ci) =>
                  (match validate with
                   | .vFields l => l.any (fun v => hasKey ci v)
                   | _ => false)
                | _ => false)
             | _ => false)
          | _ => true
    if valid then .ok r else .corruptExit

/-! ### Credential pushing and its failure semantics

`provision_device` (lines 2737-2765) makes up to 5 passes of `tries`
attempts each; `ack pass try` tells whether the device acknowledged that
attempt.  `provision_native` (lines 2809-2867) runs the per-device body
whose control flow we reify; `provision_ddwrt` (lines 2897-2932) retries
the send up to 10 times and exits the run. -/

/-- The pass loop of lines 2744-2763: a pass with any acknowledged
attempt returns True at its end; five silent passes return False. -/
def pdPasses (tries : Nat) (ack : Nat → Nat → Bool) : Nat → Nat → Bool
  | 0, _ => false
  | fuel + 1, i =>
    if (List.range tries).any (fun j => ack i j) then true
    else pdPasses tries ack fuel (i + 1)

def provision_device (tries : Nat) (ack : Nat → Nat → Bool) : Bool :=
  pdPasses tries ack 5 0

/-- The effects one provision_native loop iteration depends on. -/
structure NativeEnv where
  found : Option String
  statusOK : Bool
  reconnectOK : Bool
  ack : Nat → Nat → Bool
  checkResult : String
  waitTime : Nat

/-- How one provision_native loop iteration ends. -/
inductive RunOutcome : Type where
  | exitRun
  | breakLoop
  | continueNext
  | waitAndRetry
  | returnRun
deriving DecidableEq

/-- Lines 2809-2867, one iteration: no candidate waits or ends the run;
an unanswered status query breaks; a failed reconnect breaks; a failed
credential push exits the whole run (line 2843); then check_status may
quit, fail, or complete the device and continue to the next. -/
def provision_native_step (env : NativeEnv) : RunOutcome :=
  match env.found with
  | none => if env.waitTime = 0 then .breakLoop else .waitAndRetry
  | some _ =>
    if ! env.statusOK then .breakLoop
    else
      let stat := provision_device 3 env.ack
      if ! env.reconnectOK then .breakLoop
      else if ! stat then .exitRun
      else if env.checkResult = "Quit" then .returnRun
      else if env.checkResult = "Fail" then .breakLoop
      else .continueNext

inductive DdwrtSendOutcome : Type where
  | proceeded (attempt : Nat)
  | exitNoContact
  | exitAfter10
deriving DecidableEq

/-- The attempts loop of lines 2897-2932: per attempt, the routers are
reprogrammed, the device contacted through the loopback (failure exits
the run), and the credentials pushed; a push failure after 10 attempts
exits the run. -/
def ddwrt_send (tries : Nat) (contact : Nat → Bool) (ack : Nat → Nat → Nat → Bool) :
    Nat → Nat → DdwrtSendOutcome
  | 0, _ => .exitAfter10
  | fuel + 1, a =>
    let att := a + 1
    if ! contact att then .exitNoContact
    else if provision_device tries (ack att) then .proceeded att
    else if att ≥ 10 then .exitAfter10
    else ddwrt_send tries contact ack fuel att

def ddwrt_send_loop (tries : Nat) (contact : Nat → Bool)
    (ack : Nat → Nat → Nat → Bool) : DdwrtSendOutcome :=
  ddwrt_send tries contact ack 10 0

/-! ### The dd-wrt mode switch (automagic.py lines 1595-1617)

`ddwrt_program_mode` issues nvram writes over the session, commits, and
either restarts the wireless services (fast path, current mode already
the target) or posts the HTTP apply action, waits and cycles the radio
(slow path), recording the new mode.  `snap` is the per-role nvram
snapshot `cn["router"][mode][k]`. -/

structure ModeSwitchResult where
  cmds : List String
  httpApply : Bool
  currentMode : String
deriving DecidableEq

def restartServicesCmd : String :=
  "stopservice nas;stopservice wlconf 2>/dev/null;startservice wlconf 2>/dev/null;startservice nas"

def radioCycleCmd : String := "wl radio off; wl radio on"

def commitCmd : String := "nvram commit 2>/dev/null"

/-- Lines 1599-1617.  Both call sites put wl_mode in pgm; a missing key
would raise in Python and is defaulted here, pinned by hypothesis in the
theorems. -/
def ddwrt_program_mode (currentMode : String) (snap : String → String → String)
    (pgm : List (String × String)) (from_db : List String)
    (deletes : Option (List String)) : ModeSwitchResult :=
  let mode := (alookup pgm "wl_mode").getD ""
  let setCmds := pgm.map (fun kv => "nvram set " ++ kv.1 ++ "=\"" ++ kv.2 ++ "\"")
  let dbCmds := from_db.map (fun k => "nvram set " ++ k ++ "=" ++ snap mode k)
  let delCmds := match deletes with
    | some ds => ds.map (fun k => "nvram unset " ++ k)
    | none => []
  let base := setCmds ++ dbCmds ++ delCmds ++ [commitCmd]
  if currentMode = mode then
    ⟨base ++ [restartServicesCmd], false, currentMode⟩
  else
    ⟨base ++ [radioCycleCmd], true, mode⟩

/-! ### Tag mutation (automagic.py lines 2570-2579)

Tags are a comma-separated string; the mutation parses it, takes a Python
set union or difference, and re-joins.  Python set iteration order is
unspecified, so the model works with the resulting tag set, which is what
the re-join determines. -/

/-- Line 2574. -/
def old_tags (tags : Option String) : List String :=
  match tags with
  | some s => if s ≠ "" then pySplit s ',' else []
  | none => []

def recTagSet (tags : Option String) : Finset String := (old_tags tags).toFinset

/-- Line 2576: `set(old_tags).union([t])`. -/
def set_tag_set (tags : Option String) (t : String) : Finset String :=
  (old_tags tags).toFinset ∪ {t}

/-- Line 2578: `set(old_tags).difference([t])`. -/
def delete_tag_set (tags : Option String) (t : String) : Finset String :=
  (old_tags tags).toFinset \ {t}

/-- The simulated device of the spec scenario: idle at the old version,
then updating twice, then idle at the new version. -/
def otaDemoDev (v1 v2 : String) : Nat → Option (String × String) :=
  fun i => if i = 0 then some ("idle", v1) else if i ≤ 2 then some ("updating", v1)
    else some ("idle", v2)

/-! ### Further definitions: path segmentation and demonstration data -/

/-- Splits a character list at every dot. -/
def splitChars : List Char → List (List Char) := splitCharsOn '.'

/-- Whether some dot-separated segment of the string is all digits, i.e. a
raw (unnormalized) array index survives in it. -/
def hasRawIndex (s : String) : Bool := (splitChars s.data).any digitSegB

/-- A registry with two single-element arrays: its guide has paths a.0 and
b.0 and no short key for the array elements. -/
def dbC2 : List (String × JVal) :=
  [("demo-device", JVal.obj [("a", JVal.arr [JVal.num 1]), ("b", JVal.arr [JVal.num 2])])]

/-- A record whose nested leaf d.k is iterated before the top-level scalar
field k. -/
def recShadow : JVal := JVal.obj [("d", JVal.obj [("k", JVal.num 2)]), ("k", JVal.num 1)]

/-- A record with an all-digits object key directly above an array: the
non-overlapping regex pass consumes the key dots and misses the index. -/
def recIdx : JVal := JVal.obj [("a", JVal.obj [("0", JVal.arr [JVal.num 5])])]

def recTagsA : Flat := [("ID", "1"), ("IP", "10.0.0.1"), ("Tags", "A")]

def recTagsB : Flat := [("ID", "2"), ("IP", "10.0.0.2"), ("Tags", "B")]

def recTagsAB : Flat := [("ID", "3"), ("IP", "10.0.0.3"), ("Tags", "A,B")]

/-- A queue entry whose ConfigStatus carries CompletedTime. -/
def qRecDone : QRec := ⟨some ⟨some "net", none, []⟩, some ⟨some 5, none, []⟩, []⟩

/-- A queue entry still pending. -/
def qRecPending : QRec := ⟨some ⟨some "net", none, []⟩, none, []⟩

/-! ### Path rendering

Leaf paths are segment lists; `render` is the fully-qualified dotted
path, `renderPre` the prefix form `flatten` threads (every segment
followed by a dot).  Char-level twins carry the proofs. -/

def render : List String → String
  | [] => ""
  | [s] => s
  | s :: rest => s ++ "." ++ render rest

def renderPre : List String → String
  | [] => ""
  | s :: rest => s ++ "." ++ renderPre rest

def renderCharsL : List (List Char) → List Char
  | [] => []
  | [s] => s
  | s :: rest => s ++ '.' :: renderCharsL rest

def preCharsL : List (List Char) → List Char
  | [] => []
  | s :: rest => s ++ '.' :: preCharsL rest

/-- The wildcard image of one path segment, character level. -/
def wildC (cs : List Char) : List Char := if digitSegB cs then ['[', 'n', ']'] else cs

/-- The wildcard image of one path segment. -/
def wildSeg (s : String) : String := if digitSegB s.data then "[n]" else s

/-- Leaf paths never begin with an all-digits segment and never hold two
adjacent all-digits segments (array indexes sit between object keys); the
flag tells whether a digit segment may come first. -/
def segsOKc : Bool → List (List Char) → Bool
  | _, [] => true
  | allowD, s :: rest =>
    if digitSegB s then allowD && segsOKc false rest else segsOKc true rest

def segsOK (allowD : Bool) (l : List String) : Bool := segsOKc allowD (l.map String.data)

/-- Every entry of the flat map pairs the value of some leaf either with the
fully-qualified dotted path of that leaf or with its bare last segment. -/
def LeafKey (L : List (List String × String)) (SS : List String)
    (kv : String × String) : Prop :=
  ∃ p s, (p, s) ∈ L ∧ kv.2 = s ∧
    (kv.1 = render (SS ++ p) ∨ ∃ k, p.getLast? = some k ∧ kv.1 = k)

/-! ### Every stored guide value is the wildcard-normalized leaf path -/

/-- Every devtype-to-normalized-path entry of a guide record pairs the
wildcard image of some leaf path with either its full dotted key or its
bare last segment. -/
def GuideVal (L : List (List String × String)) (SS : List String)
    (g : String × GuideInner) : Prop :=
  ∀ e ∈ g.2, ∃ p s, (p, s) ∈ L ∧ e.2 = render ((SS ++ p).map wildSeg) ∧
    (g.1 = render (SS ++ p) ∨ ∃ k, p.getLast? = some k ∧ g.1 = k)

theorem reprDigits_lt (n : Nat) (h : n < 10) : reprDigits n = [Nat.digitChar n] := by
  rw [reprDigits]
  simp [h]

theorem reprDigits_ge (n : Nat) (h : ¬ n < 10) :
    reprDigits n = reprDigits (n / 10) ++ [Nat.digitChar (n % 10)] := by
  rw [reprDigits]
  simp [h]

theorem toDigitsCore_eq_reprDigits :
    ∀ (fuel n : Nat) (ds : List Char), n < fuel →
      Nat.toDigitsCore 10 fuel n ds = reprDigits n ++ ds := by
  intro fuel
  induction fuel with
  | zero => intro n ds h; omega
  | succ f ih =>
    intro n ds h
    by_cases h10 : n < 10
    · have hz : n / 10 = 0 := Nat.div_eq_of_lt h10
      have hm : n % 10 = n := Nat.mod_eq_of_lt h10
      simp [Nat.toDigitsCore, hz, hm, reprDigits_lt n h10]
    · have hz : ¬ n / 10 = 0 := by
        intro hc
        rw [Nat.div_eq_zero_iff (by omega)] at hc
        exact h10 hc
      have hlt : n / 10 < f := by
        have h1 : n / 10 < n := Nat.div_lt_self (by omega) (by omega)
        omega
      simp only [Nat.toDigitsCore, hz, if_false]
      rw [ih (n / 10) (Nat.digitChar (n % 10) :: ds) hlt, reprDigits_ge n h10]
      simp

theorem toDigits_eq_reprDigits (n : Nat) : Nat.toDigits 10 n = reprDigits n := by
  have := toDigitsCore_eq_reprDigits (n + 1) n [] (Nat.lt_succ_self n)
  simpa [Nat.toDigits] using this

theorem digitChar_isDigit (n : Nat) (h : n < 10) : (Nat.digitChar n).isDigit = true := by
  interval_cases n <;> decide

theorem reprDigits_all_isDigit (n : Nat) : ∀ c ∈ reprDigits n, c.isDigit = true := by
  induction n using Nat.strong_induction_on with
  | _ n ih =>
    by_cases h : n < 10
    · rw [reprDigits_lt n h]
      intro c hc
      rw [List.mem_singleton] at hc
      subst hc
      exact digitChar_isDigit n h
    · rw [reprDigits_ge n h]
      intro c hc
      rcases List.mem_append.mp hc with hc | hc
      · exact ih (n / 10) (Nat.div_lt_self (by omega) (by omega)) c hc
      · rw [List.mem_singleton] at hc
        subst hc
        exact digitChar_isDigit _ (Nat.mod_lt _ (by omega))

theorem reprDigits_ne_nil (n : Nat) : reprDigits n ≠ [] := by
  by_cases h : n < 10
  · rw [reprDigits_lt n h]; simp
  · rw [reprDigits_ge n h]; simp

theorem digitVal_digitChar (n : Nat) (h : n < 10) : digitVal (Nat.digitChar n) = n := by
  interval_cases n <;> decide

theorem digitsVal_append_singleton (cs : List Char) (c : Char) :
    digitsVal (cs ++ [c]) = 10 * digitsVal cs + digitVal c := by
  simp [digitsVal, List.foldl_append]

theorem digitsVal_reprDigits (n : Nat) : digitsVal (reprDigits n) = n := by
  induction n using Nat.strong_induction_on with
  | _ n ih =>
    by_cases h : n < 10
    · rw [reprDigits_lt n h]
      simp [digitsVal, digitVal_digitChar n h]
    · rw [reprDigits_ge n h, digitsVal_append_singleton,
        ih (n / 10) (Nat.div_lt_self (by omega) (by omega)),
        digitVal_digitChar _ (Nat.mod_lt _ (by omega))]
      omega

theorem reprDigits_injective : Function.Injective reprDigits := by
  intro m n h
  have := digitsVal_reprDigits m
  rw [h, digitsVal_reprDigits] at this
  omega

theorem natRepr_data (n : Nat) : (Nat.repr n).data = reprDigits n := by
  simp [Nat.repr, List.asString, toDigits_eq_reprDigits]

theorem natRepr_injective : Function.Injective Nat.repr := by
  intro m n h
  apply reprDigits_injective
  rw [← natRepr_data, ← natRepr_data, h]

theorem alookup_append {κ β : Type} [DecidableEq κ] (a b : List (κ × β)) (k : κ) :
    alookup (a ++ b) k = (alookup a k).orElse (fun _ => alookup b k) := by
  induction a with
  | nil => simp [alookup]
  | cons kv rest ih =>
    by_cases h : kv.1 = k <;> simp [alookup, h, ih]

theorem alookup_map_upd {κ β : Type} [DecidableEq κ] (d u : List (κ × β)) (k : κ) :
    alookup (d.map (fun kv => match alookup u kv.1 with
      | some v => (kv.1, v)
      | none => kv)) k
    = match alookup d k with
      | some v => some ((alookup u k).getD v)
      | none => none := by
  induction d with
  | nil => simp [alookup]
  | cons kv rest ih =>
    by_cases h : kv.1 = k
    · subst h
      cases hu : alookup u kv.1 <;> simp [alookup, hu]
    · cases hu : alookup u kv.1 <;> simp [alookup, hu, h, ih]

theorem alookup_filter_not_hasKey {κ β : Type} [DecidableEq κ]
    (d u : List (κ × β)) (k : κ) (hd : alookup d k = none) :
    alookup (u.filter (fun kv => ! hasKey d kv.1)) k = alookup u k := by
  induction u with
  | nil => simp [alookup]
  | cons kv rest ih =>
    by_cases h : kv.1 = k
    · subst h
      have : hasKey d kv.1 = false := by simp [hasKey, hd]
      simp [List.filter, this, alookup]
    · by_cases hk : hasKey d kv.1 <;> simp [List.filter, hk, alookup, h, ih]

/-- Lookup in an updated dict: the updating dict wins at common keys. -/
theorem alookup_dictUpd {κ β : Type} [DecidableEq κ] (d u : List (κ × β)) (k : κ) :
    alookup (dictUpd d u) k = (alookup u k).orElse (fun _ => alookup d k) := by
  rw [dictUpd, alookup_append, alookup_map_upd]
  cases hd : alookup d k with
  | some v =>
    cases hu : alookup u k <;> simp [hu, Option.orElse]
  | none =>
    rw [alookup_filter_not_hasKey d u k hd]
    cases hu : alookup u k <;> simp [hu, Option.orElse]

/-- If some entry holds the key and every entry holding the key agrees on
the value, lookup returns that value regardless of position. -/
theorem alookup_eq_of_mem_of_agree {κ β : Type} [DecidableEq κ]
    (l : List (κ × β)) (k : κ) (v : β) (hmem : (k, v) ∈ l)
    (hagree : ∀ kv ∈ l, kv.1 = k → kv.2 = v) :
    alookup l k = some v := by
  induction l with
  | nil => cases hmem
  | cons kv rest ih =>
    by_cases h : kv.1 = k
    · have := hagree kv (List.mem_cons_self kv rest) h
      simp [alookup, h, this]
    · rcases List.mem_cons.mp hmem with heq | hmem2
      · subst heq; simp at h
      · exact (by simp [alookup, h,
          ih hmem2 (fun kv2 h2 => hagree kv2 (List.mem_cons_of_mem kv h2))])

/-! ### Supporting lemmas: queue pass -/

theorem processQRec_of_completed (gf sf : Option String) (t : Nat) (rec : QRec)
    (hc : hasCompleted rec = true) : processQRec gf sf t rec = (rec, false) := by
  unfold processQRec
  cases hin : rec.configInput with
  | none => rfl
  | some cfg => simp [skipRec, hc]

theorem processQRec_yield_not_completed (gf sf : Option String) (t : Nat) (rec : QRec)
    (hy : (processQRec gf sf t rec).2 = true) :
    hasCompleted rec = false ∧ hasCompleted (processQRec gf sf t rec).1 = false := by
  unfold processQRec at hy ⊢
  cases hin : rec.configInput with
  | none => simp [hin] at hy
  | some cfg =>
    simp only [hin] at hy ⊢
    by_cases hs : skipRec gf sf cfg rec
    · simp [hs] at hy
    · have hnc : hasCompleted rec = false := by
        by_contra hcc
        have : hasCompleted rec = true := by
          cases h2 : hasCompleted rec
          · exact absurd h2 hcc
          · rfl
        exact hs (by simp [skipRec, this])
      refine ⟨hnc, ?_⟩
      rw [if_neg hs]
      cases hst : rec.configStatus with
      | none => simp [hasCompleted, hst]
      | some st =>
        simp only [hasCompleted, hst] at hnc
        simp [hasCompleted, hst, hnc]

theorem read_device_queue_yields_clean (gf sf : Option String) (t : Nat) (q : List QRec) :
    ∀ r ∈ (read_device_queue_list gf sf t q).2, hasCompleted r = false := by
  intro r hr
  simp only [read_device_queue_list, List.mem_map, List.mem_filter] at hr
  obtain ⟨p, ⟨⟨r0, hr0, rfl⟩, hsnd⟩, rfl⟩ := hr
  exact (processQRec_yield_not_completed gf sf t r0 hsnd).2

theorem read_device_queue_keeps_completed (gf sf : Option String) (t : Nat)
    (q : List QRec) (i : Nat) (rec : QRec) (hget : q[i]? = some rec)
    (hc : hasCompleted rec = true) :
    ((read_device_queue_list gf sf t q).1)[i]? = some rec := by
  unfold read_device_queue_list
  simp only [List.getElem?_map, hget]
  simp [processQRec_of_completed gf sf t rec hc]

/-! ### Supporting lemmas: OTA polling -/

theorem ota_poll_never_updating (nv : Option String) (origv v1 : String)
    (dev : Nat → Option (String × String)) (h : ∀ i, dev i = some ("idle", v1)) :
    ∀ (b passes : Nat) (lastv : String), passes ≤ 10 → 11 ≤ passes + b →
      ota_poll nv origv dev b passes false lastv = .neverStarted := by
  intro b
  induction b with
  | zero => intro passes lastv h1 h2; omega
  | succ b ih =>
    intro passes lastv h1 h2
    rw [ota_poll.eq_def]
    simp only [h passes]
    norm_num
    by_cases hp : passes + 1 > 10
    · simp [hp]
    · have hple : ¬ (10 < passes + 1) := by omega
      simp only [hple, if_false]
      exact ih (passes + 1) v1 (by omega) (by omega)

theorem ota_poll_step (nv : Option String) (origv : String)
    (dev : Nat → Option (String × String)) (b passes : Nat) (seen : Bool)
    (lastv st v : String) (hd : dev passes = some (st, v)) :
    ota_poll nv origv dev (b + 1) passes seen lastv =
      (if st = "updating" then ota_poll nv origv dev b (passes + 1) true v
       else if seen then
         (if isFalsyS nv || ! (origv == v) then
            (if isFalsyS nv || nv == some v then .success v else .mismatch v)
          else .stillOld v)
       else if passes + 1 > 10 then .neverStarted
       else ota_poll nv origv dev b (passes + 1) seen v) := by
  rw [ota_poll.eq_def]
  simp only [hd]

theorem ota_poll_demo_success (v1 v2 : String) (hne : v1 ≠ v2) (b : Nat) :
    flash_poll (some v2) v1 (otaDemoDev v1 v2) (b + 4) = .success v2 := by
  have hb : (v1 == v2) = false := by
    simp [hne]
  have hd0 : otaDemoDev v1 v2 0 = some ("idle", v1) := rfl
  have hd1 : otaDemoDev v1 v2 1 = some ("updating", v1) := rfl
  have hd2 : otaDemoDev v1 v2 2 = some ("updating", v1) := rfl
  have hd3 : otaDemoDev v1 v2 3 = some ("idle", v2) := rfl
  have s3 : ota_poll (some v2) v1 (otaDemoDev v1 v2) (b + 1) 3 true v1 = .success v2 := by
    rw [ota_poll_step _ _ _ b 3 true v1 _ _ hd3]
    simp [isFalsyS, hb]
  have s2 : ota_poll (some v2) v1 (otaDemoDev v1 v2) (b + 2) 2 true v1 = .success v2 := by
    rw [ota_poll_step _ _ _ (b + 1) 2 true v1 _ _ hd2]
    simpa using s3
  have s1 : ota_poll (some v2) v1 (otaDemoDev v1 v2) (b + 3) 1 false v1 = .success v2 := by
    rw [ota_poll_step _ _ _ (b + 2) 1 false v1 _ _ hd1]
    simpa using s2
  rw [flash_poll, ota_poll_step _ _ _ (b + 3) 0 false v1 _ _ hd0]
  norm_num [s1]
  intro hcontra
  exact absurd hcontra (by decide)

/-! ### Supporting lemmas: credential push loops -/

theorem pdPasses_all_false (tries : Nat) (ack : Nat → Nat → Bool)
    (h : ∀ i j, ack i j = false) : ∀ (fuel i : Nat), pdPasses tries ack fuel i = false := by
  intro fuel
  induction fuel with
  | zero => intro i; rfl
  | succ f ih =>
    intro i
    rw [pdPasses]
    have : ((List.range tries).any (fun j => ack i j)) = false := by
      simp [List.any_eq_true, h]
    rw [this]
    simp only [Bool.false_eq_true, if_false]
    exact ih (i + 1)

theorem provision_device_all_false (tries : Nat) (ack : Nat → Nat → Bool)
    (h : ∀ i j, ack i j = false) : provision_device tries ack = false :=
  pdPasses_all_false tries ack h 5 0

theorem ddwrt_send_all_false (tries : Nat) (contact : Nat → Bool)
    (ack : Nat → Nat → Nat → Bool) (h : ∀ a i j, ack a i j = false) :
    ∀ (fuel a : Nat), ddwrt_send tries contact ack fuel a = .exitAfter10 ∨
      ddwrt_send tries contact ack fuel a = .exitNoContact := by
  intro fuel
  induction fuel with
  | zero => intro a; left; rfl
  | succ f ih =>
    intro a
    rw [ddwrt_send]
    by_cases hc : contact (a + 1)
    · have hpd : provision_device tries (ack (a + 1)) = false :=
        provision_device_all_false tries _ (fun i j => h (a + 1) i j)
      simp only [hc, hpd, Bool.not_true, Bool.false_eq_true, if_false]
      by_cases h10 : a + 1 ≥ 10
      · simp [h10]
      · simp only [h10, if_false]
        exact ih (a + 1)
    · simp only [Bool.not_eq_true] at hc
      simp [hc]

/-! ### Supporting lemmas: record selection -/

theorem condsCheck_false_iff (rec : Flat) (conds : List (String × String)) :
    ((conds.any fun q => ! (alookup rec q.1 == some q.2)) = false) ↔
      ∀ c ∈ conds, alookup rec c.1 = some c.2 := by
  rw [← Bool.not_eq_true, List.any_eq_true]
  push_neg
  constructor
  · intro h c hc
    have := h c hc
    simpa using this
  · intro h c hc
    simpa using h c hc

theorem tagCheck_false_iff (rec : Flat) (mt : Option String) :
    ((match mt with
      | some mtv => ! (mtv == "") &&
          (match alookup rec "Tags" with
           | none => true
           | some ts => ! (pySplit ts ',').contains mtv)
      | none => false) = false) ↔
      (∀ t0, mt = some t0 → t0 ≠ "" →
        ∃ ts, alookup rec "Tags" = some ts ∧ t0 ∈ pySplit ts ',') := by
  cases mt with
  | none => simp
  | some mtv =>
    by_cases he : mtv = ""
    · simp [he]
    · cases hts : alookup rec "Tags" with
      | none => simp [he, hts]
      | some ts =>
        simp [he, hts, List.elem_iff]

theorem groupCheck_false_iff (rec : Flat) (g : Option String) :
    ((match g with
      | some gv => ! (gv == "") && ! (alookup rec "Group" == some gv)
      | none => false) = false) ↔
      (∀ g0, g = some g0 → g0 ≠ "" → alookup rec "Group" = some g0) := by
  cases g with
  | none => simp
  | some gv =>
    by_cases he : gv = ""
    · simp [he]
    · simp [he]

theorem accessCheck_true_iff (rec : Flat) (access : String) :
    accessCheck rec access = some true ↔
      (access ≠ "ALL" → (alookup rec "Access").getD "Continuous" = access) := by
  unfold accessCheck
  by_cases hA : access = "ALL"
  · simp [hA]
  · simp only [hA, if_true, ne_eq, not_false_eq_true, forall_const, if_neg hA]
    by_cases hP : (alookup rec "Access").getD "Continuous" = access
    · simp [hP]
    · simp [hP]

theorem match_rec_true_iff (rec : Flat) (conds : List (String × String))
    (mt g : Option String) (access : String) :
    match_rec rec conds mt g none access = some true ↔
      ((∀ c ∈ conds, alookup rec c.1 = some c.2) ∧
       (∀ t0, mt = some t0 → t0 ≠ "" →
         ∃ ts, alookup rec "Tags" = some ts ∧ t0 ∈ pySplit ts ',') ∧
       (∀ g0, g = some g0 → g0 ≠ "" → alookup rec "Group" = some g0) ∧
       (access ≠ "ALL" → (alookup rec "Access").getD "Continuous" = access)) := by
  unfold match_rec
  by_cases h1 : (conds.any fun q => ! (alookup rec q.1 == some q.2)) = true
  · simp only [h1, if_true]
    constructor
    · intro hx; exact absurd hx (by simp)
    · rintro ⟨hA, -⟩
      rw [(condsCheck_false_iff rec conds).mpr hA] at h1
      exact absurd h1 (by decide)
  · have h1f := Bool.eq_false_iff.mpr h1
    simp only [h1f, Bool.false_eq_true, if_false]
    by_cases h2 : (match mt with
      | some mtv => ! (mtv == "") &&
          (match alookup rec "Tags" with
           | none => true
           | some ts => ! (pySplit ts ',').contains mtv)
      | none => false) = true
    · simp only [h2, if_true]
      constructor
      · intro hx; exact absurd hx (by simp)
      · rintro ⟨-, hB, -⟩
        rw [(tagCheck_false_iff rec mt).mpr hB] at h2
        exact absurd h2 (by decide)
    · have h2f := Bool.eq_false_iff.mpr h2
      simp only [h2f, Bool.false_eq_true, if_false]
      by_cases h3 : (match g with
        | some gv => ! (gv == "") && ! (alookup rec "Group" == some gv)
        | none => false) = true
      · simp only [h3, if_true]
        constructor
        · intro hx; exact absurd hx (by simp)
        · rintro ⟨-, -, hC, -⟩
          rw [(groupCheck_false_iff rec g).mpr hC] at h3
          exact absurd h3 (by decide)
      · have h3f := Bool.eq_false_iff.mpr h3
        simp only [h3f, Bool.false_eq_true, if_false]
        rw [accessCheck_true_iff]
        constructor
        · intro hD
          exact ⟨(condsCheck_false_iff rec conds).mp h1f,
                 (tagCheck_false_iff rec mt).mp h2f,
                 (groupCheck_false_iff rec g).mp h3f, hD⟩
        · rintro ⟨-, -, -, hD⟩
          exact hD

/-! ### Supporting lemmas: strings and commands -/

theorem string_ne_of_head {a b : String} {c1 c2 : Char}
    (ha : a.data.head? = some c1) (hb : b.data.head? = some c2) (hcc : c1 ≠ c2) :
    a ≠ b := by
  intro h
  subst h
  rw [ha] at hb
  exact hcc (Option.some.inj hb)

theorem set_cmd_head (x : String) : ("nvram set " ++ x).data.head? = some 'n' := by
  rw [String.data_append]
  rfl

theorem unset_cmd_head (x : String) : ("nvram unset " ++ x).data.head? = some 'n' := by
  rw [String.data_append]
  rfl

theorem radio_head : radioCycleCmd.data.head? = some 'w' := rfl

theorem restart_head : restartServicesCmd.data.head? = some 's' := rfl

theorem commit_head : commitCmd.data.head? = some 'n' := rfl

/-! ### Claim theorems -/

/-- C1: queue processing is idempotent: a provision-list pass yields only
entries whose ConfigStatus lacks CompletedTime; an entry with
CompletedTime set is never yielded and its record is left unchanged by the
pass, and likewise by a second (restarted) pass over the produced
queue. -/
theorem C1_completed_entries_never_reprocessed
    (gf sf : Option String) (t t2 : Nat) (q : List QRec) (i : Nat) (rec : QRec)
    (hget : q[i]? = some rec) (hc : hasCompleted rec = true) :
    ((read_device_queue_list gf sf t q).1)[i]? = some rec ∧
    (∀ r ∈ (read_device_queue_list gf sf t q).2, hasCompleted r = false) ∧
    ((read_device_queue_list gf sf t2 ((read_device_queue_list gf sf t q).1)).1)[i]?
      = some rec ∧
    (∀ r ∈ (read_device_queue_list gf sf t2 ((read_device_queue_list gf sf t q).1)).2,
      hasCompleted r = false) := by
  have h1 := read_device_queue_keeps_completed gf sf t q i rec hget hc
  exact ⟨h1, read_device_queue_yields_clean gf sf t q,
    read_device_queue_keeps_completed gf sf t2 _ i rec h1 hc,
    read_device_queue_yields_clean gf sf t2 _⟩

/-- Witness for C1 on a concrete two-entry queue whose first entry is
complete. -/
theorem C1_completed_entries_never_reprocessed_witness :
    ((read_device_queue_list none none 7 [qRecDone, qRecPending]).1)[0]? = some qRecDone ∧
    (∀ r ∈ (read_device_queue_list none none 7 [qRecDone, qRecPending]).2,
      hasCompleted r = false) ∧
    ((read_device_queue_list none none 8
        ((read_device_queue_list none none 7 [qRecDone, qRecPending]).1)).1)[0]?
      = some qRecDone ∧
    (∀ r ∈ (read_device_queue_list none none 8
        ((read_device_queue_list none none 7 [qRecDone, qRecPending]).1)).2,
      hasCompleted r = false) :=
  C1_completed_entries_never_reprocessed none none 7 8 [qRecDone, qRecPending] 0 qRecDone
    (by decide) (by decide)

/-- C2 counterexample: over a registry whose guide holds the two distinct
paths a.0 and b.0 sharing the final segment 0, the query engine resolves
the short name 0, absent from the guide, to a.0 without any error or
listing: it silently picks one of two matching fully-qualified paths. -/
theorem C2_counterexample_silent_pick :
    (guideKeysOf dbC2).contains "0" = false ∧
    "a.0" ∈ guideKeysOf dbC2 ∧ "b.0" ∈ guideKeysOf dbC2 ∧
    pyEndsWith "a.0" ("." ++ "0") = true ∧ pyEndsWith "b.0" ("." ++ "0") = true ∧
    "a.0" ≠ "b.0" ∧
    resolve_column (guideKeysOf dbC2) "0" = "a.0" := by decide

/-- C2 amended: a column present verbatim in the guide matches literally;
otherwise it resolves to a guide key ending in a dot and the column; a
unique such key is chosen, and with several the last one in guide
iteration order silently wins; with none the column stands. -/
theorem C2_column_resolution_last_match (ks : List String) (q : String) :
    (ks.contains q = true → resolve_column ks q = q) ∧
    (ks.contains q = false →
      (∀ g, ks.filter (fun g2 => pyEndsWith g2 ("." ++ q)) = [g] →
        resolve_column ks q = g) ∧
      (∀ gs g, ks.filter (fun g2 => pyEndsWith g2 ("." ++ q)) = gs ++ [g] →
        resolve_column ks q = g) ∧
      (ks.filter (fun g2 => pyEndsWith g2 ("." ++ q)) = [] → resolve_column ks q = q)) := by
  constructor
  · intro h
    rw [resolve_column, if_pos h]
  · intro h
    refine ⟨?_, ?_, ?_⟩
    · intro g hg
      rw [resolve_column, if_neg (by rw [h]; exact Bool.false_ne_true), hg]
      rfl
    · intro gs g hg
      rw [resolve_column, if_neg (by rw [h]; exact Bool.false_ne_true), hg,
        List.getLast?_concat]
    · intro hg
      rw [resolve_column, if_neg (by rw [h]; exact Bool.false_ne_true), hg]
      rfl

/-- C4: a flattened record matches a query with no restore filter iff all
name=value conditions hold on it, an active tag filter is a member of its
comma-split tag set, an active group filter equals its Group exactly, and
its access pattern (Continuous when absent) equals the access filter
unless that is ALL; and over records tagged A, B and A,B a match-tag
filter of A selects exactly the first and third. -/
theorem C4_match_rec_selection :
    (∀ (rec : Flat) (conds : List (String × String)) (mt g : Option String)
       (access : String),
      match_rec rec conds mt g none access = some true ↔
        ((∀ c ∈ conds, alookup rec c.1 = some c.2) ∧
         (∀ t0, mt = some t0 → t0 ≠ "" →
           ∃ ts, alookup rec "Tags" = some ts ∧ t0 ∈ pySplit ts ',') ∧
         (∀ g0, g = some g0 → g0 ≠ "" → alookup rec "Group" = some g0) ∧
         (access ≠ "ALL" → (alookup rec "Access").getD "Continuous" = access))) ∧
    ([recTagsA, recTagsB, recTagsAB].filter
        (fun r => match_rec r [] (some "A") none none "Continuous" == some true)
      = [recTagsA, recTagsAB]) :=
  ⟨match_rec_true_iff, by decide⟩

/-- C5: a device that never reports the updating status fails with the
distinct never-started outcome once the first eleven polls have passed
(any budget at least 11), which differs from the timed-out-while-updating
outcome; and a device reporting idle, updating, updating, idle at the new
version yields success with the new version. -/
theorem C5_ota_polling_outcomes :
    (∀ (nv : Option String) (origv v1 : String) (dev : Nat → Option (String × String)),
      (∀ i, dev i = some ("idle", v1)) → ∀ budget, 11 ≤ budget →
        flash_poll nv origv dev budget = OTAOutcome.neverStarted) ∧
    (∀ v1 v2 : String, v1 ≠ v2 → ∀ b : Nat,
      flash_poll (some v2) v1 (otaDemoDev v1 v2) (b + 4) = OTAOutcome.success v2) ∧
    (∀ v : String, OTAOutcome.neverStarted ≠ OTAOutcome.stillOld v) := by
  refine ⟨?_, ?_, ?_⟩
  · intro nv origv v1 dev h budget hb
    exact ota_poll_never_updating nv origv v1 dev h budget 0 origv (by omega) (by omega)
  · exact fun v1 v2 hne b => ota_poll_demo_success v1 v2 hne b
  · intro v h
    cases h

/-- C6: reading a registry or router-definitions file that parses as a
JSON object without the Format sentinel value automagic exits with the
corruption outcome instead of returning data; with the sentinel the
object is returned unchanged. -/
theorem C6_format_sentinel_gate (fs : List (String × JVal)) :
    (alookup fs "Format" ≠ some (JVal.str "automagic") →
      read_json_file (some (JVal.obj fs)) (FileEmpty.val (JVal.obj [])) JValidate.vTrue
        = ReadResult.corruptExit) ∧
    (alookup fs "Format" = some (JVal.str "automagic") →
      read_json_file (some (JVal.obj fs)) (FileEmpty.val (JVal.obj [])) JValidate.vTrue
        = ReadResult.ok (JVal.obj fs)) := by
  constructor
  · intro h
    have hv : (match alookup fs "Format" with
        | some (JVal.str s) => decide (s = "automagic")
        | _ => false) = false := by
      cases halk : alookup fs "Format" with
      | none => rfl
      | some v =>
        cases v with
        | str s =>
          by_cases hs : s = "automagic"
          · exact absurd (halk.trans (by rw [hs])) h
          · simp [hs]
        | num n => rfl
        | boolv b => rfl
        | null => rfl
        | obj o => rfl
        | arr a => rfl
    rw [read_json_file.eq_def]
    simp [jtypeTag, hv]
  · intro h
    rw [read_json_file.eq_def]
    simp [jtypeTag, h]

/-- C7: a credential push that is never acknowledged across all retry
passes makes provision_device return false, upon which provision_native
exits the whole run, and the dd-wrt path exits the run after its bounded
attempts (or earlier on contact failure) — in no case does the run
continue to the next queued entry. -/
theorem C7_credential_failure_fatal_to_run :
    (∀ (tries : Nat) (ack : Nat → Nat → Bool), (∀ i j, ack i j = false) →
      provision_device tries ack = false) ∧
    (∀ env : NativeEnv, (∀ i j, env.ack i j = false) → env.found.isSome = true →
      env.statusOK = true → env.reconnectOK = true →
      provision_native_step env = RunOutcome.exitRun) ∧
    (∀ (tries : Nat) (contact : Nat → Bool) (ack : Nat → Nat → Nat → Bool),
      (∀ a i j, ack a i j = false) →
      (ddwrt_send_loop tries contact ack = DdwrtSendOutcome.exitAfter10 ∨
       ddwrt_send_loop tries contact ack = DdwrtSendOutcome.exitNoContact) ∧
      (∀ att, ddwrt_send_loop tries contact ack ≠ DdwrtSendOutcome.proceeded att)) ∧
    (provision_native_step
        { found := some "shelly1-ABC123", statusOK := true, reconnectOK := true,
          ack := fun _ _ => false, checkResult := "OK", waitTime := 0 }
      = RunOutcome.exitRun) := by
  refine ⟨?_, ?_, ?_, by decide⟩
  · exact provision_device_all_false
  · intro env hack hf hs hr
    rcases hfound : env.found with _ | f
    · rw [hfound] at hf
      simp at hf
    · have hpd := provision_device_all_false 3 env.ack hack
      simp [provision_native_step, hfound, hs, hr, hpd]
  · intro tries contact ack hack
    have hd := ddwrt_send_all_false tries contact ack hack 10 0
    refine ⟨hd, ?_⟩
    intro att h
    have h2 : ddwrt_send tries contact ack 10 0 = DdwrtSendOutcome.proceeded att := h
    rcases hd with hd | hd <;>
      · have h3 : ddwrt_send tries contact ack 10 0 = _ := hd
        rw [h3] at h2
        cases h2

/-- C8: the role switch takes the fast path exactly when the node already
runs the target mode: after the nvram writes and commit only the service
restart command is issued, the HTTP apply with radio cycle never runs and
the recorded mode is unchanged; otherwise the apply sequence runs with the
radio cycle, no service restart is issued, and the recorded mode becomes
the target. -/
theorem C8_role_switch_fast_and_slow_path (currentMode m : String)
    (snap : String → String → String) (pgm : List (String × String))
    (from_db : List String) (deletes : Option (List String))
    (hm : alookup pgm "wl_mode" = some m) :
    (currentMode = m →
      (ddwrt_program_mode currentMode snap pgm from_db deletes).httpApply = false ∧
      (ddwrt_program_mode currentMode snap pgm from_db deletes).cmds =
        (pgm.map (fun kv => "nvram set " ++ kv.1 ++ "=\"" ++ kv.2 ++ "\"")) ++
        (from_db.map (fun k => "nvram set " ++ k ++ "=" ++ snap m k)) ++
        (match deletes with
         | some ds => ds.map (fun k => "nvram unset " ++ k)
         | none => []) ++ [commitCmd] ++ [restartServicesCmd] ∧
      radioCycleCmd ∉ (ddwrt_program_mode currentMode snap pgm from_db deletes).cmds ∧
      (ddwrt_program_mode currentMode snap pgm from_db deletes).currentMode
        = currentMode) ∧
    (currentMode ≠ m →
      (ddwrt_program_mode currentMode snap pgm from_db deletes).httpApply = true ∧
      (ddwrt_program_mode currentMode snap pgm from_db deletes).currentMode = m ∧
      restartServicesCmd ∉ (ddwrt_program_mode currentMode snap pgm from_db deletes).cmds)
    := by
  have hmode : (alookup pgm "wl_mode").getD "" = m := by rw [hm]; rfl
  constructor
  · intro hcur
    subst hcur
    simp only [ddwrt_program_mode, hmode, if_true]
    refine ⟨trivial, trivial, ?_, trivial⟩
    intro hmem
    simp only [List.mem_append, List.mem_map, List.mem_singleton] at hmem
    rcases hmem with (((⟨kv, _, hkv⟩ | ⟨k, _, hk⟩) | hdel) | hcommit) | hrestart
    · exact string_ne_of_head (set_cmd_head _) radio_head (by decide) hkv
    · exact string_ne_of_head (set_cmd_head _) radio_head (by decide) hk
    · rcases deletes with _ | ds
      · simp at hdel
      · simp only [List.mem_map] at hdel
        obtain ⟨k, _, hk⟩ := hdel
        exact string_ne_of_head (unset_cmd_head _) radio_head (by decide) hk
    · exact string_ne_of_head commit_head radio_head (by decide) hcommit.symm
    · exact string_ne_of_head restart_head radio_head (by decide) hrestart.symm
  · intro hcur
    simp only [ddwrt_program_mode, hmode]
    rw [if_neg hcur]
    refine ⟨rfl, rfl, ?_⟩
    intro hmem
    simp only [List.mem_append, List.mem_map, List.mem_singleton] at hmem
    rcases hmem with (((⟨kv, _, hkv⟩ | ⟨k, _, hk⟩) | hdel) | hcommit) | hradio
    · exact string_ne_of_head (set_cmd_head _) restart_head (by decide) hkv
    · exact string_ne_of_head (set_cmd_head _) restart_head (by decide) hk
    · rcases deletes with _ | ds
      · simp at hdel
      · simp only [List.mem_map] at hdel
        obtain ⟨k, _, hk⟩ := hdel
        exact string_ne_of_head (unset_cmd_head _) restart_head (by decide) hk
    · exact string_ne_of_head commit_head restart_head (by decide) hcommit.symm
    · exact string_ne_of_head radio_head restart_head (by decide) hradio.symm

/-- Witness for C8 at a concrete parameter set: requesting sta on a node
in sta mode takes the fast path without the radio cycle; on a node in ap
mode the slow path runs and records sta. -/
theorem C8_role_switch_fast_and_slow_path_witness :
    (ddwrt_program_mode "sta" (fun _ _ => "x") [("wl_mode", "sta")] [] none).httpApply
      = false ∧
    radioCycleCmd ∉
      (ddwrt_program_mode "sta" (fun _ _ => "x") [("wl_mode", "sta")] [] none).cmds ∧
    (ddwrt_program_mode "ap" (fun _ _ => "x") [("wl_mode", "sta")] [] none).httpApply
      = true ∧
    (ddwrt_program_mode "ap" (fun _ _ => "x") [("wl_mode", "sta")] [] none).currentMode
      = "sta" := by
  have h1 := C8_role_switch_fast_and_slow_path "sta" "sta" (fun _ _ => "x")
    [("wl_mode", "sta")] [] none (by decide)
  have h2 := C8_role_switch_fast_and_slow_path "ap" "sta" (fun _ _ => "x")
    [("wl_mode", "sta")] [] none (by decide)
  exact ⟨(h1.1 rfl).1, (h1.1 rfl).2.2.1, (h2.2 (by decide)).1, (h2.2 (by decide)).2.1⟩

/-- C10: tag mutation is set-like: set-tag yields the union of the old tag
set with the new tag (idempotent when already present) and delete-tag
yields the difference (idempotent when absent). -/
theorem C10_tag_mutation_set_semantics (tags : Option String) (t : String) :
    set_tag_set tags t = recTagSet tags ∪ {t} ∧
    (t ∈ recTagSet tags → set_tag_set tags t = recTagSet tags) ∧
    delete_tag_set tags t = recTagSet tags \ {t} ∧
    (t ∉ recTagSet tags → delete_tag_set tags t = recTagSet tags) := by
  refine ⟨rfl, ?_, rfl, ?_⟩
  · intro h
    exact Finset.union_eq_left.mpr (Finset.singleton_subset_iff.mpr h)
  · intro h
    exact Finset.sdiff_eq_self_iff_disjoint.mpr (Finset.disjoint_singleton_right.mpr h)

/-! ### Char-level rendering lemmas -/

theorem render_data (l : List String) : (render l).data = renderCharsL (l.map String.data) := by
  match l with
  | [] => rfl
  | [s] => rfl
  | s :: s2 :: rest =>
    show (s ++ "." ++ render (s2 :: rest)).data = _
    rw [String.data_append, String.data_append, render_data (s2 :: rest)]
    show s.data ++ ['.'] ++ _ = _
    simp [renderCharsL]

theorem renderPre_data (l : List String) :
    (renderPre l).data = preCharsL (l.map String.data) := by
  match l with
  | [] => rfl
  | s :: rest =>
    show (s ++ "." ++ renderPre rest).data = _
    rw [String.data_append, String.data_append, renderPre_data rest]
    show s.data ++ ['.'] ++ _ = _
    simp [preCharsL]

theorem pynorm_data (s : String) : (pynorm s).data = normChars s.data := rfl

theorem stripDot_data (s : String) : (stripDot s).data = stripDotChars s.data := rfl

theorem wildSeg_data (s : String) : (wildSeg s).data = wildC s.data := by
  rw [wildSeg, wildC]
  by_cases h : digitSegB s.data
  · simp [h]
  · simp [h]

theorem preCharsL_append_one (L : List (List Char)) (a : List Char) :
    preCharsL (L ++ [a]) = preCharsL L ++ a ++ ['.'] := by
  induction L with
  | nil => rfl
  | cons s rest ih =>
    show s ++ '.' :: preCharsL (rest ++ [a]) = (s ++ '.' :: preCharsL rest) ++ a ++ ['.']
    rw [ih]
    simp

theorem renderCharsL_append_one (L : List (List Char)) (a : List Char) :
    renderCharsL (L ++ [a]) = preCharsL L ++ a := by
  induction L with
  | nil => rfl
  | cons s rest ih =>
    cases rest with
    | nil => simp [renderCharsL, preCharsL]
    | cons s2 rest2 =>
      show s ++ '.' :: renderCharsL ((s2 :: rest2) ++ [a]) = preCharsL (s :: s2 :: rest2) ++ a
      rw [ih]
      simp [preCharsL, List.append_assoc]

theorem preCharsL_eq_renderCharsL_dot (L : List (List Char)) (h : L ≠ []) :
    preCharsL L = renderCharsL L ++ ['.'] := by
  induction L with
  | nil => exact absurd rfl h
  | cons s rest ih =>
    cases rest with
    | nil => rfl
    | cons s2 rest2 =>
      show s ++ '.' :: preCharsL (s2 :: rest2) = renderCharsL (s :: s2 :: rest2) ++ ['.']
      rw [ih (by simp)]
      simp [renderCharsL, List.append_assoc]

theorem stripDotChars_append_dot (cs : List Char) : stripDotChars (cs ++ ['.']) = cs := by
  induction cs with
  | nil => rfl
  | cons c rest ih =>
    cases rest with
    | nil => rfl
    | cons c2 rest2 => exact congrArg (List.cons c) ih

theorem renderPre_append_key (SS : List String) (k : String) :
    renderPre SS ++ k ++ "." = renderPre (SS ++ [k]) := by
  apply String.ext
  rw [String.data_append, String.data_append, renderPre_data, renderPre_data,
    List.map_append]
  simp only [List.map_cons, List.map_nil]
  rw [preCharsL_append_one]

theorem render_eq_renderPre_key (SS : List String) (k : String) :
    renderPre SS ++ k = render (SS ++ [k]) := by
  apply String.ext
  rw [String.data_append, renderPre_data, render_data, List.map_append]
  simp only [List.map_cons, List.map_nil]
  rw [renderCharsL_append_one]

theorem stripDot_renderPre (l : List String) : stripDot (renderPre l) = render l := by
  apply String.ext
  rw [stripDot_data, renderPre_data, render_data]
  cases l with
  | nil => rfl
  | cons s rest =>
    rw [preCharsL_eq_renderCharsL_dot _ (by simp), stripDotChars_append_dot]

/-! ### Split lemmas and injectivity of rendering -/

theorem splitCharsOn_notmem (sep : Char) (a : List Char) (h : a.contains sep = false) :
    splitCharsOn sep a = [a] := by
  induction a with
  | nil => rfl
  | cons c rest ih =>
    simp only [List.contains_cons, Bool.or_eq_false_iff] at h
    have hcr : ¬ c = sep := by
      intro hc
      subst hc
      simp at h
    rw [splitCharsOn, if_neg hcr, ih h.2]

theorem splitCharsOn_append (sep : Char) (a r : List Char) (h : a.contains sep = false) :
    splitCharsOn sep (a ++ sep :: r) = a :: splitCharsOn sep r := by
  induction a with
  | nil =>
    show splitCharsOn sep (sep :: r) = [] :: splitCharsOn sep r
    rw [splitCharsOn, if_pos rfl]
  | cons c rest ih =>
    simp only [List.contains_cons, Bool.or_eq_false_iff] at h
    have hcr : ¬ c = sep := by
      intro hc
      subst hc
      simp at h
    show splitCharsOn sep (c :: (rest ++ sep :: r)) = _
    rw [splitCharsOn, if_neg hcr, ih h.2]

theorem splitChars_renderCharsL (L : List (List Char)) (hL : L ≠ [])
    (h : ∀ s ∈ L, s.contains '.' = false) : splitChars (renderCharsL L) = L := by
  induction L with
  | nil => exact absurd rfl hL
  | cons s rest ih =>
    cases rest with
    | nil =>
      show splitChars (renderCharsL [s]) = [s]
      exact splitCharsOn_notmem '.' s (h s (by simp))
    | cons s2 rest2 =>
      show splitCharsOn '.' (s ++ '.' :: renderCharsL (s2 :: rest2)) = _
      rw [splitCharsOn_append '.' s _ (h s (by simp))]
      have := ih (by simp) (fun x hx => h x (List.mem_cons_of_mem s hx))
      rw [show splitChars (renderCharsL (s2 :: rest2))
          = splitCharsOn '.' (renderCharsL (s2 :: rest2)) from rfl] at this
      rw [this]

theorem render_injective (l1 l2 : List String) (h1 : l1 ≠ []) (h2 : l2 ≠ [])
    (hd1 : ∀ s ∈ l1, s.data.contains '.' = false)
    (hd2 : ∀ s ∈ l2, s.data.contains '.' = false)
    (heq : render l1 = render l2) : l1 = l2 := by
  have hdata : renderCharsL (l1.map String.data) = renderCharsL (l2.map String.data) := by
    rw [← render_data, ← render_data, heq]
  have hm1 : ∀ s ∈ l1.map String.data, s.contains '.' = false := by
    intro s hs
    obtain ⟨x, hx, rfl⟩ := List.mem_map.mp hs
    exact hd1 x hx
  have hm2 : ∀ s ∈ l2.map String.data, s.contains '.' = false := by
    intro s hs
    obtain ⟨x, hx, rfl⟩ := List.mem_map.mp hs
    exact hd2 x hx
  have hsplit : l1.map String.data = l2.map String.data := by
    rw [← splitChars_renderCharsL (l1.map String.data) (by simpa using h1) hm1,
      ← splitChars_renderCharsL (l2.map String.data) (by simpa using h2) hm2, hdata]
  have hinj : Function.Injective String.data := fun a b hab => String.ext hab
  exact List.map_injective_iff.mpr hinj hsplit

theorem render_contains_dot (p : List String) (h2 : 2 ≤ p.length) :
    (render p).data.contains '.' = true := by
  match p with
  | a :: b :: rest =>
    show (a ++ "." ++ render (b :: rest)).data.contains '.' = true
    rw [String.data_append, String.data_append]
    exact List.elem_iff.mpr (by simp)

/-! ### Behaviour of the wildcard regex pass -/

theorem not_mem_of_contains_false {cs : List Char} {c : Char}
    (h : cs.contains c = false) : c ∉ cs := by
  intro hm
  have h2 : cs.contains c = true := List.elem_iff.mpr hm
  rw [h2] at h
  cases h

theorem normCharsF_fuel : ∀ (f1 f2 : Nat) (cs : List Char),
    cs.length ≤ f1 → cs.length ≤ f2 → normCharsF f1 cs = normCharsF f2 cs
  | 0, f2, cs, h1, _ => by
    have hcs : cs = [] := List.length_eq_zero.mp (Nat.le_zero.mp h1)
    subst hcs
    cases f2 <;> rfl
  | f1 + 1, 0, cs, _, h2 => by
    have hcs : cs = [] := List.length_eq_zero.mp (Nat.le_zero.mp h2)
    subst hcs
    rfl
  | _ + 1, _ + 1, [], _, _ => rfl
  | f1 + 1, f2 + 1, c :: rest, h1, h2 => by
    simp only [List.length_cons, Nat.add_le_add_iff_right] at h1 h2
    by_cases hc : c = '.'
    · rw [normCharsF, normCharsF, if_pos hc, if_pos hc]
      split
      · rename_i head tail _ hrest0
        have htail : tail.length ≤ rest.length := by
          have hle : ('.' :: tail).length ≤ rest.length := by
            rw [← hrest0]
            exact (List.dropWhile_sublist Char.isDigit).length_le
          simp only [List.length_cons] at hle
          omega
        rw [normCharsF_fuel f1 f2 tail (le_trans htail h1) (le_trans htail h2)]
      · rw [normCharsF_fuel f1 f2 rest h1 h2]
    · rw [normCharsF, normCharsF, if_neg hc, if_neg hc,
        normCharsF_fuel f1 f2 rest h1 h2]
  termination_by f1 => f1

theorem normChars_cons_ne_dot (c : Char) (rest : List Char) (hc : ¬ c = '.') :
    normChars (c :: rest) = c :: normChars rest := by
  show normCharsF (rest.length + 1) (c :: rest) = _
  rw [normCharsF, if_neg hc]
  rfl

theorem normChars_append_dotfree (cs rest : List Char) (h : ∀ c ∈ cs, ¬ c = '.') :
    normChars (cs ++ rest) = cs ++ normChars rest := by
  induction cs with
  | nil => rfl
  | cons c cs2 ih =>
    show normChars (c :: (cs2 ++ rest)) = _
    rw [normChars_cons_ne_dot c _ (h c (by simp)),
      ih (fun x hx => h x (List.mem_cons_of_mem c hx))]
    rfl

theorem takeWhile_digits_stop (ds rest : List Char) (hd : ∀ c ∈ ds, c.isDigit = true) :
    (ds ++ '.' :: rest).takeWhile Char.isDigit = ds ∧
    (ds ++ '.' :: rest).dropWhile Char.isDigit = '.' :: rest := by
  have hdot : ('.' : Char).isDigit = false := by decide
  induction ds with
  | nil =>
    constructor
    · show List.takeWhile Char.isDigit ('.' :: rest) = []
      simp [List.takeWhile_cons, hdot]
    · show List.dropWhile Char.isDigit ('.' :: rest) = '.' :: rest
      simp [List.dropWhile_cons, hdot]
  | cons d ds2 ih =>
    have hdig := hd d (by simp)
    have ih2 := ih (fun x hx => hd x (List.mem_cons_of_mem d hx))
    constructor
    · show List.takeWhile Char.isDigit (d :: (ds2 ++ '.' :: rest)) = d :: ds2
      rw [List.takeWhile_cons, hdig]
      simp [ih2.1]
    · show List.dropWhile Char.isDigit (d :: (ds2 ++ '.' :: rest)) = '.' :: rest
      rw [List.dropWhile_cons, hdig]
      simp [ih2.2]

theorem normChars_dot_digits (ds rest : List Char) (hne : ds ≠ [])
    (hd : ∀ c ∈ ds, c.isDigit = true) :
    normChars ('.' :: ds ++ '.' :: rest)
      = '.' :: '[' :: 'n' :: ']' :: '.' :: normChars rest := by
  have hspan := takeWhile_digits_stop ds rest hd
  obtain ⟨d, ds2, rfl⟩ : ∃ d ds2, ds = d :: ds2 := by
    cases ds with
    | nil => exact absurd rfl hne
    | cons d ds2 => exact ⟨d, ds2, rfl⟩
  show normCharsF (((d :: ds2) ++ '.' :: rest).length + 1) ('.' :: ((d :: ds2) ++ '.' :: rest)) = _
  rw [normCharsF, if_pos rfl, hspan.1, hspan.2]
  have hfuel : normCharsF ((d :: ds2) ++ '.' :: rest).length rest = normChars rest := by
    apply normCharsF_fuel
    · simp
      omega
    · rfl
  rw [show (match (d :: ds2 : List Char), ('.' :: rest : List Char) with
      | _ :: _, '.' :: tail =>
        '.' :: '[' :: 'n' :: ']' :: '.' :: normCharsF ((d :: ds2) ++ '.' :: rest).length tail
      | _, _ => '.' :: normCharsF ((d :: ds2) ++ '.' :: rest).length ((d :: ds2) ++ '.' :: rest))
      = '.' :: '[' :: 'n' :: ']' :: '.' :: normCharsF ((d :: ds2) ++ '.' :: rest).length rest
      from rfl]
  rw [hfuel]

theorem normChars_dot_nomatch (l : List Char)
    (h : l.takeWhile Char.isDigit = [] ∨ (l.dropWhile Char.isDigit).head? ≠ some '.') :
    normChars ('.' :: l) = '.' :: normChars l := by
  show normCharsF (l.length + 1) ('.' :: l) = _
  rw [normCharsF, if_pos rfl]
  rcases h with h | h
  · rw [h]
    cases hdw : l.dropWhile Char.isDigit <;> rfl
  · cases hdw : l.dropWhile Char.isDigit with
    | nil =>
      cases htw : l.takeWhile Char.isDigit <;> rfl
    | cons c tail =>
      have hc : ¬ c = '.' := by
        rw [hdw] at h
        simpa using h
      cases htw : l.takeWhile Char.isDigit with
      | nil => rfl
      | cons a b =>
        split
        · rename_i heq1 heq2
          exact absurd (by injection heq2.symm with hh _; exact hh.symm) hc
        · rfl

theorem span_nondigit_seg (s2 X : List Char) (hnd : digitSegB s2 = false)
    (hs2 : s2 ≠ []) (hdf : '.' ∉ s2) :
    (s2 ++ X).takeWhile Char.isDigit = [] ∨
    ((s2 ++ X).dropWhile Char.isDigit).head? ≠ some '.' := by
  induction s2 with
  | nil => exact absurd rfl hs2
  | cons c s3 ih =>
    by_cases hc : c.isDigit = true
    · have hs3ne : s3 ≠ [] := by
        intro hc3
        subst hc3
        simp [digitSegB, hc] at hnd
      have hs3nd : digitSegB s3 = false := by
        simp only [digitSegB, Bool.and_eq_false_iff] at hnd ⊢
        rcases hnd with hnd | hnd
        · simp [hs3ne] at hnd
        · right
          simp only [List.all_cons, Bool.and_eq_false_iff, hc] at hnd
          rcases hnd with hnd | hnd
          · simp at hnd
          · exact hnd
      have hdf3 : '.' ∉ s3 := fun hm => hdf (List.mem_cons_of_mem c hm)
      right
      show (List.dropWhile Char.isDigit (c :: (s3 ++ X))).head? ≠ some '.'
      rw [List.dropWhile_cons, hc]
      simp only [if_true]
      rcases ih hs3nd hs3ne hdf3 with h | h
      · obtain ⟨c3, s4, rfl⟩ : ∃ c3 s4, s3 = c3 :: s4 := by
          cases s3 with
          | nil => exact absurd rfl hs3ne
          | cons c3 s4 => exact ⟨c3, s4, rfl⟩
        have hc3 : c3.isDigit = false := by
          by_contra hcc
          simp only [Bool.not_eq_false] at hcc
          rw [show ((c3 :: s4 ++ X).takeWhile Char.isDigit)
              = List.takeWhile Char.isDigit (c3 :: (s4 ++ X)) from rfl,
            List.takeWhile_cons, hcc] at h
          simp at h
        show (List.dropWhile Char.isDigit (c3 :: (s4 ++ X))).head? ≠ some '.'
        rw [List.dropWhile_cons, hc3]
        simp only [Bool.false_eq_true, if_false, List.head?_cons, ne_eq,
          Option.some.injEq]
        intro hceq
        exact hdf (by simp [hceq])
      · exact h
    · left
      show List.takeWhile Char.isDigit (c :: (s3 ++ X)) = []
      rw [List.takeWhile_cons]
      simp only [Bool.not_eq_true] at hc
      simp [hc]

theorem segsOKc_true_of_false {L : List (List Char)} (h : segsOKc false L = true) :
    segsOKc true L = true := by
  cases L with
  | nil => rfl
  | cons s rest =>
    by_cases hd : digitSegB s = true
    · rw [segsOKc, if_pos hd] at h
      simp at h
    · simp only [Bool.not_eq_true] at hd
      rw [segsOKc, hd] at h ⊢
      simpa using h

theorem normChars_preCharsL : ∀ (L : List (List Char)),
    (∀ s ∈ L, s.contains '.' = false) → segsOKc false L = true →
    normChars (preCharsL L) = preCharsL (L.map wildC)
  | [], _, _ => rfl
  | s :: rest, hdot, hok => by
    have hs_dot : s.contains '.' = false := hdot s (by simp)
    have hs_nd : digitSegB s = false := by
      by_contra hc
      simp only [Bool.not_eq_false] at hc
      rw [segsOKc, if_pos hc] at hok
      simp at hok
    have hok1 : segsOKc true rest = true := by
      rw [segsOKc, hs_nd] at hok
      simpa using hok
    have hmem : ∀ c ∈ s, ¬ c = '.' := by
      intro c hc hcd
      subst hcd
      exact not_mem_of_contains_false hs_dot hc
    have hwild : wildC s = s := by rw [wildC, hs_nd]; simp
    show normChars (s ++ '.' :: preCharsL rest) = preCharsL ((s :: rest).map wildC)
    rw [normChars_append_dotfree s _ hmem]
    simp only [List.map_cons, hwild]
    show s ++ normChars ('.' :: preCharsL rest) = s ++ '.' :: preCharsL (rest.map wildC)
    cases rest with
    | nil =>
      show s ++ normChars ('.' :: ([] : List Char)) = _
      rw [normChars_dot_nomatch [] (by simp)]
      rfl
    | cons s2 rest2 =>
      have hdot2 : ∀ x ∈ s2 :: rest2, x.contains '.' = false :=
        fun x hx => hdot x (List.mem_cons_of_mem s hx)
      by_cases hd2 : digitSegB s2 = true
      · have hs2ne : s2 ≠ [] := by
          intro hc
          subst hc
          simp [digitSegB] at hd2
        have hs2dig : ∀ c ∈ s2, c.isDigit = true := by
          have := hd2
          simp only [digitSegB, Bool.and_eq_true, List.all_eq_true] at this
          exact fun c hc => this.2 c hc
        have hok2 : segsOKc false rest2 = true := by
          rw [segsOKc, if_pos hd2] at hok1
          simpa using hok1
        have hdot3 : ∀ x ∈ rest2, x.contains '.' = false :=
          fun x hx => hdot2 x (List.mem_cons_of_mem s2 hx)
        show s ++ normChars ('.' :: (s2 ++ '.' :: preCharsL rest2)) = _
        rw [show ('.' :: (s2 ++ '.' :: preCharsL rest2) : List Char)
            = ('.' :: s2) ++ '.' :: preCharsL rest2 from (List.cons_append _ _ _).symm]
        rw [normChars_dot_digits s2 _ hs2ne hs2dig,
          normChars_preCharsL rest2 hdot3 hok2]
        have hwild2 : wildC s2 = ['[', 'n', ']'] := by simp [wildC, hd2]
        simp [hwild2, preCharsL]
      · have hok2 : segsOKc false (s2 :: rest2) = true := by
          simp only [Bool.not_eq_true] at hd2
          rw [segsOKc, hd2] at hok1 ⊢
          exact hok1
        have hnm : normChars ('.' :: preCharsL (s2 :: rest2))
            = '.' :: normChars (preCharsL (s2 :: rest2)) := by
          apply normChars_dot_nomatch
          cases hs2e : s2 with
          | nil =>
            left
            show List.takeWhile Char.isDigit ('.' :: preCharsL rest2) = []
            rw [List.takeWhile_cons]
            simp [(by decide : ('.' : Char).isDigit = false)]
          | cons c s3 =>
            have := span_nondigit_seg s2 ('.' :: preCharsL rest2)
              (by simp only [Bool.not_eq_true] at hd2; exact hd2)
              (by rw [hs2e]; simp)
              (not_mem_of_contains_false (hdot2 s2 (by simp)))
            rw [hs2e] at this
            exact this
        rw [hnm, normChars_preCharsL (s2 :: rest2) hdot2 hok2]
  termination_by L => L.length

theorem normChars_renderCharsL : ∀ (L : List (List Char)),
    (∀ s ∈ L, s.contains '.' = false) → segsOKc false L = true →
    (∀ s, L.getLast? = some s → digitSegB s = false) →
    normChars (renderCharsL L) = renderCharsL (L.map wildC)
  | [], _, _, _ => rfl
  | [s], hdot, _, hlast => by
    have hs_nd : digitSegB s = false := hlast s rfl
    have hmem : ∀ c ∈ s, ¬ c = '.' := by
      intro c hc hcd
      subst hcd
      exact not_mem_of_contains_false (hdot s (by simp)) hc
    have hwild : wildC s = s := by rw [wildC, hs_nd]; simp
    have hself : normChars s = s := by
      have h := normChars_append_dotfree s [] hmem
      rw [show normChars [] = ([] : List Char) from rfl, List.append_nil] at h
      exact h
    show normChars s = renderCharsL [wildC s]
    rw [hwild]
    exact hself
  | s :: s2 :: rest, hdot, hok, hlast => by
    have hs_dot : s.contains '.' = false := hdot s (by simp)
    have hs_nd : digitSegB s = false := by
      by_contra hc
      simp only [Bool.not_eq_false] at hc
      rw [segsOKc, if_pos hc] at hok
      simp at hok
    have hok1 : segsOKc true (s2 :: rest) = true := by
      rw [segsOKc, hs_nd] at hok
      simpa using hok
    have hmem : ∀ c ∈ s, ¬ c = '.' := by
      intro c hc hcd
      subst hcd
      exact not_mem_of_contains_false hs_dot hc
    have hwild : wildC s = s := by rw [wildC, hs_nd]; simp
    have hdot2 : ∀ x ∈ s2 :: rest, x.contains '.' = false :=
      fun x hx => hdot x (List.mem_cons_of_mem s hx)
    have hlast2 : ∀ x, (s2 :: rest).getLast? = some x → digitSegB x = false := by
      intro x hx
      exact hlast x (by rw [List.getLast?_cons_cons]; exact hx)
    show normChars (s ++ '.' :: renderCharsL (s2 :: rest)) = _
    rw [normChars_append_dotfree s _ hmem]
    simp only [List.map_cons, hwild]
    show s ++ normChars ('.' :: renderCharsL (s2 :: rest))
      = renderCharsL (s :: wildC s2 :: rest.map wildC)
    by_cases hd2 : digitSegB s2 = true
    · cases rest with
      | nil => exact absurd (hlast2 s2 rfl) (by simp [hd2])
      | cons r rest2 =>
        have hs2ne : s2 ≠ [] := by
          intro hc
          subst hc
          simp [digitSegB] at hd2
        have hs2dig : ∀ c ∈ s2, c.isDigit = true := by
          have := hd2
          simp only [digitSegB, Bool.and_eq_true, List.all_eq_true] at this
          exact fun c hc => this.2 c hc
        have hok2 : segsOKc false (r :: rest2) = true := by
          rw [segsOKc, if_pos hd2] at hok1
          simpa using hok1
        have hdot3 : ∀ x ∈ r :: rest2, x.contains '.' = false :=
          fun x hx => hdot2 x (List.mem_cons_of_mem s2 hx)
        have hlast3 : ∀ x, (r :: rest2).getLast? = some x → digitSegB x = false := by
          intro x hx
          exact hlast2 x (by rw [List.getLast?_cons_cons]; exact hx)
        show s ++ normChars ('.' :: (s2 ++ '.' :: renderCharsL (r :: rest2))) = _
        rw [show ('.' :: (s2 ++ '.' :: renderCharsL (r :: rest2)) : List Char)
            = ('.' :: s2) ++ '.' :: renderCharsL (r :: rest2) from (List.cons_append _ _ _).symm]
        rw [normChars_dot_digits s2 _ hs2ne hs2dig,
          normChars_renderCharsL (r :: rest2) hdot3 hok2 hlast3]
        have hwild2 : wildC s2 = ['[', 'n', ']'] := by simp [wildC, hd2]
        simp [hwild2, renderCharsL]
    · have hok2 : segsOKc false (s2 :: rest) = true := by
        simp only [Bool.not_eq_true] at hd2
        rw [segsOKc, hd2] at hok1 ⊢
        exact hok1
      have hnm : normChars ('.' :: renderCharsL (s2 :: rest))
          = '.' :: normChars (renderCharsL (s2 :: rest)) := by
        apply normChars_dot_nomatch
        cases hs2e : s2 with
        | nil =>
          cases rest with
          | nil =>
            left
            rfl
          | cons r rest2 =>
            left
            show List.takeWhile Char.isDigit ([] ++ '.' :: renderCharsL (r :: rest2)) = []
            rw [List.nil_append, List.takeWhile_cons]
            simp [(by decide : ('.' : Char).isDigit = false)]
        | cons c s3 =>
          have hrepr : ∃ X, renderCharsL (s2 :: rest) = s2 ++ X := by
            cases rest with
            | nil => exact ⟨[], by simp [renderCharsL]⟩
            | cons r rest2 => exact ⟨'.' :: renderCharsL (r :: rest2), rfl⟩
          obtain ⟨X, hX⟩ := hrepr
          rw [hs2e] at hX
          rw [hX]
          have := span_nondigit_seg s2 X
            (by simp only [Bool.not_eq_true] at hd2; exact hd2)
            (by rw [hs2e]; simp)
            (not_mem_of_contains_false (hdot2 s2 (by simp)))
          rw [hs2e] at this
          exact this
      rw [hnm, normChars_renderCharsL (s2 :: rest) hdot2 hok2 hlast2]
      rfl
  termination_by L => L.length

/-! ### Membership and key-set lemmas for dict update and guide merge -/

theorem alookup_mem {K B : Type} [DecidableEq K] (d : List (K × B)) (k : K) (v : B)
    (h : alookup d k = some v) : (k, v) ∈ d := by
  induction d with
  | nil => cases h
  | cons kv rest ih =>
    by_cases hk : kv.1 = k
    · rw [alookup, if_pos hk] at h
      have hv : kv.2 = v := Option.some.inj h
      have hkv : kv = (k, v) := by
        cases kv
        cases hk
        cases hv
        rfl
      rw [← hkv]
      exact List.mem_cons_self _ _
    · rw [alookup, if_neg hk] at h
      exact List.mem_cons_of_mem _ (ih h)

theorem alookup_eq_none {K B : Type} [DecidableEq K] (d : List (K × B)) (k : K)
    (h : ∀ kv ∈ d, kv.1 ≠ k) : alookup d k = none := by
  induction d with
  | nil => rfl
  | cons kv rest ih =>
    rw [alookup, if_neg (h kv (List.mem_cons_self _ _))]
    exact ih (fun kv2 h2 => h kv2 (List.mem_cons_of_mem _ h2))

theorem mem_dictUpd {K B : Type} [DecidableEq K] {d u : List (K × B)} {kv : K × B}
    (h : kv ∈ dictUpd d u) : kv ∈ d ∨ kv ∈ u := by
  rw [dictUpd] at h
  rcases List.mem_append.mp h with h1 | h2
  · obtain ⟨kv0, hkv0, heq⟩ := List.mem_map.mp h1
    cases hu : alookup u kv0.1 with
    | some v =>
      rw [hu] at heq
      right
      rw [← heq]
      exact alookup_mem u kv0.1 v hu
    | none =>
      rw [hu] at heq
      left
      rw [← heq]
      exact hkv0
  · right
    exact List.mem_of_mem_filter h2

theorem hasKey_dictUpd {K B : Type} [DecidableEq K] (d u : List (K × B)) (k : K) :
    hasKey (dictUpd d u) k = (hasKey d k || hasKey u k) := by
  rw [hasKey, hasKey, hasKey, alookup_dictUpd]
  cases hu : alookup u k <;> cases hd : alookup d k <;> simp [Option.orElse]

theorem dictUpd_nil_right {K B : Type} [DecidableEq K] (d : List (K × B)) :
    dictUpd d [] = d := by
  rw [dictUpd]
  have h1 : d.map (fun kv => match alookup ([] : List (K × B)) kv.1 with
      | some v => (kv.1, v)
      | none => kv) = d := by
    have h0 : ∀ kv : K × B, (match alookup ([] : List (K × B)) kv.1 with
        | some v => ((kv.1, v) : K × B)
        | none => kv) = kv := fun kv => rfl
    calc d.map (fun kv => match alookup ([] : List (K × B)) kv.1 with
          | some v => (kv.1, v)
          | none => kv)
        = d.map id := List.map_congr_left (fun kv _ => h0 kv)
      _ = d := List.map_id d
  rw [h1]
  simp

theorem dictUpd_nil_left {K B : Type} [DecidableEq K] (u : List (K × B)) :
    dictUpd [] u = u := by
  rw [dictUpd]
  rw [List.map_nil, List.nil_append]
  apply List.filter_eq_self.mpr
  intro a _
  rfl

theorem guideMerge_map_isSome (o : Guide) : ∀ (n : Guide) (k : String),
    (alookup (n.map (fun pv => match alookup o pv.1 with
      | some inner => (pv.1, dictUpd pv.2 inner)
      | none => pv)) k).isSome = (alookup n k).isSome := by
  intro n
  induction n with
  | nil => intro k; rfl
  | cons pv rest ih =>
    intro k
    rw [List.map_cons]
    have hh1 : ((fun pv : String × GuideInner => match alookup o pv.1 with
        | some inner => (pv.1, dictUpd pv.2 inner)
        | none => pv) pv).1 = pv.1 := by
      cases ho : alookup o pv.1 <;> simp [ho]
    by_cases hk : pv.1 = k
    · rw [alookup, if_pos (by rw [hh1]; exact hk), alookup, if_pos hk]
      rfl
    · rw [alookup, if_neg (by rw [hh1]; exact hk), alookup, if_neg hk]
      exact ih k

theorem hasKey_guideMerge (n o : Guide) (k : String) :
    hasKey (guideMerge n o) k = (hasKey n k || hasKey o k) := by
  rw [guideMerge, hasKey, alookup_append]
  have hm := guideMerge_map_isSome o n k
  cases hn : alookup n k with
  | some inner =>
    rw [hn] at hm
    cases hmv : alookup (n.map (fun pv => match alookup o pv.1 with
        | some inner => (pv.1, dictUpd pv.2 inner)
        | none => pv)) k with
    | none => rw [hmv] at hm; cases hm
    | some x =>
      simp [hasKey, hn, Option.orElse]
  | none =>
    rw [hn] at hm
    cases hmv : alookup (n.map (fun pv => match alookup o pv.1 with
        | some inner => (pv.1, dictUpd pv.2 inner)
        | none => pv)) k with
    | some x => rw [hmv] at hm; cases hm
    | none =>
      rw [alookup_filter_not_hasKey n o k hn]
      simp [hasKey, hn, Option.orElse]

theorem guideMerge_forall (n o : Guide) (Q : String × GuideInner → Prop)
    (hn : ∀ g ∈ n, Q g) (ho : ∀ g ∈ o, Q g)
    (hQ : ∀ gk i1 i2, Q (gk, i1) → Q (gk, i2) → Q (gk, dictUpd i1 i2)) :
    ∀ g ∈ guideMerge n o, Q g := by
  intro g hg
  rw [guideMerge] at hg
  rcases List.mem_append.mp hg with h1 | h2
  · obtain ⟨pv, hpv, heq⟩ := List.mem_map.mp h1
    cases ho2 : alookup o pv.1 with
    | some inner =>
      rw [ho2] at heq
      have hmo : (pv.1, inner) ∈ o := alookup_mem o pv.1 inner ho2
      have h3 := hQ pv.1 pv.2 inner (hn pv hpv) (ho _ hmo)
      rw [← heq]
      exact h3
    | none =>
      rw [ho2] at heq
      rw [← heq]
      exact hn pv hpv
  · exact ho g (List.mem_of_mem_filter h2)

/-! ### Segment facts: decimal indexes, well-formed keys, segment lists -/

theorem natRepr_dotfree (i : Nat) : (Nat.repr i).data.contains '.' = false := by
  rw [natRepr_data]
  by_contra hc
  simp only [Bool.not_eq_false] at hc
  have hm : '.' ∈ reprDigits i := List.elem_iff.mp hc
  exact absurd (reprDigits_all_isDigit i '.' hm) (by decide)

theorem digitSegB_natRepr (i : Nat) : digitSegB (Nat.repr i).data = true := by
  rw [digitSegB, natRepr_data, Bool.and_eq_true]
  refine ⟨?_, ?_⟩
  · cases h : reprDigits i with
    | nil => exact absurd h (reprDigits_ne_nil i)
    | cons a l => rfl
  · exact List.all_eq_true.mpr (fun c hc => reprDigits_all_isDigit i c hc)

theorem keyOK_dotfree {k : String} (h : keyOK k = true) : k.data.contains '.' = false := by
  rw [keyOK, Bool.and_eq_true] at h
  obtain ⟨h1, h2⟩ := h
  simp only [Bool.not_eq_true'] at h1
  exact h1

theorem keyOK_nondigit {k : String} (h : keyOK k = true) : digitSegB k.data = false := by
  rw [keyOK, Bool.and_eq_true] at h
  obtain ⟨h1, h2⟩ := h
  simp only [Bool.not_eq_true'] at h2
  exact h2

theorem WFFields_cons {k : String} {v : JVal} {rest : List (String × JVal)}
    (h : WFFields ((k, v) :: rest) = true) :
    keyOK k = true ∧ WFJ v = true ∧ WFFields rest = true := by
  rw [WFFields, Bool.and_eq_true, Bool.and_eq_true] at h
  exact ⟨h.1.1, h.1.2, h.2⟩

theorem WFFields_keyOK : ∀ {fs : List (String × JVal)} {k : String} {v : JVal},
    WFFields fs = true → (k, v) ∈ fs → keyOK k = true := by
  intro fs
  induction fs with
  | nil => intro k v _ hm; cases hm
  | cons kv rest ih =>
    intro k v hwf hm
    obtain ⟨k0, v0⟩ := kv
    rcases List.mem_cons.mp hm with heq | hm2
    · have hk : k0 = k := (congrArg Prod.fst heq.symm)
      rw [← hk]
      exact (WFFields_cons hwf).1
    · exact ih (WFFields_cons hwf).2.2 hm2

theorem WFJ_obj {fs : List (String × JVal)} (h : WFJ (JVal.obj fs) = true) :
    nodupKeys (fs.map Prod.fst) = true ∧ WFFields fs = true := by
  rw [WFJ, Bool.and_eq_true] at h
  exact h

theorem WFElems_cons {e : JVal} {rest : List JVal} (h : WFElems (e :: rest) = true) :
    WFJ e = true ∧ WFElems rest = true := by
  rw [WFElems, Bool.and_eq_true] at h
  exact h

theorem segsOKc_append_nondigit (a : List Char) (ha : digitSegB a = false) :
    ∀ (L : List (List Char)) (al : Bool),
      segsOKc al L = true → segsOKc al (L ++ [a]) = true := by
  intro L
  induction L with
  | nil =>
    intro al _
    show segsOKc al [a] = true
    simp [segsOKc, ha]
  | cons s rest ih =>
    intro al h
    show segsOKc al (s :: (rest ++ [a])) = true
    by_cases hs : digitSegB s = true
    · simp only [segsOKc, hs, if_true, Bool.and_eq_true] at h ⊢
      exact ⟨h.1, ih false h.2⟩
    · simp only [Bool.not_eq_true] at hs
      simp only [segsOKc, hs, Bool.false_eq_true, if_false] at h ⊢
      exact ih true h

theorem segsOKc_append_pair (a b : List Char) (ha : digitSegB a = false)
    (hb : digitSegB b = true) :
    ∀ (L : List (List Char)) (al : Bool),
      segsOKc al L = true → segsOKc al (L ++ [a, b]) = true := by
  intro L
  induction L with
  | nil =>
    intro al _
    show segsOKc al [a, b] = true
    simp [segsOKc, ha, hb]
  | cons s rest ih =>
    intro al h
    show segsOKc al (s :: (rest ++ [a, b])) = true
    by_cases hs : digitSegB s = true
    · simp only [segsOKc, hs, if_true, Bool.and_eq_true] at h ⊢
      exact ⟨h.1, ih false h.2⟩
    · simp only [Bool.not_eq_true] at hs
      simp only [segsOKc, hs, Bool.false_eq_true, if_false] at h ⊢
      exact ih true h

theorem segsOK_append_key (SS : List String) (k : String) (hk : digitSegB k.data = false)
    (h : segsOK false SS = true) : segsOK false (SS ++ [k]) = true := by
  rw [segsOK] at h ⊢
  simp only [List.map_append, List.map_cons, List.map_nil]
  exact segsOKc_append_nondigit k.data hk _ false h

theorem segsOK_append_idx (SS : List String) (k : String) (i : Nat)
    (hk : digitSegB k.data = false) (h : segsOK false SS = true) :
    segsOK false (SS ++ [k, Nat.repr i]) = true := by
  rw [segsOK] at h ⊢
  simp only [List.map_append, List.map_cons, List.map_nil]
  exact segsOKc_append_pair k.data (Nat.repr i).data hk (digitSegB_natRepr i) _ false h

theorem getLast?_cons_of_ne_nil {α : Type} (a : α) {l : List α} (h : l ≠ []) :
    (a :: l).getLast? = l.getLast? := by
  cases l with
  | nil => exact absurd rfl h
  | cons b m => exact List.getLast?_cons_cons

/-! ### The wildcard image of a rendered path -/

theorem pynorm_render (l : List String) (h1 : ∀ s ∈ l, s.data.contains '.' = false)
    (h2 : segsOK false l = true) (h3 : ∀ s, l.getLast? = some s → digitSegB s.data = false) :
    pynorm (render l) = render (l.map wildSeg) := by
  apply String.ext
  rw [pynorm_data, render_data, render_data]
  have hm1 : ∀ cs ∈ l.map String.data, cs.contains '.' = false := by
    intro cs hcs
    obtain ⟨x, hx, rfl⟩ := List.mem_map.mp hcs
    exact h1 x hx
  have hlast : ∀ cs, (l.map String.data).getLast? = some cs → digitSegB cs = false := by
    intro cs hcs
    rw [List.getLast?_map] at hcs
    cases hl : l.getLast? with
    | none => rw [hl] at hcs; cases hcs
    | some s =>
      rw [hl] at hcs
      have hsd : s.data = cs := Option.some.inj hcs
      rw [← hsd]
      exact h3 s hl
  rw [normChars_renderCharsL (l.map String.data) hm1 h2 hlast]
  congr 1
  rw [List.map_map, List.map_map]
  apply List.map_congr_left
  intro s _
  exact (wildSeg_data s).symm

theorem pynorm_renderPre_strip (l : List String)
    (h1 : ∀ s ∈ l, s.data.contains '.' = false) (h2 : segsOK false l = true) :
    stripDot (pynorm (renderPre l)) = render (l.map wildSeg) := by
  cases l with
  | nil => rfl
  | cons s rest =>
    apply String.ext
    rw [stripDot_data, pynorm_data, renderPre_data, render_data]
    rw [normChars_preCharsL ((s :: rest).map String.data)
      (by
        intro cs hcs
        obtain ⟨x, hx, rfl⟩ := List.mem_map.mp hcs
        exact h1 x hx) h2]
    rw [preCharsL_eq_renderCharsL_dot _ (by simp)]
    rw [stripDotChars_append_dot]
    congr 1
    rw [List.map_map, List.map_map]
    apply List.map_congr_left
    intro x _
    exact (wildSeg_data x).symm

/-! ### Shape of leaf paths -/

theorem leavesElems_shape (k : String) : ∀ (es : List JVal) (i : Nat) (p : List String)
    (s : String), (p, s) ∈ leavesElems k es i →
    ∃ j rest, i ≤ j ∧ p = k :: Nat.repr j :: rest := by
  intro es
  induction es with
  | nil => intro i p s h; cases h
  | cons e rest ih =>
    intro i p s h
    cases e with
    | obj gs =>
      have h3 : (p, s) ∈ (leavesOf (JVal.obj gs)).map
          (fun ps => (k :: Nat.repr i :: ps.1, ps.2)) ++ leavesElems k rest (i + 1) := h
      rcases List.mem_append.mp h3 with h1 | h2
      · obtain ⟨ps, _, heq⟩ := List.mem_map.mp h1
        injection heq with hp hs
        exact ⟨i, ps.1, Nat.le_refl i, hp.symm⟩
      · obtain ⟨j, rest2, hij, hp⟩ := ih (i + 1) p s h2
        exact ⟨j, rest2, Nat.le_of_succ_le hij, hp⟩
    | str s0 =>
      have h3 : (p, s) ∈ [([k, Nat.repr i], pyStr (JVal.str s0))]
          ++ leavesElems k rest (i + 1) := h
      rcases List.mem_append.mp h3 with h1 | h2
      · injection List.mem_singleton.mp h1 with hp hs
        exact ⟨i, [], Nat.le_refl i, hp⟩
      · obtain ⟨j, rest2, hij, hp⟩ := ih (i + 1) p s h2
        exact ⟨j, rest2, Nat.le_of_succ_le hij, hp⟩
    | num n0 =>
      have h3 : (p, s) ∈ [([k, Nat.repr i], pyStr (JVal.num n0))]
          ++ leavesElems k rest (i + 1) := h
      rcases List.mem_append.mp h3 with h1 | h2
      · injection List.mem_singleton.mp h1 with hp hs
        exact ⟨i, [], Nat.le_refl i, hp⟩
      · obtain ⟨j, rest2, hij, hp⟩ := ih (i + 1) p s h2
        exact ⟨j, rest2, Nat.le_of_succ_le hij, hp⟩
    | boolv b0 =>
      have h3 : (p, s) ∈ [([k, Nat.repr i], pyStr (JVal.boolv b0))]
          ++ leavesElems k rest (i + 1) := h
      rcases List.mem_append.mp h3 with h1 | h2
      · injection List.mem_singleton.mp h1 with hp hs
        exact ⟨i, [], Nat.le_refl i, hp⟩
      · obtain ⟨j, rest2, hij, hp⟩ := ih (i + 1) p s h2
        exact ⟨j, rest2, Nat.le_of_succ_le hij, hp⟩
    | null =>
      have h3 : (p, s) ∈ [([k, Nat.repr i], pyStr JVal.null)]
          ++ leavesElems k rest (i + 1) := h
      rcases List.mem_append.mp h3 with h1 | h2
      · injection List.mem_singleton.mp h1 with hp hs
        exact ⟨i, [], Nat.le_refl i, hp⟩
      · obtain ⟨j, rest2, hij, hp⟩ := ih (i + 1) p s h2
        exact ⟨j, rest2, Nat.le_of_succ_le hij, hp⟩
    | arr es2 =>
      have h3 : (p, s) ∈ [([k, Nat.repr i], pyStr (JVal.arr es2))]
          ++ leavesElems k rest (i + 1) := h
      rcases List.mem_append.mp h3 with h1 | h2
      · injection List.mem_singleton.mp h1 with hp hs
        exact ⟨i, [], Nat.le_refl i, hp⟩
      · obtain ⟨j, rest2, hij, hp⟩ := ih (i + 1) p s h2
        exact ⟨j, rest2, Nat.le_of_succ_le hij, hp⟩

theorem leavesFields_shape : ∀ (fs : List (String × JVal)) (p : List String) (s : String),
    (p, s) ∈ leavesFields fs → ∃ k rest, p = k :: rest ∧ k ∈ fs.map Prod.fst := by
  intro fs
  induction fs with
  | nil => intro p s h; cases h
  | cons kv rest ih =>
    intro p s h
    obtain ⟨k0, v0⟩ := kv
    cases v0 with
    | obj gs =>
      have h3 : (p, s) ∈ (leavesOf (JVal.obj gs)).map (fun ps => (k0 :: ps.1, ps.2))
          ++ leavesFields rest := h
      rcases List.mem_append.mp h3 with h1 | h2
      · obtain ⟨ps, _, heq⟩ := List.mem_map.mp h1
        injection heq with hp hs
        exact ⟨k0, ps.1, hp.symm, by simp⟩
      · obtain ⟨k2, r2, hp, hk2⟩ := ih p s h2
        exact ⟨k2, r2, hp, by simp [hk2]⟩
    | arr es =>
      have h3 : (p, s) ∈ leavesElems k0 es 0 ++ leavesFields rest := h
      rcases List.mem_append.mp h3 with h1 | h2
      · obtain ⟨j, r2, _, hp⟩ := leavesElems_shape k0 es 0 p s h1
        exact ⟨k0, Nat.repr j :: r2, hp, by simp⟩
      · obtain ⟨k2, r2, hp, hk2⟩ := ih p s h2
        exact ⟨k2, r2, hp, by simp [hk2]⟩
    | str s0 =>
      have h3 : (p, s) ∈ [([k0], pyStr (JVal.str s0))] ++ leavesFields rest := h
      rcases List.mem_append.mp h3 with h1 | h2
      · injection List.mem_singleton.mp h1 with hp hs
        exact ⟨k0, [], hp, by simp⟩
      · obtain ⟨k2, r2, hp, hk2⟩ := ih p s h2
        exact ⟨k2, r2, hp, by simp [hk2]⟩
    | num n0 =>
      have h3 : (p, s) ∈ [([k0], pyStr (JVal.num n0))] ++ leavesFields rest := h
      rcases List.mem_append.mp h3 with h1 | h2
      · injection List.mem_singleton.mp h1 with hp hs
        exact ⟨k0, [], hp, by simp⟩
      · obtain ⟨k2, r2, hp, hk2⟩ := ih p s h2
        exact ⟨k2, r2, hp, by simp [hk2]⟩
    | boolv b0 =>
      have h3 : (p, s) ∈ [([k0], pyStr (JVal.boolv b0))] ++ leavesFields rest := h
      rcases List.mem_append.mp h3 with h1 | h2
      · injection List.mem_singleton.mp h1 with hp hs
        exact ⟨k0, [], hp, by simp⟩
      · obtain ⟨k2, r2, hp, hk2⟩ := ih p s h2
        exact ⟨k2, r2, hp, by simp [hk2]⟩
    | null =>
      have h3 : (p, s) ∈ [([k0], pyStr JVal.null)] ++ leavesFields rest := h
      rcases List.mem_append.mp h3 with h1 | h2
      · injection List.mem_singleton.mp h1 with hp hs
        exact ⟨k0, [], hp, by simp⟩
      · obtain ⟨k2, r2, hp, hk2⟩ := ih p s h2
        exact ⟨k2, r2, hp, by simp [hk2]⟩

theorem leavesFields_ne_nil {fs : List (String × JVal)} {p : List String} {s : String}
    (h : (p, s) ∈ leavesFields fs) : p ≠ [] := by
  obtain ⟨k, rest, hp, _⟩ := leavesFields_shape fs p s h
  rw [hp]
  simp

mutual

theorem leavesOf_dotfree : ∀ (v : JVal), WFJ v = true →
    ∀ p s, (p, s) ∈ leavesOf v → ∀ seg ∈ p, seg.data.contains '.' = false
  | .obj fs, hwf, p, s, hmem, seg, hseg =>
    leavesFields_dotfree fs (WFJ_obj hwf).2 p s hmem seg hseg
  | .str s0, _, p, s, hmem, seg, hseg => by
    injection List.mem_singleton.mp hmem with hp hs
    rw [hp] at hseg
    cases hseg
  | .num n0, _, p, s, hmem, seg, hseg => by
    injection List.mem_singleton.mp hmem with hp hs
    rw [hp] at hseg
    cases hseg
  | .boolv b0, _, p, s, hmem, seg, hseg => by
    injection List.mem_singleton.mp hmem with hp hs
    rw [hp] at hseg
    cases hseg
  | .null, _, p, s, hmem, seg, hseg => by
    injection List.mem_singleton.mp hmem with hp hs
    rw [hp] at hseg
    cases hseg
  | .arr es, _, p, s, hmem, seg, hseg => by
    injection List.mem_singleton.mp hmem with hp hs
    rw [hp] at hseg
    cases hseg

theorem leavesFields_dotfree : ∀ (fs : List (String × JVal)), WFFields fs = true →
    ∀ p s, (p, s) ∈ leavesFields fs → ∀ seg ∈ p, seg.data.contains '.' = false
  | [], _, p, s, hmem, _, _ => by cases hmem
  | (k, v) :: rest, hwf, p, s, hmem, seg, hseg => by
    obtain ⟨hk, hv, hrest⟩ := WFFields_cons hwf
    cases v with
    | obj gs =>
      have h3 : (p, s) ∈ (leavesOf (JVal.obj gs)).map (fun ps => (k :: ps.1, ps.2))
          ++ leavesFields rest := hmem
      rcases List.mem_append.mp h3 with h1 | h2
      · obtain ⟨ps, hpsmem, heq⟩ := List.mem_map.mp h1
        injection heq with hp hs
        rw [← hp] at hseg
        rcases List.mem_cons.mp hseg with h4 | h4
        · rw [h4]; exact keyOK_dotfree hk
        · exact leavesOf_dotfree (JVal.obj gs) hv ps.1 ps.2 hpsmem seg h4
      · exact leavesFields_dotfree rest hrest p s h2 seg hseg
    | arr es =>
      have h3 : (p, s) ∈ leavesElems k es 0 ++ leavesFields rest := hmem
      rcases List.mem_append.mp h3 with h1 | h2
      · exact leavesElems_dotfree es k 0 (keyOK_dotfree hk) hv p s h1 seg hseg
      · exact leavesFields_dotfree rest hrest p s h2 seg hseg
    | str s0 =>
      have h3 : (p, s) ∈ [([k], pyStr (JVal.str s0))] ++ leavesFields rest := hmem
      rcases List.mem_append.mp h3 with h1 | h2
      · injection List.mem_singleton.mp h1 with hp hs
        rw [hp] at hseg
        rcases List.mem_cons.mp hseg with h4 | h4
        · rw [h4]; exact keyOK_dotfree hk
        · cases h4
      · exact leavesFields_dotfree rest hrest p s h2 seg hseg
    | num n0 =>
      have h3 : (p, s) ∈ [([k], pyStr (JVal.num n0))] ++ leavesFields rest := hmem
      rcases List.mem_append.mp h3 with h1 | h2
      · injection List.mem_singleton.mp h1 with hp hs
        rw [hp] at hseg
        rcases List.mem_cons.mp hseg with h4 | h4
        · rw [h4]; exact keyOK_dotfree hk
        · cases h4
      · exact leavesFields_dotfree rest hrest p s h2 seg hseg
    | boolv b0 =>
      have h3 : (p, s) ∈ [([k], pyStr (JVal.boolv b0))] ++ leavesFields rest := hmem
      rcases List.mem_append.mp h3 with h1 | h2
      · injection List.mem_singleton.mp h1 with hp hs
        rw [hp] at hseg
        rcases List.mem_cons.mp hseg with h4 | h4
        · rw [h4]; exact keyOK_dotfree hk
        · cases h4
      · exact leavesFields_dotfree rest hrest p s h2 seg hseg
    | null =>
      have h3 : (p, s) ∈ [([k], pyStr JVal.null)] ++ leavesFields rest := hmem
      rcases List.mem_append.mp h3 with h1 | h2
      · injection List.mem_singleton.mp h1 with hp hs
        rw [hp] at hseg
        rcases List.mem_cons.mp hseg with h4 | h4
        · rw [h4]; exact keyOK_dotfree hk
        · cases h4
      · exact leavesFields_dotfree rest hrest p s h2 seg hseg

theorem leavesElems_dotfree : ∀ (es : List JVal) (k : String) (i : Nat),
    k.data.contains '.' = false → WFElems es = true →
    ∀ p s, (p, s) ∈ leavesElems k es i → ∀ seg ∈ p, seg.data.contains '.' = false
  | [], _, _, _, _, p, s, hmem, _, _ => by cases hmem
  | e :: rest, k, i, hkd, hwf, p, s, hmem, seg, hseg => by
    obtain ⟨he, hrest⟩ := WFElems_cons hwf
    cases e with
    | obj gs =>
      have h3 : (p, s) ∈ (leavesOf (JVal.obj gs)).map
          (fun ps => (k :: Nat.repr i :: ps.1, ps.2)) ++ leavesElems k rest (i + 1) := hmem
      rcases List.mem_append.mp h3 with h1 | h2
      · obtain ⟨ps, hpsmem, heq⟩ := List.mem_map.mp h1
        injection heq with hp hs
        rw [← hp] at hseg
        rcases List.mem_cons.mp hseg with h4 | h4
        · rw [h4]; exact hkd
        · rcases List.mem_cons.mp h4 with h5 | h5
          · rw [h5]; exact natRepr_dotfree i
          · exact leavesOf_dotfree (JVal.obj gs) he ps.1 ps.2 hpsmem seg h5
      · exact leavesElems_dotfree rest k (i + 1) hkd hrest p s h2 seg hseg
    | str s0 =>
      have h3 : (p, s) ∈ [([k, Nat.repr i], pyStr (JVal.str s0))]
          ++ leavesElems k rest (i + 1) := hmem
      rcases List.mem_append.mp h3 with h1 | h2
      · injection List.mem_singleton.mp h1 with hp hs
        rw [hp] at hseg
        rcases List.mem_cons.mp hseg with h4 | h4
        · rw [h4]; exact hkd
        · rcases List.mem_cons.mp h4 with h5 | h5
          · rw [h5]; exact natRepr_dotfree i
          · cases h5
      · exact leavesElems_dotfree rest k (i + 1) hkd hrest p s h2 seg hseg
    | num n0 =>
      have h3 : (p, s) ∈ [([k, Nat.repr i], pyStr (JVal.num n0))]
          ++ leavesElems k rest (i + 1) := hmem
      rcases List.mem_append.mp h3 with h1 | h2
      · injection List.mem_singleton.mp h1 with hp hs
        rw [hp] at hseg
        rcases List.mem_cons.mp hseg with h4 | h4
        · rw [h4]; exact hkd
        · rcases List.mem_cons.mp h4 with h5 | h5
          · rw [h5]; exact natRepr_dotfree i
          · cases h5
      · exact leavesElems_dotfree rest k (i + 1) hkd hrest p s h2 seg hseg
    | boolv b0 =>
      have h3 : (p, s) ∈ [([k, Nat.repr i], pyStr (JVal.boolv b0))]
          ++ leavesElems k rest (i + 1) := hmem
      rcases List.mem_append.mp h3 with h1 | h2
      · injection List.mem_singleton.mp h1 with hp hs
        rw [hp] at hseg
        rcases List.mem_cons.mp hseg with h4 | h4
        · rw [h4]; exact hkd
        · rcases List.mem_cons.mp h4 with h5 | h5
          · rw [h5]; exact natRepr_dotfree i
          · cases h5
      · exact leavesElems_dotfree rest k (i + 1) hkd hrest p s h2 seg hseg
    | null =>
      have h3 : (p, s) ∈ [([k, Nat.repr i], pyStr JVal.null)]
          ++ leavesElems k rest (i + 1) := hmem
      rcases List.mem_append.mp h3 with h1 | h2
      · injection List.mem_singleton.mp h1 with hp hs
        rw [hp] at hseg
        rcases List.mem_cons.mp hseg with h4 | h4
        · rw [h4]; exact hkd
        · rcases List.mem_cons.mp h4 with h5 | h5
          · rw [h5]; exact natRepr_dotfree i
          · cases h5
      · exact leavesElems_dotfree rest k (i + 1) hkd hrest p s h2 seg hseg
    | arr es2 =>
      have h3 : (p, s) ∈ [([k, Nat.repr i], pyStr (JVal.arr es2))]
          ++ leavesElems k rest (i + 1) := hmem
      rcases List.mem_append.mp h3 with h1 | h2
      · injection List.mem_singleton.mp h1 with hp hs
        rw [hp] at hseg
        rcases List.mem_cons.mp hseg with h4 | h4
        · rw [h4]; exact hkd
        · rcases List.mem_cons.mp h4 with h5 | h5
          · rw [h5]; exact natRepr_dotfree i
          · cases h5
      · exact leavesElems_dotfree rest k (i + 1) hkd hrest p s h2 seg hseg

end

theorem LeafKey_mono {L L2 : List (List String × String)} {SS : List String}
    {kv : String × String} (hsub : ∀ x ∈ L, x ∈ L2) (h : LeafKey L SS kv) :
    LeafKey L2 SS kv := by
  obtain ⟨p, s, hm, hv, hk⟩ := h
  exact ⟨p, s, hsub _ hm, hv, hk⟩

theorem flatten_flat_sound_leaf (v : JVal) (SS : List String) (dt : Option String)
    (hobj : v.isObj = false) (kv : String × String)
    (hkv : kv ∈ (flatten v (renderPre SS) dt).1) : LeafKey (leavesOf v) SS kv := by
  cases v
  case obj fs => cases hobj
  all_goals
    have heq := List.mem_singleton.mp hkv
  all_goals
    subst heq
  all_goals
    refine ⟨[], _, List.mem_singleton.mpr rfl, rfl, Or.inl ?_⟩
  all_goals
    show stripDot (renderPre SS) = render (SS ++ [])
  all_goals
    rw [List.append_nil, stripDot_renderPre]

theorem leavesElems_suffix (k : String) (e : JVal) (rest : List JVal) (i : Nat) :
    ∀ x ∈ leavesElems k rest (i + 1), x ∈ leavesElems k (e :: rest) i := by
  intro x hx
  cases e <;> exact List.mem_append_right _ hx

mutual

theorem flatten_flat_sound : ∀ (v : JVal) (SS : List String) (dt : Option String),
    ∀ kv ∈ (flatten v (renderPre SS) dt).1, LeafKey (leavesOf v) SS kv
  | .obj fs, SS, dt, kv, hkv => by
    rcases flattenFields_flat_sound fs SS _ [] [] kv hkv with h | h
    · exact h
    · cases h
  | .str s0, SS, dt, kv, hkv => flatten_flat_sound_leaf (JVal.str s0) SS dt rfl kv hkv
  | .num n0, SS, dt, kv, hkv => flatten_flat_sound_leaf (JVal.num n0) SS dt rfl kv hkv
  | .boolv b0, SS, dt, kv, hkv => flatten_flat_sound_leaf (JVal.boolv b0) SS dt rfl kv hkv
  | .null, SS, dt, kv, hkv => flatten_flat_sound_leaf JVal.null SS dt rfl kv hkv
  | .arr es, SS, dt, kv, hkv => flatten_flat_sound_leaf (JVal.arr es) SS dt rfl kv hkv

theorem flattenFields_flat_sound : ∀ (fs : List (String × JVal)) (SS : List String)
    (dt : Option String) (accF : Flat) (accG : Guide),
    ∀ kv ∈ (flattenFields fs (renderPre SS) dt accF accG).1,
      LeafKey (leavesFields fs) SS kv ∨ kv ∈ accF
  | [], _, _, _, _, _, hkv => Or.inr hkv
  | (k, v) :: rest, SS, dt, accF, accG, kv, hkv => by
    cases v with
    | obj gs =>
      rcases flattenFields_flat_sound rest SS dt _ _ kv hkv with h | h
      · left
        refine LeafKey_mono ?_ h
        intro x hx
        exact show x ∈ (leavesOf (JVal.obj gs)).map (fun ps => (k :: ps.1, ps.2))
          ++ leavesFields rest from List.mem_append_right _ hx
      · rcases mem_dictUpd h with h3 | h3
        · rw [renderPre_append_key SS k] at h3
          have h4 := flatten_flat_sound (JVal.obj gs) (SS ++ [k]) dt kv h3
          left
          obtain ⟨p, s, hm, hv, hf⟩ := h4
          refine ⟨k :: p, s, ?_, hv, ?_⟩
          · exact List.mem_append_left _ (List.mem_map.mpr ⟨(p, s), hm, rfl⟩)
          · rcases hf with hf | ⟨k2, hl, hk2⟩
            · left
              rw [hf, List.append_assoc]
              rfl
            · right
              refine ⟨k2, ?_, hk2⟩
              have hpne : p ≠ [] := by
                intro hc
                rw [hc] at hl
                cases hl
              rw [getLast?_cons_of_ne_nil k hpne]
              exact hl
        · right
          exact h3
    | arr es =>
      rcases flattenFields_flat_sound rest SS dt _ _ kv hkv with h | h
      · left
        refine LeafKey_mono ?_ h
        intro x hx
        exact show x ∈ leavesElems k es 0 ++ leavesFields rest
          from List.mem_append_right _ hx
      · rcases mem_dictUpd h with h3 | h3
        · rw [renderPre_append_key SS k] at h3
          rcases flattenElems_flat_sound es k SS 0 dt [] [] kv h3 with h4 | h4
          · left
            refine LeafKey_mono ?_ h4
            intro x hx
            exact List.mem_append_left _ hx
          · cases h4
        · right
          exact h3
    | str s0 =>
      rcases flattenFields_flat_sound rest SS dt _ _ kv hkv with h | h
      · left
        refine LeafKey_mono ?_ h
        intro x hx
        exact show x ∈ [([k], pyStr (JVal.str s0))] ++ leavesFields rest
          from List.mem_append_right _ hx
      · rcases mem_dictUpd h with h3 | h3
        · left
          rcases List.mem_cons.mp h3 with h4 | h4
          · refine ⟨[k], pyStr (JVal.str s0),
              List.mem_append_left _ (List.mem_singleton.mpr rfl), ?_, Or.inr ⟨k, rfl, ?_⟩⟩
            · rw [h4]
            · rw [h4]
          · rcases List.mem_cons.mp h4 with h5 | h5
            · refine ⟨[k], pyStr (JVal.str s0),
                List.mem_append_left _ (List.mem_singleton.mpr rfl), ?_, Or.inl ?_⟩
              · rw [h5]
              · rw [h5]
                exact render_eq_renderPre_key SS k
            · cases h5
        · right
          exact h3
    | num n0 =>
      rcases flattenFields_flat_sound rest SS dt _ _ kv hkv with h | h
      · left
        refine LeafKey_mono ?_ h
        intro x hx
        exact show x ∈ [([k], pyStr (JVal.num n0))] ++ leavesFields rest
          from List.mem_append_right _ hx
      · rcases mem_dictUpd h with h3 | h3
        · left
          rcases List.mem_cons.mp h3 with h4 | h4
          · refine ⟨[k], pyStr (JVal.num n0),
              List.mem_append_left _ (List.mem_singleton.mpr rfl), ?_, Or.inr ⟨k, rfl, ?_⟩⟩
            · rw [h4]
            · rw [h4]
          · rcases List.mem_cons.mp h4 with h5 | h5
            · refine ⟨[k], pyStr (JVal.num n0),
                List.mem_append_left _ (List.mem_singleton.mpr rfl), ?_, Or.inl ?_⟩
              · rw [h5]
              · rw [h5]
                exact render_eq_renderPre_key SS k
            · cases h5
        · right
          exact h3
    | boolv b0 =>
      rcases flattenFields_flat_sound rest SS dt _ _ kv hkv with h | h
      · left
        refine LeafKey_mono ?_ h
        intro x hx
        exact show x ∈ [([k], pyStr (JVal.boolv b0))] ++ leavesFields rest
          from List.mem_append_right _ hx
      · rcases mem_dictUpd h with h3 | h3
        · left
          rcases List.mem_cons.mp h3 with h4 | h4
          · refine ⟨[k], pyStr (JVal.boolv b0),
              List.mem_append_left _ (List.mem_singleton.mpr rfl), ?_, Or.inr ⟨k, rfl, ?_⟩⟩
            · rw [h4]
            · rw [h4]
          · rcases List.mem_cons.mp h4 with h5 | h5
            · refine ⟨[k], pyStr (JVal.boolv b0),
                List.mem_append_left _ (List.mem_singleton.mpr rfl), ?_, Or.inl ?_⟩
              · rw [h5]
              · rw [h5]
                exact render_eq_renderPre_key SS k
            · cases h5
        · right
          exact h3
    | null =>
      rcases flattenFields_flat_sound rest SS dt _ _ kv hkv with h | h
      · left
        refine LeafKey_mono ?_ h
        intro x hx
        exact show x ∈ [([k], pyStr JVal.null)] ++ leavesFields rest
          from List.mem_append_right _ hx
      · rcases mem_dictUpd h with h3 | h3
        · left
          rcases List.mem_cons.mp h3 with h4 | h4
          · refine ⟨[k], pyStr JVal.null,
              List.mem_append_left _ (List.mem_singleton.mpr rfl), ?_, Or.inr ⟨k, rfl, ?_⟩⟩
            · rw [h4]
            · rw [h4]
          · rcases List.mem_cons.mp h4 with h5 | h5
            · refine ⟨[k], pyStr JVal.null,
                List.mem_append_left _ (List.mem_singleton.mpr rfl), ?_, Or.inl ?_⟩
              · rw [h5]
              · rw [h5]
                exact render_eq_renderPre_key SS k
            · cases h5
        · right
          exact h3

theorem flattenElems_flat_sound : ∀ (es : List JVal) (k : String) (SS : List String)
    (i : Nat) (dt : Option String) (accF : Flat) (accG : Guide),
    ∀ kv ∈ (flattenElems es (renderPre (SS ++ [k])) i dt accF accG).1,
      LeafKey (leavesElems k es i) SS kv ∨ kv ∈ accF
  | [], _, _, _, _, _, _, _, hkv => Or.inr hkv
  | e :: rest, k, SS, i, dt, accF, accG, kv, hkv => by
    rcases flattenElems_flat_sound rest k SS (i + 1) dt _ _ kv hkv with h | h
    · left
      exact LeafKey_mono (leavesElems_suffix k e rest i) h
    · rcases mem_dictUpd h with h3 | h3
      · right
        exact h3
      · rw [renderPre_append_key (SS ++ [k]) (Nat.repr i)] at h3
        have h4 := flatten_flat_sound e ((SS ++ [k]) ++ [Nat.repr i]) dt kv h3
        left
        obtain ⟨p, s, hm, hv, hf⟩ := h4
        cases e with
        | obj gs =>
          refine ⟨k :: Nat.repr i :: p, s, ?_, hv, ?_⟩
          · exact List.mem_append_left _ (List.mem_map.mpr ⟨(p, s), hm, rfl⟩)
          · rcases hf with hf | ⟨k2, hl, hk2⟩
            · left
              rw [hf, List.append_assoc, List.append_assoc]
              rfl
            · right
              refine ⟨k2, ?_, hk2⟩
              have hpne : p ≠ [] := by
                intro hc
                rw [hc] at hl
                cases hl
              rw [getLast?_cons_of_ne_nil k (by simp),
                getLast?_cons_of_ne_nil (Nat.repr i) hpne]
              exact hl
        | str s0 =>
          injection List.mem_singleton.mp hm with hp hs
          subst hp
          refine ⟨[k, Nat.repr i], s, ?_, hv, Or.inl ?_⟩
          · refine List.mem_append_left _ ?_
            rw [hs]
            exact List.mem_singleton.mpr rfl
          · rcases hf with hf | ⟨k2, hl, _⟩
            · rw [hf, List.append_nil, List.append_assoc]
              rfl
            · cases hl
        | num n0 =>
          injection List.mem_singleton.mp hm with hp hs
          subst hp
          refine ⟨[k, Nat.repr i], s, ?_, hv, Or.inl ?_⟩
          · refine List.mem_append_left _ ?_
            rw [hs]
            exact List.mem_singleton.mpr rfl
          · rcases hf with hf | ⟨k2, hl, _⟩
            · rw [hf, List.append_nil, List.append_assoc]
              rfl
            · cases hl
        | boolv b0 =>
          injection List.mem_singleton.mp hm with hp hs
          subst hp
          refine ⟨[k, Nat.repr i], s, ?_, hv, Or.inl ?_⟩
          · refine List.mem_append_left _ ?_
            rw [hs]
            exact List.mem_singleton.mpr rfl
          · rcases hf with hf | ⟨k2, hl, _⟩
            · rw [hf, List.append_nil, List.append_assoc]
              rfl
            · cases hl
        | null =>
          injection List.mem_singleton.mp hm with hp hs
          subst hp
          refine ⟨[k, Nat.repr i], s, ?_, hv, Or.inl ?_⟩
          · refine List.mem_append_left _ ?_
            rw [hs]
            exact List.mem_singleton.mpr rfl
          · rcases hf with hf | ⟨k2, hl, _⟩
            · rw [hf, List.append_nil, List.append_assoc]
              rfl
            · cases hl
        | arr es2 =>
          injection List.mem_singleton.mp hm with hp hs
          subst hp
          refine ⟨[k, Nat.repr i], s, ?_, hv, Or.inl ?_⟩
          · refine List.mem_append_left _ ?_
            rw [hs]
            exact List.mem_singleton.mpr rfl
          · rcases hf with hf | ⟨k2, hl, _⟩
            · rw [hf, List.append_nil, List.append_assoc]
              rfl
            · cases hl

end

/-! ### First-seen-wins as an orElse chain -/

theorem alookup_orElse_assoc {B : Type} (a b c : Option B) :
    (a.orElse fun _ => b).orElse (fun _ => c)
      = a.orElse (fun _ => b.orElse fun _ => c) := by
  cases a <;> rfl

theorem flattenFields_alookup_acc : ∀ (fs : List (String × JVal)) (pre : String)
    (dt : Option String) (accF : Flat) (accG : Guide) (key : String),
    alookup (flattenFields fs pre dt accF accG).1 key
      = (alookup accF key).orElse
          (fun _ => alookup (flattenFields fs pre dt [] accG).1 key)
  | [], pre, dt, accF, accG, key => by
    show alookup accF key = (alookup accF key).orElse (fun _ => alookup ([] : Flat) key)
    cases alookup accF key <;> rfl
  | (k, v) :: rest, pre, dt, accF, accG, key => by
    cases v with
    | obj gs =>
      have e1 : alookup (flattenFields ((k, (JVal.obj gs)) :: rest) pre dt accF accG).1 key
          = (alookup (dictUpd (flatten (JVal.obj gs) (pre ++ k ++ ".") dt).1 accF) key).orElse
            (fun _ => alookup (flattenFields rest pre dt []
              (guideMerge (flatten (JVal.obj gs) (pre ++ k ++ ".") dt).2 accG)).1 key) :=
        flattenFields_alookup_acc rest pre dt (dictUpd (flatten (JVal.obj gs) (pre ++ k ++ ".") dt).1 accF)
          (guideMerge (flatten (JVal.obj gs) (pre ++ k ++ ".") dt).2 accG) key
      have e2 : alookup (flattenFields ((k, (JVal.obj gs)) :: rest) pre dt [] accG).1 key
          = (alookup (dictUpd (flatten (JVal.obj gs) (pre ++ k ++ ".") dt).1 []) key).orElse
            (fun _ => alookup (flattenFields rest pre dt []
              (guideMerge (flatten (JVal.obj gs) (pre ++ k ++ ".") dt).2 accG)).1 key) :=
        flattenFields_alookup_acc rest pre dt (dictUpd (flatten (JVal.obj gs) (pre ++ k ++ ".") dt).1 [])
          (guideMerge (flatten (JVal.obj gs) (pre ++ k ++ ".") dt).2 accG) key
      rw [e1, e2, dictUpd_nil_right, alookup_dictUpd, alookup_orElse_assoc]
    | arr es =>
      have e1 : alookup (flattenFields ((k, (JVal.arr es)) :: rest) pre dt accF accG).1 key
          = (alookup (dictUpd (flattenElems es (pre ++ k ++ ".") 0 dt [] []).1 accF) key).orElse
            (fun _ => alookup (flattenFields rest pre dt []
              (guideMerge (flattenElems es (pre ++ k ++ ".") 0 dt [] []).2 accG)).1 key) :=
        flattenFields_alookup_acc rest pre dt (dictUpd (flattenElems es (pre ++ k ++ ".") 0 dt [] []).1 accF)
          (guideMerge (flattenElems es (pre ++ k ++ ".") 0 dt [] []).2 accG) key
      have e2 : alookup (flattenFields ((k, (JVal.arr es)) :: rest) pre dt [] accG).1 key
          = (alookup (dictUpd (flattenElems es (pre ++ k ++ ".") 0 dt [] []).1 []) key).orElse
            (fun _ => alookup (flattenFields rest pre dt []
              (guideMerge (flattenElems es (pre ++ k ++ ".") 0 dt [] []).2 accG)).1 key) :=
        flattenFields_alookup_acc rest pre dt (dictUpd (flattenElems es (pre ++ k ++ ".") 0 dt [] []).1 [])
          (guideMerge (flattenElems es (pre ++ k ++ ".") 0 dt [] []).2 accG) key
      rw [e1, e2, dictUpd_nil_right, alookup_dictUpd, alookup_orElse_assoc]
    | str s0 =>
      have e1 : alookup (flattenFields ((k, (JVal.str s0)) :: rest) pre dt accF accG).1 key
          = (alookup (dictUpd ((([(k, pyStr (JVal.str s0)), (pre ++ k, pyStr (JVal.str s0))],
          [(k, [(dt, pynorm (pre ++ k))]), (pre ++ k, [(dt, pynorm (pre ++ k))])]) : Flat × Guide)).1 accF) key).orElse
            (fun _ => alookup (flattenFields rest pre dt []
              (guideMerge ((([(k, pyStr (JVal.str s0)), (pre ++ k, pyStr (JVal.str s0))],
          [(k, [(dt, pynorm (pre ++ k))]), (pre ++ k, [(dt, pynorm (pre ++ k))])]) : Flat × Guide)).2 accG)).1 key) :=
        flattenFields_alookup_acc rest pre dt (dictUpd ((([(k, pyStr (JVal.str s0)), (pre ++ k, pyStr (JVal.str s0))],
          [(k, [(dt, pynorm (pre ++ k))]), (pre ++ k, [(dt, pynorm (pre ++ k))])]) : Flat × Guide)).1 accF)
          (guideMerge ((([(k, pyStr (JVal.str s0)), (pre ++ k, pyStr (JVal.str s0))],
          [(k, [(dt, pynorm (pre ++ k))]), (pre ++ k, [(dt, pynorm (pre ++ k))])]) : Flat × Guide)).2 accG) key
      have e2 : alookup (flattenFields ((k, (JVal.str s0)) :: rest) pre dt [] accG).1 key
          = (alookup (dictUpd ((([(k, pyStr (JVal.str s0)), (pre ++ k, pyStr (JVal.str s0))],
          [(k, [(dt, pynorm (pre ++ k))]), (pre ++ k, [(dt, pynorm (pre ++ k))])]) : Flat × Guide)).1 []) key).orElse
            (fun _ => alookup (flattenFields rest pre dt []
              (guideMerge ((([(k, pyStr (JVal.str s0)), (pre ++ k, pyStr (JVal.str s0))],
          [(k, [(dt, pynorm (pre ++ k))]), (pre ++ k, [(dt, pynorm (pre ++ k))])]) : Flat × Guide)).2 accG)).1 key) :=
        flattenFields_alookup_acc rest pre dt (dictUpd ((([(k, pyStr (JVal.str s0)), (pre ++ k, pyStr (JVal.str s0))],
          [(k, [(dt, pynorm (pre ++ k))]), (pre ++ k, [(dt, pynorm (pre ++ k))])]) : Flat × Guide)).1 [])
          (guideMerge ((([(k, pyStr (JVal.str s0)), (pre ++ k, pyStr (JVal.str s0))],
          [(k, [(dt, pynorm (pre ++ k))]), (pre ++ k, [(dt, pynorm (pre ++ k))])]) : Flat × Guide)).2 accG) key
      rw [e1, e2, dictUpd_nil_right, alookup_dictUpd, alookup_orElse_assoc]
    | num n0 =>
      have e1 : alookup (flattenFields ((k, (JVal.num n0)) :: rest) pre dt accF accG).1 key
          = (alookup (dictUpd ((([(k, pyStr (JVal.num n0)), (pre ++ k, pyStr (JVal.num n0))],
          [(k, [(dt, pynorm (pre ++ k))]), (pre ++ k, [(dt, pynorm (pre ++ k))])]) : Flat × Guide)).1 accF) key).orElse
            (fun _ => alookup (flattenFields rest pre dt []
              (guideMerge ((([(k, pyStr (JVal.num n0)), (pre ++ k, pyStr (JVal.num n0))],
          [(k, [(dt, pynorm (pre ++ k))]), (pre ++ k, [(dt, pynorm (pre ++ k))])]) : Flat × Guide)).2 accG)).1 key) :=
        flattenFields_alookup_acc rest pre dt (dictUpd ((([(k, pyStr (JVal.num n0)), (pre ++ k, pyStr (JVal.num n0))],
          [(k, [(dt, pynorm (pre ++ k))]), (pre ++ k, [(dt, pynorm (pre ++ k))])]) : Flat × Guide)).1 accF)
          (guideMerge ((([(k, pyStr (JVal.num n0)), (pre ++ k, pyStr (JVal.num n0))],
          [(k, [(dt, pynorm (pre ++ k))]), (pre ++ k, [(dt, pynorm (pre ++ k))])]) : Flat × Guide)).2 accG) key
      have e2 : alookup (flattenFields ((k, (JVal.num n0)) :: rest) pre dt [] accG).1 key
          = (alookup (dictUpd ((([(k, pyStr (JVal.num n0)), (pre ++ k, pyStr (JVal.num n0))],
          [(k, [(dt, pynorm (pre ++ k))]), (pre ++ k, [(dt, pynorm (pre ++ k))])]) : Flat × Guide)).1 []) key).orElse
            (fun _ => alookup (flattenFields rest pre dt []
              (guideMerge ((([(k, pyStr (JVal.num n0)), (pre ++ k, pyStr (JVal.num n0))],
          [(k, [(dt, pynorm (pre ++ k))]), (pre ++ k, [(dt, pynorm (pre ++ k))])]) : Flat × Guide)).2 accG)).1 key) :=
        flattenFields_alookup_acc rest pre dt (dictUpd ((([(k, pyStr (JVal.num n0)), (pre ++ k, pyStr (JVal.num n0))],
          [(k, [(dt, pynorm (pre ++ k))]), (pre ++ k, [(dt, pynorm (pre ++ k))])]) : Flat × Guide)).1 [])
          (guideMerge ((([(k, pyStr (JVal.num n0)), (pre ++ k, pyStr (JVal.num n0))],
          [(k, [(dt, pynorm (pre ++ k))]), (pre ++ k, [(dt, pynorm (pre ++ k))])]) : Flat × Guide)).2 accG) key
      rw [e1, e2, dictUpd_nil_right, alookup_dictUpd, alookup_orElse_assoc]
    | boolv b0 =>
      have e1 : alookup (flattenFields ((k, (JVal.boolv b0)) :: rest) pre dt accF accG).1 key
          = (alookup (dictUpd ((([(k, pyStr (JVal.boolv b0)), (pre ++ k, pyStr (JVal.boolv b0))],
          [(k, [(dt, pynorm (pre ++ k))]), (pre ++ k, [(dt, pynorm (pre ++ k))])]) : Flat × Guide)).1 accF) key).orElse
            (fun _ => alookup (flattenFields rest pre dt []
              (guideMerge ((([(k, pyStr (JVal.boolv b0)), (pre ++ k, pyStr (JVal.boolv b0))],
          [(k, [(dt, pynorm (pre ++ k))]), (pre ++ k, [(dt, pynorm (pre ++ k))])]) : Flat × Guide)).2 accG)).1 key) :=
        flattenFields_alookup_acc rest pre dt (dictUpd ((([(k, pyStr (JVal.boolv b0)), (pre ++ k, pyStr (JVal.boolv b0))],
          [(k, [(dt, pynorm (pre ++ k))]), (pre ++ k, [(dt, pynorm (pre ++ k))])]) : Flat × Guide)).1 accF)
          (guideMerge ((([(k, pyStr (JVal.boolv b0)), (pre ++ k, pyStr (JVal.boolv b0))],
          [(k, [(dt, pynorm (pre ++ k))]), (pre ++ k, [(dt, pynorm (pre ++ k))])]) : Flat × Guide)).2 accG) key
      have e2 : alookup (flattenFields ((k, (JVal.boolv b0)) :: rest) pre dt [] accG).1 key
          = (alookup (dictUpd ((([(k, pyStr (JVal.boolv b0)), (pre ++ k, pyStr (JVal.boolv b0))],
          [(k, [(dt, pynorm (pre ++ k))]), (pre ++ k, [(dt, pynorm (pre ++ k))])]) : Flat × Guide)).1 []) key).orElse
            (fun _ => alookup (flattenFields rest pre dt []
              (guideMerge ((([(k, pyStr (JVal.boolv b0)), (pre ++ k, pyStr (JVal.boolv b0))],
          [(k, [(dt, pynorm (pre ++ k))]), (pre ++ k, [(dt, pynorm (pre ++ k))])]) : Flat × Guide)).2 accG)).1 key) :=
        flattenFields_alookup_acc rest pre dt (dictUpd ((([(k, pyStr (JVal.boolv b0)), (pre ++ k, pyStr (JVal.boolv b0))],
          [(k, [(dt, pynorm (pre ++ k))]), (pre ++ k, [(dt, pynorm (pre ++ k))])]) : Flat × Guide)).1 [])
          (guideMerge ((([(k, pyStr (JVal.boolv b0)), (pre ++ k, pyStr (JVal.boolv b0))],
          [(k, [(dt, pynorm (pre ++ k))]), (pre ++ k, [(dt, pynorm (pre ++ k))])]) : Flat × Guide)).2 accG) key
      rw [e1, e2, dictUpd_nil_right, alookup_dictUpd, alookup_orElse_assoc]
    | null =>
      have e1 : alookup (flattenFields ((k, JVal.null) :: rest) pre dt accF accG).1 key
          = (alookup (dictUpd ((([(k, pyStr JVal.null), (pre ++ k, pyStr JVal.null)],
          [(k, [(dt, pynorm (pre ++ k))]), (pre ++ k, [(dt, pynorm (pre ++ k))])]) : Flat × Guide)).1 accF) key).orElse
            (fun _ => alookup (flattenFields rest pre dt []
              (guideMerge ((([(k, pyStr JVal.null), (pre ++ k, pyStr JVal.null)],
          [(k, [(dt, pynorm (pre ++ k))]), (pre ++ k, [(dt, pynorm (pre ++ k))])]) : Flat × Guide)).2 accG)).1 key) :=
        flattenFields_alookup_acc rest pre dt (dictUpd ((([(k, pyStr JVal.null), (pre ++ k, pyStr JVal.null)],
          [(k, [(dt, pynorm (pre ++ k))]), (pre ++ k, [(dt, pynorm (pre ++ k))])]) : Flat × Guide)).1 accF)
          (guideMerge ((([(k, pyStr JVal.null), (pre ++ k, pyStr JVal.null)],
          [(k, [(dt, pynorm (pre ++ k))]), (pre ++ k, [(dt, pynorm (pre ++ k))])]) : Flat × Guide)).2 accG) key
      have e2 : alookup (flattenFields ((k, JVal.null) :: rest) pre dt [] accG).1 key
          = (alookup (dictUpd ((([(k, pyStr JVal.null), (pre ++ k, pyStr JVal.null)],
          [(k, [(dt, pynorm (pre ++ k))]), (pre ++ k, [(dt, pynorm (pre ++ k))])]) : Flat × Guide)).1 []) key).orElse
            (fun _ => alookup (flattenFields rest pre dt []
              (guideMerge ((([(k, pyStr JVal.null), (pre ++ k, pyStr JVal.null)],
          [(k, [(dt, pynorm (pre ++ k))]), (pre ++ k, [(dt, pynorm (pre ++ k))])]) : Flat × Guide)).2 accG)).1 key) :=
        flattenFields_alookup_acc rest pre dt (dictUpd ((([(k, pyStr JVal.null), (pre ++ k, pyStr JVal.null)],
          [(k, [(dt, pynorm (pre ++ k))]), (pre ++ k, [(dt, pynorm (pre ++ k))])]) : Flat × Guide)).1 [])
          (guideMerge ((([(k, pyStr JVal.null), (pre ++ k, pyStr JVal.null)],
          [(k, [(dt, pynorm (pre ++ k))]), (pre ++ k, [(dt, pynorm (pre ++ k))])]) : Flat × Guide)).2 accG) key
      rw [e1, e2, dictUpd_nil_right, alookup_dictUpd, alookup_orElse_assoc]
  termination_by fs _ _ _ _ _ => fs.length

theorem flattenElems_alookup_acc : ∀ (es : List JVal) (preK : String) (i : Nat)
    (dt : Option String) (accF : Flat) (accG : Guide) (key : String),
    alookup (flattenElems es preK i dt accF accG).1 key
      = (alookup (flattenElems es preK i dt [] accG).1 key).orElse
          (fun _ => alookup accF key)
  | [], preK, i, dt, accF, accG, key => by
    show alookup accF key = (alookup ([] : Flat) key).orElse (fun _ => alookup accF key)
    rfl
  | e :: rest, preK, i, dt, accF, accG, key => by
    have e1 : alookup (flattenElems (e :: rest) preK i dt accF accG).1 key
        = (alookup (flattenElems rest preK (i + 1) dt []
            (dictUpd accG (flatten e (preK ++ Nat.repr i ++ ".") dt).2)).1 key).orElse
          (fun _ => alookup (dictUpd accF (flatten e (preK ++ Nat.repr i ++ ".") dt).1) key) :=
      flattenElems_alookup_acc rest preK (i + 1) dt
        (dictUpd accF (flatten e (preK ++ Nat.repr i ++ ".") dt).1)
        (dictUpd accG (flatten e (preK ++ Nat.repr i ++ ".") dt).2) key
    have e2 : alookup (flattenElems (e :: rest) preK i dt [] accG).1 key
        = (alookup (flattenElems rest preK (i + 1) dt []
            (dictUpd accG (flatten e (preK ++ Nat.repr i ++ ".") dt).2)).1 key).orElse
          (fun _ => alookup (dictUpd ([] : Flat)
            (flatten e (preK ++ Nat.repr i ++ ".") dt).1) key) :=
      flattenElems_alookup_acc rest preK (i + 1) dt
        (dictUpd [] (flatten e (preK ++ Nat.repr i ++ ".") dt).1)
        (dictUpd accG (flatten e (preK ++ Nat.repr i ++ ".") dt).2) key
    rw [e1, e2, dictUpd_nil_left, alookup_dictUpd, alookup_orElse_assoc]
  termination_by es _ _ _ _ _ _ => es.length

theorem flattenFields_append : ∀ (fs1 fs2 : List (String × JVal)) (pre : String)
    (dt : Option String) (accF : Flat) (accG : Guide),
    flattenFields (fs1 ++ fs2) pre dt accF accG
      = flattenFields fs2 pre dt (flattenFields fs1 pre dt accF accG).1
          (flattenFields fs1 pre dt accF accG).2
  | [], fs2, pre, dt, accF, accG => rfl
  | (k, v) :: rest, fs2, pre, dt, accF, accG => by
    cases v with
    | obj gs =>
      exact flattenFields_append rest fs2 pre dt
        (dictUpd (flatten (JVal.obj gs) (pre ++ k ++ ".") dt).1 accF)
        (guideMerge (flatten (JVal.obj gs) (pre ++ k ++ ".") dt).2 accG)
    | arr es =>
      exact flattenFields_append rest fs2 pre dt
        (dictUpd (flattenElems es (pre ++ k ++ ".") 0 dt [] []).1 accF)
        (guideMerge (flattenElems es (pre ++ k ++ ".") 0 dt [] []).2 accG)
    | str s0 =>
      exact flattenFields_append rest fs2 pre dt
        (dictUpd ((([(k, pyStr (JVal.str s0)), (pre ++ k, pyStr (JVal.str s0))],
          [(k, [(dt, pynorm (pre ++ k))]), (pre ++ k, [(dt, pynorm (pre ++ k))])]) : Flat × Guide)).1 accF)
        (guideMerge ((([(k, pyStr (JVal.str s0)), (pre ++ k, pyStr (JVal.str s0))],
          [(k, [(dt, pynorm (pre ++ k))]), (pre ++ k, [(dt, pynorm (pre ++ k))])]) : Flat × Guide)).2 accG)
    | num n0 =>
      exact flattenFields_append rest fs2 pre dt
        (dictUpd ((([(k, pyStr (JVal.num n0)), (pre ++ k, pyStr (JVal.num n0))],
          [(k, [(dt, pynorm (pre ++ k))]), (pre ++ k, [(dt, pynorm (pre ++ k))])]) : Flat × Guide)).1 accF)
        (guideMerge ((([(k, pyStr (JVal.num n0)), (pre ++ k, pyStr (JVal.num n0))],
          [(k, [(dt, pynorm (pre ++ k))]), (pre ++ k, [(dt, pynorm (pre ++ k))])]) : Flat × Guide)).2 accG)
    | boolv b0 =>
      exact flattenFields_append rest fs2 pre dt
        (dictUpd ((([(k, pyStr (JVal.boolv b0)), (pre ++ k, pyStr (JVal.boolv b0))],
          [(k, [(dt, pynorm (pre ++ k))]), (pre ++ k, [(dt, pynorm (pre ++ k))])]) : Flat × Guide)).1 accF)
        (guideMerge ((([(k, pyStr (JVal.boolv b0)), (pre ++ k, pyStr (JVal.boolv b0))],
          [(k, [(dt, pynorm (pre ++ k))]), (pre ++ k, [(dt, pynorm (pre ++ k))])]) : Flat × Guide)).2 accG)
    | null =>
      exact flattenFields_append rest fs2 pre dt
        (dictUpd ((([(k, pyStr JVal.null), (pre ++ k, pyStr JVal.null)],
          [(k, [(dt, pynorm (pre ++ k))]), (pre ++ k, [(dt, pynorm (pre ++ k))])]) : Flat × Guide)).1 accF)
        (guideMerge ((([(k, pyStr JVal.null), (pre ++ k, pyStr JVal.null)],
          [(k, [(dt, pynorm (pre ++ k))]), (pre ++ k, [(dt, pynorm (pre ++ k))])]) : Flat × Guide)).2 accG)
  termination_by fs1 _ _ _ _ _ => fs1.length

/-! ### Keys that cannot collide -/

theorem short_ne_render {k2 : String} {l : List String}
    (hk2 : k2.data.contains '.' = false) (hlen : 2 ≤ l.length) : k2 ≠ render l := by
  intro hc
  have hd := render_contains_dot l hlen
  rw [← hc, hk2] at hd
  cases hd

theorem dotfree_append {l1 l2 : List String}
    (h1 : ∀ s ∈ l1, s.data.contains '.' = false)
    (h2 : ∀ s ∈ l2, s.data.contains '.' = false) :
    ∀ s ∈ l1 ++ l2, s.data.contains '.' = false := by
  intro s hs
  rcases List.mem_append.mp hs with h | h
  · exact h1 s h
  · exact h2 s h

theorem dotfree_single {k : String} (hk : k.data.contains '.' = false) :
    ∀ s ∈ [k], s.data.contains '.' = false := by
  intro s hs
  rw [List.mem_singleton.mp hs]
  exact hk

theorem len2_of_right {SS p : List String} (h : 2 ≤ p.length) : 2 ≤ (SS ++ p).length := by
  rw [List.length_append]
  omega

theorem flatten_alookup_none (e : JVal) (SS0 SS p : List String) (dt : Option String)
    (hwf : WFJ e = true)
    (hSS0 : ∀ seg ∈ SS0, seg.data.contains '.' = false)
    (hSSp : ∀ seg ∈ SS ++ p, seg.data.contains '.' = false)
    (hlen : 2 ≤ (SS ++ p).length)
    (hne0 : SS0 ≠ [])
    (hdiff : ∀ q s, (q, s) ∈ leavesOf e → SS0 ++ q ≠ SS ++ p) :
    alookup (flatten e (renderPre SS0) dt).1 (render (SS ++ p)) = none := by
  apply alookup_eq_none
  intro kv hkv hc
  obtain ⟨q, s, hm, _, hf⟩ := flatten_flat_sound e SS0 dt kv hkv
  rcases hf with hf | ⟨k2, hl, hk2⟩
  · rw [hc] at hf
    have hdq : ∀ seg ∈ q, seg.data.contains '.' = false :=
      fun seg hseg => leavesOf_dotfree e hwf q s hm seg hseg
    have heq := render_injective (SS0 ++ q) (SS ++ p)
      (by simp [hne0]) (by intro hcn; rw [hcn] at hlen; simp at hlen)
      (dotfree_append hSS0 hdq) hSSp hf.symm
    exact hdiff q s hm heq
  · rw [hc] at hk2
    have hk2mem : k2 ∈ q := List.mem_of_mem_getLast? hl
    have hk2df : k2.data.contains '.' = false :=
      leavesOf_dotfree e hwf q s hm k2 hk2mem
    exact short_ne_render hk2df hlen hk2.symm

theorem flattenElems_alookup_none (es : List JVal) (k1 : String) (SS p : List String)
    (i : Nat) (dt : Option String) (accG : Guide)
    (hwf : WFElems es = true) (hk1df : k1.data.contains '.' = false)
    (hSSp : ∀ seg ∈ SS ++ p, seg.data.contains '.' = false)
    (hlen : 2 ≤ (SS ++ p).length)
    (hdiff : ∀ q s, (q, s) ∈ leavesElems k1 es i → q ≠ p) :
    alookup (flattenElems es (renderPre (SS ++ [k1])) i dt [] accG).1
      (render (SS ++ p)) = none := by
  apply alookup_eq_none
  intro kv hkv hc
  rcases flattenElems_flat_sound es k1 SS i dt [] accG kv hkv with h | h
  · obtain ⟨q, s, hm, _, hf⟩ := h
    have hdq : ∀ seg ∈ q, seg.data.contains '.' = false :=
      fun seg hseg => leavesElems_dotfree es k1 i hk1df hwf q s hm seg hseg
    rcases hf with hf | ⟨k2, hl, hk2⟩
    · rw [hc] at hf
      obtain ⟨j, r2, _, hq⟩ := leavesElems_shape k1 es i q s hm
      have heq := render_injective (SS ++ q) (SS ++ p)
        (by rw [hq]; simp) (by intro hcn; rw [hcn] at hlen; simp at hlen)
        (dotfree_append (fun seg hseg => hSSp seg (List.mem_append_left _ hseg)) hdq)
        hSSp hf.symm
      exact hdiff q s hm (List.append_cancel_left heq)
    · rw [hc] at hk2
      have hk2mem : k2 ∈ q := List.mem_of_mem_getLast? hl
      exact short_ne_render (hdq k2 hk2mem) hlen hk2.symm
  · cases h

theorem contrib_scalar_alookup_none (k1 : String) (SS p : List String) (w : String)
    (hk1df : k1.data.contains '.' = false)
    (hSSp : ∀ seg ∈ SS ++ p, seg.data.contains '.' = false)
    (hlen : 2 ≤ (SS ++ p).length) (hne : p ≠ [k1]) :
    alookup [(k1, w), (renderPre SS ++ k1, w)] (render (SS ++ p)) = none := by
  rw [alookup, if_neg (short_ne_render hk1df hlen), alookup,
    if_neg ?_, alookup]
  rw [render_eq_renderPre_key SS k1]
  intro hc
  have heq := render_injective (SS ++ [k1]) (SS ++ p)
    (by simp) (by intro hcn; rw [hcn] at hlen; simp at hlen)
    (dotfree_append (fun seg hseg => hSSp seg (List.mem_append_left _ hseg))
      (dotfree_single hk1df))
    hSSp hc
  exact hne (List.append_cancel_left heq).symm

/-! ### Lookup of a nested leaf by its fully-qualified dotted path -/

theorem flatten_alookup_leaf_nonobj (v : JVal) (SS : List String) (dt : Option String)
    (hobj : v.isObj = false) :
    alookup (flatten v (renderPre SS) dt).1 (render (SS ++ [])) = some (pyStr v) := by
  cases v
  case obj fs => cases hobj
  all_goals
    rw [List.append_nil]
  all_goals
    show alookup [(stripDot (renderPre SS), _)] (render SS) = _
  all_goals
    rw [stripDot_renderPre]
  all_goals
    simp [alookup]

mutual

theorem flatten_alookup_leaf : ∀ (v : JVal) (SS : List String) (dt : Option String),
    WFJ v = true → (∀ seg ∈ SS, seg.data.contains '.' = false) →
    ∀ p s, (p, s) ∈ leavesOf v → 2 ≤ (SS ++ p).length →
      alookup (flatten v (renderPre SS) dt).1 (render (SS ++ p)) = some s
  | .obj fs, SS, dt, hwf, hSSd, p, s, hm, hlen =>
    flattenFields_alookup_leaf fs SS _ [] [] (WFJ_obj hwf).1 (WFJ_obj hwf).2 hSSd
      p s hm hlen rfl
  | .str s0, SS, dt, _, _, p, s, hm, _ => by
    injection List.mem_singleton.mp hm with hp hs
    subst hp
    rw [hs]
    exact flatten_alookup_leaf_nonobj (JVal.str s0) SS dt rfl
  | .num n0, SS, dt, _, _, p, s, hm, _ => by
    injection List.mem_singleton.mp hm with hp hs
    subst hp
    rw [hs]
    exact flatten_alookup_leaf_nonobj (JVal.num n0) SS dt rfl
  | .boolv b0, SS, dt, _, _, p, s, hm, _ => by
    injection List.mem_singleton.mp hm with hp hs
    subst hp
    rw [hs]
    exact flatten_alookup_leaf_nonobj (JVal.boolv b0) SS dt rfl
  | .null, SS, dt, _, _, p, s, hm, _ => by
    injection List.mem_singleton.mp hm with hp hs
    subst hp
    rw [hs]
    exact flatten_alookup_leaf_nonobj JVal.null SS dt rfl
  | .arr es, SS, dt, _, _, p, s, hm, _ => by
    injection List.mem_singleton.mp hm with hp hs
    subst hp
    rw [hs]
    exact flatten_alookup_leaf_nonobj (JVal.arr es) SS dt rfl

theorem flattenFields_alookup_leaf : ∀ (fs : List (String × JVal)) (SS : List String)
    (dt : Option String) (accF : Flat) (accG : Guide),
    nodupKeys (fs.map Prod.fst) = true → WFFields fs = true →
    (∀ seg ∈ SS, seg.data.contains '.' = false) →
    ∀ p s, (p, s) ∈ leavesFields fs → 2 ≤ (SS ++ p).length →
      alookup accF (render (SS ++ p)) = none →
      alookup (flattenFields fs (renderPre SS) dt accF accG).1 (render (SS ++ p)) = some s
  | [], _, _, _, _, _, _, _, p, s, hm, _, _ => by cases hm
  | (k1, v) :: rest, SS, dt, accF, accG, hnd, hwf, hSSd, p, s, hm, hlen, hacc => by
    obtain ⟨hk1, hv, hrest⟩ := WFFields_cons hwf
    have hnd2 : ((!(rest.map Prod.fst).contains k1)
        && nodupKeys (rest.map Prod.fst)) = true := hnd
    rw [Bool.and_eq_true] at hnd2
    obtain ⟨hnotin, hndrest⟩ := hnd2
    simp only [Bool.not_eq_true'] at hnotin
    have hk1notin : k1 ∉ rest.map Prod.fst := by
      intro hcont
      have hct : (rest.map Prod.fst).contains k1 = true := List.elem_iff.mpr hcont
      rw [hnotin] at hct
      cases hct
    have hSS2 : ∀ seg ∈ SS ++ [k1], seg.data.contains '.' = false :=
      dotfree_append hSSd (dotfree_single (keyOK_dotfree hk1))
    cases v with
    | obj gs =>
      have echain : alookup (flattenFields ((k1, JVal.obj gs) :: rest) (renderPre SS) dt accF accG).1
            (render (SS ++ p))
          = (alookup (dictUpd (flatten (JVal.obj gs) (renderPre SS ++ k1 ++ ".") dt).1 accF)
              (render (SS ++ p))).orElse
            (fun _ => alookup (flattenFields rest (renderPre SS) dt []
              (guideMerge (flatten (JVal.obj gs) (renderPre SS ++ k1 ++ ".") dt).2 accG)).1
              (render (SS ++ p))) :=
        flattenFields_alookup_acc rest (renderPre SS) dt
          (dictUpd (flatten (JVal.obj gs) (renderPre SS ++ k1 ++ ".") dt).1 accF)
          (guideMerge (flatten (JVal.obj gs) (renderPre SS ++ k1 ++ ".") dt).2 accG)
          (render (SS ++ p))
      have hmm : (p, s) ∈ (leavesOf (JVal.obj gs)).map (fun ps => (k1 :: ps.1, ps.2))
          ++ leavesFields rest := hm
      rcases List.mem_append.mp hmm with h1 | h2
      · obtain ⟨ps, hps, heq⟩ := List.mem_map.mp h1
        injection heq with hp hs2
        have hrw : (SS ++ [k1]) ++ ps.1 = SS ++ p := by
          rw [List.append_assoc]
          show SS ++ (k1 :: ps.1) = SS ++ p
          rw [hp]
        have hc1 : alookup (flatten (JVal.obj gs) (renderPre SS ++ k1 ++ ".") dt).1
            (render (SS ++ p)) = some s := by
          rw [renderPre_append_key SS k1, ← hrw, ← hs2]
          exact flatten_alookup_leaf (JVal.obj gs) (SS ++ [k1]) dt hv hSS2 ps.1 ps.2 hps
            (by rw [hrw]; exact hlen)
        rw [echain, alookup_dictUpd, hacc, hc1]
        rfl
      · have hpdf : ∀ seg ∈ p, seg.data.contains '.' = false :=
          fun seg hseg => leavesFields_dotfree rest hrest p s h2 seg hseg
        have hc1 : alookup (flatten (JVal.obj gs) (renderPre SS ++ k1 ++ ".") dt).1
            (render (SS ++ p)) = none := by
          rw [renderPre_append_key SS k1]
          apply flatten_alookup_none (JVal.obj gs) (SS ++ [k1]) SS p dt hv hSS2
            (dotfree_append hSSd hpdf) hlen (by simp)
          intro q s2 hq hcq
          rw [List.append_assoc] at hcq
          have hpq := List.append_cancel_left hcq
          obtain ⟨k2, r2, hp2, hk2mem⟩ := leavesFields_shape rest p s h2
          rw [hp2] at hpq
          injection hpq with hfst h0
          exact hk1notin (by rw [hfst]; exact hk2mem)
        rw [echain, alookup_dictUpd, hacc, hc1]
        exact flattenFields_alookup_leaf rest SS dt [] _ hndrest hrest hSSd p s h2 hlen rfl
    | arr es =>
      have echain : alookup (flattenFields ((k1, JVal.arr es) :: rest) (renderPre SS) dt accF accG).1
            (render (SS ++ p))
          = (alookup (dictUpd (flattenElems es (renderPre SS ++ k1 ++ ".") 0 dt [] []).1 accF)
              (render (SS ++ p))).orElse
            (fun _ => alookup (flattenFields rest (renderPre SS) dt []
              (guideMerge (flattenElems es (renderPre SS ++ k1 ++ ".") 0 dt [] []).2 accG)).1
              (render (SS ++ p))) :=
        flattenFields_alookup_acc rest (renderPre SS) dt
          (dictUpd (flattenElems es (renderPre SS ++ k1 ++ ".") 0 dt [] []).1 accF)
          (guideMerge (flattenElems es (renderPre SS ++ k1 ++ ".") 0 dt [] []).2 accG)
          (render (SS ++ p))
      have hmm : (p, s) ∈ leavesElems k1 es 0 ++ leavesFields rest := hm
      rcases List.mem_append.mp hmm with h1 | h2
      · have hc1 : alookup (flattenElems es (renderPre SS ++ k1 ++ ".") 0 dt [] []).1
            (render (SS ++ p)) = some s := by
          rw [renderPre_append_key SS k1]
          exact flattenElems_alookup_leaf es k1 SS 0 dt [] [] hk1 hv hSSd p s h1
        rw [echain, alookup_dictUpd, hacc, hc1]
        rfl
      · have hpdf : ∀ seg ∈ p, seg.data.contains '.' = false :=
          fun seg hseg => leavesFields_dotfree rest hrest p s h2 seg hseg
        have hc1 : alookup (flattenElems es (renderPre SS ++ k1 ++ ".") 0 dt [] []).1
            (render (SS ++ p)) = none := by
          rw [renderPre_append_key SS k1]
          apply flattenElems_alookup_none es k1 SS p 0 dt [] hv (keyOK_dotfree hk1)
            (dotfree_append hSSd hpdf) hlen
          intro q s2 hq hcq
          obtain ⟨j, r2, hj, hq2⟩ := leavesElems_shape k1 es 0 q s2 hq
          obtain ⟨k2, r3, hp2, hk2mem⟩ := leavesFields_shape rest p s h2
          rw [hq2, hp2] at hcq
          injection hcq with hfst h0
          exact hk1notin (by rw [hfst]; exact hk2mem)
        rw [echain, alookup_dictUpd, hacc, hc1]
        exact flattenFields_alookup_leaf rest SS dt [] _ hndrest hrest hSSd p s h2 hlen rfl
    | str s0 =>
      have echain : alookup (flattenFields ((k1, (JVal.str s0)) :: rest) (renderPre SS) dt accF accG).1
            (render (SS ++ p))
          = (alookup (dictUpd [(k1, pyStr (JVal.str s0)), (renderPre SS ++ k1, pyStr (JVal.str s0))] accF) (render (SS ++ p))).orElse
            (fun _ => alookup (flattenFields rest (renderPre SS) dt []
              (guideMerge [(k1, [(dt, pynorm (renderPre SS ++ k1))]), (renderPre SS ++ k1, [(dt, pynorm (renderPre SS ++ k1))])] accG)).1 (render (SS ++ p))) :=
        flattenFields_alookup_acc rest (renderPre SS) dt
          (dictUpd [(k1, pyStr (JVal.str s0)), (renderPre SS ++ k1, pyStr (JVal.str s0))] accF)
          (guideMerge [(k1, [(dt, pynorm (renderPre SS ++ k1))]), (renderPre SS ++ k1, [(dt, pynorm (renderPre SS ++ k1))])] accG)
          (render (SS ++ p))
      have hmm : (p, s) ∈ [([k1], pyStr (JVal.str s0))] ++ leavesFields rest := hm
      rcases List.mem_append.mp hmm with h1 | h2
      · injection List.mem_singleton.mp h1 with hp hs2
        subst hp
        rw [hs2]
        have hc1 : alookup [(k1, pyStr (JVal.str s0)), (renderPre SS ++ k1, pyStr (JVal.str s0))] (render (SS ++ [k1])) = some (pyStr (JVal.str s0)) := by
          rw [alookup, if_neg (short_ne_render (keyOK_dotfree hk1) hlen), alookup,
            if_pos (render_eq_renderPre_key SS k1)]
        rw [echain, alookup_dictUpd, hacc, hc1]
        rfl
      · have hpdf : ∀ seg ∈ p, seg.data.contains '.' = false :=
          fun seg hseg => leavesFields_dotfree rest hrest p s h2 seg hseg
        have hc1 : alookup [(k1, pyStr (JVal.str s0)), (renderPre SS ++ k1, pyStr (JVal.str s0))] (render (SS ++ p)) = none := by
          apply contrib_scalar_alookup_none k1 SS p (pyStr (JVal.str s0)) (keyOK_dotfree hk1)
            (dotfree_append hSSd hpdf) hlen
          intro hcp
          obtain ⟨k2, r3, hp2, hk2mem⟩ := leavesFields_shape rest p s h2
          rw [hp2] at hcp
          injection hcp with hfst h0
          exact hk1notin (by rw [← hfst]; exact hk2mem)
        rw [echain, alookup_dictUpd, hacc, hc1]
        exact flattenFields_alookup_leaf rest SS dt [] _ hndrest hrest hSSd p s h2 hlen rfl
    | num n0 =>
      have echain : alookup (flattenFields ((k1, (JVal.num n0)) :: rest) (renderPre SS) dt accF accG).1
            (render (SS ++ p))
          = (alookup (dictUpd [(k1, pyStr (JVal.num n0)), (renderPre SS ++ k1, pyStr (JVal.num n0))] accF) (render (SS ++ p))).orElse
            (fun _ => alookup (flattenFields rest (renderPre SS) dt []
              (guideMerge [(k1, [(dt, pynorm (renderPre SS ++ k1))]), (renderPre SS ++ k1, [(dt, pynorm (renderPre SS ++ k1))])] accG)).1 (render (SS ++ p))) :=
        flattenFields_alookup_acc rest (renderPre SS) dt
          (dictUpd [(k1, pyStr (JVal.num n0)), (renderPre SS ++ k1, pyStr (JVal.num n0))] accF)
          (guideMerge [(k1, [(dt, pynorm (renderPre SS ++ k1))]), (renderPre SS ++ k1, [(dt, pynorm (renderPre SS ++ k1))])] accG)
          (render (SS ++ p))
      have hmm : (p, s) ∈ [([k1], pyStr (JVal.num n0))] ++ leavesFields rest := hm
      rcases List.mem_append.mp hmm with h1 | h2
      · injection List.mem_singleton.mp h1 with hp hs2
        subst hp
        rw [hs2]
        have hc1 : alookup [(k1, pyStr (JVal.num n0)), (renderPre SS ++ k1, pyStr (JVal.num n0))] (render (SS ++ [k1])) = some (pyStr (JVal.num n0)) := by
          rw [alookup, if_neg (short_ne_render (keyOK_dotfree hk1) hlen), alookup,
            if_pos (render_eq_renderPre_key SS k1)]
        rw [echain, alookup_dictUpd, hacc, hc1]
        rfl
      · have hpdf : ∀ seg ∈ p, seg.data.contains '.' = false :=
          fun seg hseg => leavesFields_dotfree rest hrest p s h2 seg hseg
        have hc1 : alookup [(k1, pyStr (JVal.num n0)), (renderPre SS ++ k1, pyStr (JVal.num n0))] (render (SS ++ p)) = none := by
          apply contrib_scalar_alookup_none k1 SS p (pyStr (JVal.num n0)) (keyOK_dotfree hk1)
            (dotfree_append hSSd hpdf) hlen
          intro hcp
          obtain ⟨k2, r3, hp2, hk2mem⟩ := leavesFields_shape rest p s h2
          rw [hp2] at hcp
          injection hcp with hfst h0
          exact hk1notin (by rw [← hfst]; exact hk2mem)
        rw [echain, alookup_dictUpd, hacc, hc1]
        exact flattenFields_alookup_leaf rest SS dt [] _ hndrest hrest hSSd p s h2 hlen rfl
    | boolv b0 =>
      have echain : alookup (flattenFields ((k1, (JVal.boolv b0)) :: rest) (renderPre SS) dt accF accG).1
            (render (SS ++ p))
          = (alookup (dictUpd [(k1, pyStr (JVal.boolv b0)), (renderPre SS ++ k1, pyStr (JVal.boolv b0))] accF) (render (SS ++ p))).orElse
            (fun _ => alookup (flattenFields rest (renderPre SS) dt []
              (guideMerge [(k1, [(dt, pynorm (renderPre SS ++ k1))]), (renderPre SS ++ k1, [(dt, pynorm (renderPre SS ++ k1))])] accG)).1 (render (SS ++ p))) :=
        flattenFields_alookup_acc rest (renderPre SS) dt
          (dictUpd [(k1, pyStr (JVal.boolv b0)), (renderPre SS ++ k1, pyStr (JVal.boolv b0))] accF)
          (guideMerge [(k1, [(dt, pynorm (renderPre SS ++ k1))]), (renderPre SS ++ k1, [(dt, pynorm (renderPre SS ++ k1))])] accG)
          (render (SS ++ p))
      have hmm : (p, s) ∈ [([k1], pyStr (JVal.boolv b0))] ++ leavesFields rest := hm
      rcases List.mem_append.mp hmm with h1 | h2
      · injection List.mem_singleton.mp h1 with hp hs2
        subst hp
        rw [hs2]
        have hc1 : alookup [(k1, pyStr (JVal.boolv b0)), (renderPre SS ++ k1, pyStr (JVal.boolv b0))] (render (SS ++ [k1])) = some (pyStr (JVal.boolv b0)) := by
          rw [alookup, if_neg (short_ne_render (keyOK_dotfree hk1) hlen), alookup,
            if_pos (render_eq_renderPre_key SS k1)]
        rw [echain, alookup_dictUpd, hacc, hc1]
        rfl
      · have hpdf : ∀ seg ∈ p, seg.data.contains '.' = false :=
          fun seg hseg => leavesFields_dotfree rest hrest p s h2 seg hseg
        have hc1 : alookup [(k1, pyStr (JVal.boolv b0)), (renderPre SS ++ k1, pyStr (JVal.boolv b0))] (render (SS ++ p)) = none := by
          apply contrib_scalar_alookup_none k1 SS p (pyStr (JVal.boolv b0)) (keyOK_dotfree hk1)
            (dotfree_append hSSd hpdf) hlen
          intro hcp
          obtain ⟨k2, r3, hp2, hk2mem⟩ := leavesFields_shape rest p s h2
          rw [hp2] at hcp
          injection hcp with hfst h0
          exact hk1notin (by rw [← hfst]; exact hk2mem)
        rw [echain, alookup_dictUpd, hacc, hc1]
        exact flattenFields_alookup_leaf rest SS dt [] _ hndrest hrest hSSd p s h2 hlen rfl
    | null =>
      have echain : alookup (flattenFields ((k1, JVal.null) :: rest) (renderPre SS) dt accF accG).1
            (render (SS ++ p))
          = (alookup (dictUpd [(k1, pyStr JVal.null), (renderPre SS ++ k1, pyStr JVal.null)] accF) (render (SS ++ p))).orElse
            (fun _ => alookup (flattenFields rest (renderPre SS) dt []
              (guideMerge [(k1, [(dt, pynorm (renderPre SS ++ k1))]), (renderPre SS ++ k1, [(dt, pynorm (renderPre SS ++ k1))])] accG)).1 (render (SS ++ p))) :=
        flattenFields_alookup_acc rest (renderPre SS) dt
          (dictUpd [(k1, pyStr JVal.null), (renderPre SS ++ k1, pyStr JVal.null)] accF)
          (guideMerge [(k1, [(dt, pynorm (renderPre SS ++ k1))]), (renderPre SS ++ k1, [(dt, pynorm (renderPre SS ++ k1))])] accG)
          (render (SS ++ p))
      have hmm : (p, s) ∈ [([k1], pyStr JVal.null)] ++ leavesFields rest := hm
      rcases List.mem_append.mp hmm with h1 | h2
      · injection List.mem_singleton.mp h1 with hp hs2
        subst hp
        rw [hs2]
        have hc1 : alookup [(k1, pyStr JVal.null), (renderPre SS ++ k1, pyStr JVal.null)] (render (SS ++ [k1])) = some (pyStr JVal.null) := by
          rw [alookup, if_neg (short_ne_render (keyOK_dotfree hk1) hlen), alookup,
            if_pos (render_eq_renderPre_key SS k1)]
        rw [echain, alookup_dictUpd, hacc, hc1]
        rfl
      · have hpdf : ∀ seg ∈ p, seg.data.contains '.' = false :=
          fun seg hseg => leavesFields_dotfree rest hrest p s h2 seg hseg
        have hc1 : alookup [(k1, pyStr JVal.null), (renderPre SS ++ k1, pyStr JVal.null)] (render (SS ++ p)) = none := by
          apply contrib_scalar_alookup_none k1 SS p (pyStr JVal.null) (keyOK_dotfree hk1)
            (dotfree_append hSSd hpdf) hlen
          intro hcp
          obtain ⟨k2, r3, hp2, hk2mem⟩ := leavesFields_shape rest p s h2
          rw [hp2] at hcp
          injection hcp with hfst h0
          exact hk1notin (by rw [← hfst]; exact hk2mem)
        rw [echain, alookup_dictUpd, hacc, hc1]
        exact flattenFields_alookup_leaf rest SS dt [] _ hndrest hrest hSSd p s h2 hlen rfl

theorem flattenElems_alookup_leaf : ∀ (es : List JVal) (k1 : String) (SS : List String)
    (i : Nat) (dt : Option String) (accF : Flat) (accG : Guide),
    keyOK k1 = true → WFElems es = true →
    (∀ seg ∈ SS, seg.data.contains '.' = false) →
    ∀ p s, (p, s) ∈ leavesElems k1 es i →
      alookup (flattenElems es (renderPre (SS ++ [k1])) i dt accF accG).1
        (render (SS ++ p)) = some s
  | [], _, _, _, _, _, _, _, _, _, p, s, hm => by cases hm
  | e :: rest, k1, SS, i, dt, accF, accG, hk1, hwf, hSSd, p, s, hm => by
    obtain ⟨he, hrest⟩ := WFElems_cons hwf
    have hSS2 : ∀ seg ∈ SS ++ [k1], seg.data.contains '.' = false :=
      dotfree_append hSSd (dotfree_single (keyOK_dotfree hk1))
    have hSS3 : ∀ seg ∈ (SS ++ [k1]) ++ [Nat.repr i], seg.data.contains '.' = false :=
      dotfree_append hSS2 (dotfree_single (natRepr_dotfree i))
    cases e with
    | obj gs =>
      have echain : alookup (flattenElems ((JVal.obj gs) :: rest) (renderPre (SS ++ [k1])) i dt accF accG).1
            (render (SS ++ p))
          = (alookup (flattenElems rest (renderPre (SS ++ [k1])) (i + 1) dt []
              (dictUpd accG (flatten (JVal.obj gs) (renderPre (SS ++ [k1]) ++ Nat.repr i ++ ".") dt).2)).1 (render (SS ++ p))).orElse
            (fun _ => alookup (dictUpd accF (flatten (JVal.obj gs) (renderPre (SS ++ [k1]) ++ Nat.repr i ++ ".") dt).1) (render (SS ++ p))) :=
        flattenElems_alookup_acc rest (renderPre (SS ++ [k1])) (i + 1) dt
          (dictUpd accF (flatten (JVal.obj gs) (renderPre (SS ++ [k1]) ++ Nat.repr i ++ ".") dt).1)
          (dictUpd accG (flatten (JVal.obj gs) (renderPre (SS ++ [k1]) ++ Nat.repr i ++ ".") dt).2)
          (render (SS ++ p))
      have hmm : (p, s) ∈ (leavesOf (JVal.obj gs)).map (fun ps => (k1 :: Nat.repr i :: ps.1, ps.2))
          ++ leavesElems k1 rest (i + 1) := hm
      rcases List.mem_append.mp hmm with h1 | h2
      · obtain ⟨ps, hps, heq⟩ := List.mem_map.mp h1
        injection heq with hp hs2
        have hpdf : ∀ seg ∈ p, seg.data.contains '.' = false := by
          rw [← hp]
          intro seg hseg
          rcases List.mem_cons.mp hseg with h4 | h4
          · rw [h4]; exact keyOK_dotfree hk1
          · rcases List.mem_cons.mp h4 with h5 | h5
            · rw [h5]; exact natRepr_dotfree i
            · exact leavesOf_dotfree (JVal.obj gs) he ps.1 ps.2 hps seg h5
        have hplen : 2 ≤ (SS ++ p).length := by
          rw [← hp, List.length_append]
          simp only [List.length_cons]
          omega
        have hrestnone : alookup (flattenElems rest (renderPre (SS ++ [k1])) (i + 1) dt []
            (dictUpd accG (flatten (JVal.obj gs) (renderPre (SS ++ [k1]) ++ Nat.repr i ++ ".") dt).2)).1 (render (SS ++ p)) = none := by
          apply flattenElems_alookup_none rest k1 SS p (i + 1) dt _ hrest (keyOK_dotfree hk1)
            (dotfree_append hSSd hpdf) hplen
          intro q s2 hq hcq
          obtain ⟨j, r2, hj, hq2⟩ := leavesElems_shape k1 rest (i + 1) q s2 hq
          rw [hq2, ← hp] at hcq
          injection hcq with h0 hcq2
          injection hcq2 with hcq3 h0b
          have hji := natRepr_injective hcq3
          omega
        have hrw : ((SS ++ [k1]) ++ [Nat.repr i]) ++ ps.1 = SS ++ p := by
          rw [List.append_assoc, List.append_assoc]
          show SS ++ (k1 :: Nat.repr i :: ps.1) = SS ++ p
          rw [hp]
        have hsome : alookup (flatten (JVal.obj gs) (renderPre (SS ++ [k1]) ++ Nat.repr i ++ ".") dt).1 (render (SS ++ p)) = some s := by
          rw [renderPre_append_key (SS ++ [k1]) (Nat.repr i), ← hrw, ← hs2]
          exact flatten_alookup_leaf (JVal.obj gs) ((SS ++ [k1]) ++ [Nat.repr i]) dt he hSS3
            ps.1 ps.2 hps (by rw [hrw]; exact hplen)
        rw [echain, hrestnone, alookup_dictUpd, hsome]
        rfl
      · rw [echain]
        have hrec := flattenElems_alookup_leaf rest k1 SS (i + 1) dt []
          (dictUpd accG (flatten (JVal.obj gs) (renderPre (SS ++ [k1]) ++ Nat.repr i ++ ".") dt).2) hk1 hrest hSSd p s h2
        rw [hrec]
        rfl
    | str s0 =>
      have echain : alookup (flattenElems ((JVal.str s0) :: rest) (renderPre (SS ++ [k1])) i dt accF accG).1
            (render (SS ++ p))
          = (alookup (flattenElems rest (renderPre (SS ++ [k1])) (i + 1) dt []
              (dictUpd accG (flatten (JVal.str s0) (renderPre (SS ++ [k1]) ++ Nat.repr i ++ ".") dt).2)).1 (render (SS ++ p))).orElse
            (fun _ => alookup (dictUpd accF (flatten (JVal.str s0) (renderPre (SS ++ [k1]) ++ Nat.repr i ++ ".") dt).1) (render (SS ++ p))) :=
        flattenElems_alookup_acc rest (renderPre (SS ++ [k1])) (i + 1) dt
          (dictUpd accF (flatten (JVal.str s0) (renderPre (SS ++ [k1]) ++ Nat.repr i ++ ".") dt).1)
          (dictUpd accG (flatten (JVal.str s0) (renderPre (SS ++ [k1]) ++ Nat.repr i ++ ".") dt).2)
          (render (SS ++ p))
      have hmm : (p, s) ∈ [([k1, Nat.repr i], pyStr (JVal.str s0))]
          ++ leavesElems k1 rest (i + 1) := hm
      rcases List.mem_append.mp hmm with h1 | h2
      · injection List.mem_singleton.mp h1 with hp hs2
        subst hp
        rw [hs2]
        have hpdf : ∀ seg ∈ ([k1, Nat.repr i] : List String),
            seg.data.contains '.' = false := by
          intro seg hseg
          rcases List.mem_cons.mp hseg with h4 | h4
          · rw [h4]; exact keyOK_dotfree hk1
          · rcases List.mem_cons.mp h4 with h5 | h5
            · rw [h5]; exact natRepr_dotfree i
            · cases h5
        have hplen : 2 ≤ (SS ++ [k1, Nat.repr i]).length := by
          rw [List.length_append]
          simp only [List.length_cons]
          omega
        have hrestnone : alookup (flattenElems rest (renderPre (SS ++ [k1])) (i + 1) dt []
            (dictUpd accG (flatten (JVal.str s0) (renderPre (SS ++ [k1]) ++ Nat.repr i ++ ".") dt).2)).1 (render (SS ++ [k1, Nat.repr i])) = none := by
          apply flattenElems_alookup_none rest k1 SS [k1, Nat.repr i] (i + 1) dt _ hrest
            (keyOK_dotfree hk1) (dotfree_append hSSd hpdf) hplen
          intro q s2 hq hcq
          obtain ⟨j, r2, hj, hq2⟩ := leavesElems_shape k1 rest (i + 1) q s2 hq
          rw [hq2] at hcq
          injection hcq with h0 hcq2
          injection hcq2 with hcq3 h0b
          have hji := natRepr_injective hcq3
          omega
        have hrw : ((SS ++ [k1]) ++ [Nat.repr i]) ++ ([] : List String)
            = SS ++ [k1, Nat.repr i] := by
          rw [List.append_nil, List.append_assoc]
          rfl
        have hsome : alookup (flatten (JVal.str s0) (renderPre (SS ++ [k1]) ++ Nat.repr i ++ ".") dt).1 (render (SS ++ [k1, Nat.repr i])) = some (pyStr (JVal.str s0)) := by
          rw [renderPre_append_key (SS ++ [k1]) (Nat.repr i), ← hrw]
          exact flatten_alookup_leaf_nonobj (JVal.str s0) ((SS ++ [k1]) ++ [Nat.repr i]) dt rfl
        rw [echain, hrestnone, alookup_dictUpd, hsome]
        rfl
      · rw [echain]
        have hrec := flattenElems_alookup_leaf rest k1 SS (i + 1) dt []
          (dictUpd accG (flatten (JVal.str s0) (renderPre (SS ++ [k1]) ++ Nat.repr i ++ ".") dt).2) hk1 hrest hSSd p s h2
        rw [hrec]
        rfl
    | num n0 =>
      have echain : alookup (flattenElems ((JVal.num n0) :: rest) (renderPre (SS ++ [k1])) i dt accF accG).1
            (render (SS ++ p))
          = (alookup (flattenElems rest (renderPre (SS ++ [k1])) (i + 1) dt []
              (dictUpd accG (flatten (JVal.num n0) (renderPre (SS ++ [k1]) ++ Nat.repr i ++ ".") dt).2)).1 (render (SS ++ p))).orElse
            (fun _ => alookup (dictUpd accF (flatten (JVal.num n0) (renderPre (SS ++ [k1]) ++ Nat.repr i ++ ".") dt).1) (render (SS ++ p))) :=
        flattenElems_alookup_acc rest (renderPre (SS ++ [k1])) (i + 1) dt
          (dictUpd accF (flatten (JVal.num n0) (renderPre (SS ++ [k1]) ++ Nat.repr i ++ ".") dt).1)
          (dictUpd accG (flatten (JVal.num n0) (renderPre (SS ++ [k1]) ++ Nat.repr i ++ ".") dt).2)
          (render (SS ++ p))
      have hmm : (p, s) ∈ [([k1, Nat.repr i], pyStr (JVal.num n0))]
          ++ leavesElems k1 rest (i + 1) := hm
      rcases List.mem_append.mp hmm with h1 | h2
      · injection List.mem_singleton.mp h1 with hp hs2
        subst hp
        rw [hs2]
        have hpdf : ∀ seg ∈ ([k1, Nat.repr i] : List String),
            seg.data.contains '.' = false := by
          intro seg hseg
          rcases List.mem_cons.mp hseg with h4 | h4
          · rw [h4]; exact keyOK_dotfree hk1
          · rcases List.mem_cons.mp h4 with h5 | h5
            · rw [h5]; exact natRepr_dotfree i
            · cases h5
        have hplen : 2 ≤ (SS ++ [k1, Nat.repr i]).length := by
          rw [List.length_append]
          simp only [List.length_cons]
          omega
        have hrestnone : alookup (flattenElems rest (renderPre (SS ++ [k1])) (i + 1) dt []
            (dictUpd accG (flatten (JVal.num n0) (renderPre (SS ++ [k1]) ++ Nat.repr i ++ ".") dt).2)).1 (render (SS ++ [k1, Nat.repr i])) = none := by
          apply flattenElems_alookup_none rest k1 SS [k1, Nat.repr i] (i + 1) dt _ hrest
            (keyOK_dotfree hk1) (dotfree_append hSSd hpdf) hplen
          intro q s2 hq hcq
          obtain ⟨j, r2, hj, hq2⟩ := leavesElems_shape k1 rest (i + 1) q s2 hq
          rw [hq2] at hcq
          injection hcq with h0 hcq2
          injection hcq2 with hcq3 h0b
          have hji := natRepr_injective hcq3
          omega
        have hrw : ((SS ++ [k1]) ++ [Nat.repr i]) ++ ([] : List String)
            = SS ++ [k1, Nat.repr i] := by
          rw [List.append_nil, List.append_assoc]
          rfl
        have hsome : alookup (flatten (JVal.num n0) (renderPre (SS ++ [k1]) ++ Nat.repr i ++ ".") dt).1 (render (SS ++ [k1, Nat.repr i])) = some (pyStr (JVal.num n0)) := by
          rw [renderPre_append_key (SS ++ [k1]) (Nat.repr i), ← hrw]
          exact flatten_alookup_leaf_nonobj (JVal.num n0) ((SS ++ [k1]) ++ [Nat.repr i]) dt rfl
        rw [echain, hrestnone, alookup_dictUpd, hsome]
        rfl
      · rw [echain]
        have hrec := flattenElems_alookup_leaf rest k1 SS (i + 1) dt []
          (dictUpd accG (flatten (JVal.num n0) (renderPre (SS ++ [k1]) ++ Nat.repr i ++ ".") dt).2) hk1 hrest hSSd p s h2
        rw [hrec]
        rfl
    | boolv b0 =>
      have echain : alookup (flattenElems ((JVal.boolv b0) :: rest) (renderPre (SS ++ [k1])) i dt accF accG).1
            (render (SS ++ p))
          = (alookup (flattenElems rest (renderPre (SS ++ [k1])) (i + 1) dt []
              (dictUpd accG (flatten (JVal.boolv b0) (renderPre (SS ++ [k1]) ++ Nat.repr i ++ ".") dt).2)).1 (render (SS ++ p))).orElse
            (fun _ => alookup (dictUpd accF (flatten (JVal.boolv b0) (renderPre (SS ++ [k1]) ++ Nat.repr i ++ ".") dt).1) (render (SS ++ p))) :=
        flattenElems_alookup_acc rest (renderPre (SS ++ [k1])) (i + 1) dt
          (dictUpd accF (flatten (JVal.boolv b0) (renderPre (SS ++ [k1]) ++ Nat.repr i ++ ".") dt).1)
          (dictUpd accG (flatten (JVal.boolv b0) (renderPre (SS ++ [k1]) ++ Nat.repr i ++ ".") dt).2)
          (render (SS ++ p))
      have hmm : (p, s) ∈ [([k1, Nat.repr i], pyStr (JVal.boolv b0))]
          ++ leavesElems k1 rest (i + 1) := hm
      rcases List.mem_append.mp hmm with h1 | h2
      · injection List.mem_singleton.mp h1 with hp hs2
        subst hp
        rw [hs2]
        have hpdf : ∀ seg ∈ ([k1, Nat.repr i] : List String),
            seg.data.contains '.' = false := by
          intro seg hseg
          rcases List.mem_cons.mp hseg with h4 | h4
          · rw [h4]; exact keyOK_dotfree hk1
          · rcases List.mem_cons.mp h4 with h5 | h5
            · rw [h5]; exact natRepr_dotfree i
            · cases h5
        have hplen : 2 ≤ (SS ++ [k1, Nat.repr i]).length := by
          rw [List.length_append]
          simp only [List.length_cons]
          omega
        have hrestnone : alookup (flattenElems rest (renderPre (SS ++ [k1])) (i + 1) dt []
            (dictUpd accG (flatten (JVal.boolv b0) (renderPre (SS ++ [k1]) ++ Nat.repr i ++ ".") dt).2)).1 (render (SS ++ [k1, Nat.repr i])) = none := by
          apply flattenElems_alookup_none rest k1 SS [k1, Nat.repr i] (i + 1) dt _ hrest
            (keyOK_dotfree hk1) (dotfree_append hSSd hpdf) hplen
          intro q s2 hq hcq
          obtain ⟨j, r2, hj, hq2⟩ := leavesElems_shape k1 rest (i + 1) q s2 hq
          rw [hq2] at hcq
          injection hcq with h0 hcq2
          injection hcq2 with hcq3 h0b
          have hji := natRepr_injective hcq3
          omega
        have hrw : ((SS ++ [k1]) ++ [Nat.repr i]) ++ ([] : List String)
            = SS ++ [k1, Nat.repr i] := by
          rw [List.append_nil, List.append_assoc]
          rfl
        have hsome : alookup (flatten (JVal.boolv b0) (renderPre (SS ++ [k1]) ++ Nat.repr i ++ ".") dt).1 (render (SS ++ [k1, Nat.repr i])) = some (pyStr (JVal.boolv b0)) := by
          rw [renderPre_append_key (SS ++ [k1]) (Nat.repr i), ← hrw]
          exact flatten_alookup_leaf_nonobj (JVal.boolv b0) ((SS ++ [k1]) ++ [Nat.repr i]) dt rfl
        rw [echain, hrestnone, alookup_dictUpd, hsome]
        rfl
      · rw [echain]
        have hrec := flattenElems_alookup_leaf rest k1 SS (i + 1) dt []
          (dictUpd accG (flatten (JVal.boolv b0) (renderPre (SS ++ [k1]) ++ Nat.repr i ++ ".") dt).2) hk1 hrest hSSd p s h2
        rw [hrec]
        rfl
    | null =>
      have echain : alookup (flattenElems (JVal.null :: rest) (renderPre (SS ++ [k1])) i dt accF accG).1
            (render (SS ++ p))
          = (alookup (flattenElems rest (renderPre (SS ++ [k1])) (i + 1) dt []
              (dictUpd accG (flatten JVal.null (renderPre (SS ++ [k1]) ++ Nat.repr i ++ ".") dt).2)).1 (render (SS ++ p))).orElse
            (fun _ => alookup (dictUpd accF (flatten JVal.null (renderPre (SS ++ [k1]) ++ Nat.repr i ++ ".") dt).1) (render (SS ++ p))) :=
        flattenElems_alookup_acc rest (renderPre (SS ++ [k1])) (i + 1) dt
          (dictUpd accF (flatten JVal.null (renderPre (SS ++ [k1]) ++ Nat.repr i ++ ".") dt).1)
          (dictUpd accG (flatten JVal.null (renderPre (SS ++ [k1]) ++ Nat.repr i ++ ".") dt).2)
          (render (SS ++ p))
      have hmm : (p, s) ∈ [([k1, Nat.repr i], pyStr JVal.null)]
          ++ leavesElems k1 rest (i + 1) := hm
      rcases List.mem_append.mp hmm with h1 | h2
      · injection List.mem_singleton.mp h1 with hp hs2
        subst hp
        rw [hs2]
        have hpdf : ∀ seg ∈ ([k1, Nat.repr i] : List String),
            seg.data.contains '.' = false := by
          intro seg hseg
          rcases List.mem_cons.mp hseg with h4 | h4
          · rw [h4]; exact keyOK_dotfree hk1
          · rcases List.mem_cons.mp h4 with h5 | h5
            · rw [h5]; exact natRepr_dotfree i
            · cases h5
        have hplen : 2 ≤ (SS ++ [k1, Nat.repr i]).length := by
          rw [List.length_append]
          simp only [List.length_cons]
          omega
        have hrestnone : alookup (flattenElems rest (renderPre (SS ++ [k1])) (i + 1) dt []
            (dictUpd accG (flatten JVal.null (renderPre (SS ++ [k1]) ++ Nat.repr i ++ ".") dt).2)).1 (render (SS ++ [k1, Nat.repr i])) = none := by
          apply flattenElems_alookup_none rest k1 SS [k1, Nat.repr i] (i + 1) dt _ hrest
            (keyOK_dotfree hk1) (dotfree_append hSSd hpdf) hplen
          intro q s2 hq hcq
          obtain ⟨j, r2, hj, hq2⟩ := leavesElems_shape k1 rest (i + 1) q s2 hq
          rw [hq2] at hcq
          injection hcq with h0 hcq2
          injection hcq2 with hcq3 h0b
          have hji := natRepr_injective hcq3
          omega
        have hrw : ((SS ++ [k1]) ++ [Nat.repr i]) ++ ([] : List String)
            = SS ++ [k1, Nat.repr i] := by
          rw [List.append_nil, List.append_assoc]
          rfl
        have hsome : alookup (flatten JVal.null (renderPre (SS ++ [k1]) ++ Nat.repr i ++ ".") dt).1 (render (SS ++ [k1, Nat.repr i])) = some (pyStr JVal.null) := by
          rw [renderPre_append_key (SS ++ [k1]) (Nat.repr i), ← hrw]
          exact flatten_alookup_leaf_nonobj JVal.null ((SS ++ [k1]) ++ [Nat.repr i]) dt rfl
        rw [echain, hrestnone, alookup_dictUpd, hsome]
        rfl
      · rw [echain]
        have hrec := flattenElems_alookup_leaf rest k1 SS (i + 1) dt []
          (dictUpd accG (flatten JVal.null (renderPre (SS ++ [k1]) ++ Nat.repr i ++ ".") dt).2) hk1 hrest hSSd p s h2
        rw [hrec]
        rfl
    | arr es2 =>
      have echain : alookup (flattenElems ((JVal.arr es2) :: rest) (renderPre (SS ++ [k1])) i dt accF accG).1
            (render (SS ++ p))
          = (alookup (flattenElems rest (renderPre (SS ++ [k1])) (i + 1) dt []
              (dictUpd accG (flatten (JVal.arr es2) (renderPre (SS ++ [k1]) ++ Nat.repr i ++ ".") dt).2)).1 (render (SS ++ p))).orElse
            (fun _ => alookup (dictUpd accF (flatten (JVal.arr es2) (renderPre (SS ++ [k1]) ++ Nat.repr i ++ ".") dt).1) (render (SS ++ p))) :=
        flattenElems_alookup_acc rest (renderPre (SS ++ [k1])) (i + 1) dt
          (dictUpd accF (flatten (JVal.arr es2) (renderPre (SS ++ [k1]) ++ Nat.repr i ++ ".") dt).1)
          (dictUpd accG (flatten (JVal.arr es2) (renderPre (SS ++ [k1]) ++ Nat.repr i ++ ".") dt).2)
          (render (SS ++ p))
      have hmm : (p, s) ∈ [([k1, Nat.repr i], pyStr (JVal.arr es2))]
          ++ leavesElems k1 rest (i + 1) := hm
      rcases List.mem_append.mp hmm with h1 | h2
      · injection List.mem_singleton.mp h1 with hp hs2
        subst hp
        rw [hs2]
        have hpdf : ∀ seg ∈ ([k1, Nat.repr i] : List String),
            seg.data.contains '.' = false := by
          intro seg hseg
          rcases List.mem_cons.mp hseg with h4 | h4
          · rw [h4]; exact keyOK_dotfree hk1
          · rcases List.mem_cons.mp h4 with h5 | h5
            · rw [h5]; exact natRepr_dotfree i
            · cases h5
        have hplen : 2 ≤ (SS ++ [k1, Nat.repr i]).length := by
          rw [List.length_append]
          simp only [List.length_cons]
          omega
        have hrestnone : alookup (flattenElems rest (renderPre (SS ++ [k1])) (i + 1) dt []
            (dictUpd accG (flatten (JVal.arr es2) (renderPre (SS ++ [k1]) ++ Nat.repr i ++ ".") dt).2)).1 (render (SS ++ [k1, Nat.repr i])) = none := by
          apply flattenElems_alookup_none rest k1 SS [k1, Nat.repr i] (i + 1) dt _ hrest
            (keyOK_dotfree hk1) (dotfree_append hSSd hpdf) hplen
          intro q s2 hq hcq
          obtain ⟨j, r2, hj, hq2⟩ := leavesElems_shape k1 rest (i + 1) q s2 hq
          rw [hq2] at hcq
          injection hcq with h0 hcq2
          injection hcq2 with hcq3 h0b
          have hji := natRepr_injective hcq3
          omega
        have hrw : ((SS ++ [k1]) ++ [Nat.repr i]) ++ ([] : List String)
            = SS ++ [k1, Nat.repr i] := by
          rw [List.append_nil, List.append_assoc]
          rfl
        have hsome : alookup (flatten (JVal.arr es2) (renderPre (SS ++ [k1]) ++ Nat.repr i ++ ".") dt).1 (render (SS ++ [k1, Nat.repr i])) = some (pyStr (JVal.arr es2)) := by
          rw [renderPre_append_key (SS ++ [k1]) (Nat.repr i), ← hrw]
          exact flatten_alookup_leaf_nonobj (JVal.arr es2) ((SS ++ [k1]) ++ [Nat.repr i]) dt rfl
        rw [echain, hrestnone, alookup_dictUpd, hsome]
        rfl
      · rw [echain]
        have hrec := flattenElems_alookup_leaf rest k1 SS (i + 1) dt []
          (dictUpd accG (flatten (JVal.arr es2) (renderPre (SS ++ [k1]) ++ Nat.repr i ++ ".") dt).2) hk1 hrest hSSd p s h2
        rw [hrec]
        rfl

end

/-! ### Every leaf path has a guide entry -/

theorem flattenFields_guide_mono : ∀ (fs : List (String × JVal)) (pre : String)
    (dt : Option String) (accF : Flat) (accG : Guide) (key : String),
    hasKey accG key = true → hasKey (flattenFields fs pre dt accF accG).2 key = true
  | [], _, _, _, _, _, h => h
  | (k, v) :: rest, pre, dt, accF, accG, key, h => by
    cases v with
    | obj gs =>
      exact flattenFields_guide_mono rest pre dt
        (dictUpd (flatten (JVal.obj gs) (pre ++ k ++ ".") dt).1 accF)
        (guideMerge (flatten (JVal.obj gs) (pre ++ k ++ ".") dt).2 accG) key
        (by rw [hasKey_guideMerge, h, Bool.or_true])
    | arr es =>
      exact flattenFields_guide_mono rest pre dt
        (dictUpd (flattenElems es (pre ++ k ++ ".") 0 dt [] []).1 accF)
        (guideMerge (flattenElems es (pre ++ k ++ ".") 0 dt [] []).2 accG) key
        (by rw [hasKey_guideMerge, h, Bool.or_true])
    | str s0 =>
      exact flattenFields_guide_mono rest pre dt
        (dictUpd ((([(k, pyStr (JVal.str s0)), (pre ++ k, pyStr (JVal.str s0))],
          [(k, [(dt, pynorm (pre ++ k))]), (pre ++ k, [(dt, pynorm (pre ++ k))])]) : Flat × Guide)).1 accF)
        (guideMerge ((([(k, pyStr (JVal.str s0)), (pre ++ k, pyStr (JVal.str s0))],
          [(k, [(dt, pynorm (pre ++ k))]), (pre ++ k, [(dt, pynorm (pre ++ k))])]) : Flat × Guide)).2 accG) key
        (by rw [hasKey_guideMerge, h, Bool.or_true])
    | num n0 =>
      exact flattenFields_guide_mono rest pre dt
        (dictUpd ((([(k, pyStr (JVal.num n0)), (pre ++ k, pyStr (JVal.num n0))],
          [(k, [(dt, pynorm (pre ++ k))]), (pre ++ k, [(dt, pynorm (pre ++ k))])]) : Flat × Guide)).1 accF)
        (guideMerge ((([(k, pyStr (JVal.num n0)), (pre ++ k, pyStr (JVal.num n0))],
          [(k, [(dt, pynorm (pre ++ k))]), (pre ++ k, [(dt, pynorm (pre ++ k))])]) : Flat × Guide)).2 accG) key
        (by rw [hasKey_guideMerge, h, Bool.or_true])
    | boolv b0 =>
      exact flattenFields_guide_mono rest pre dt
        (dictUpd ((([(k, pyStr (JVal.boolv b0)), (pre ++ k, pyStr (JVal.boolv b0))],
          [(k, [(dt, pynorm (pre ++ k))]), (pre ++ k, [(dt, pynorm (pre ++ k))])]) : Flat × Guide)).1 accF)
        (guideMerge ((([(k, pyStr (JVal.boolv b0)), (pre ++ k, pyStr (JVal.boolv b0))],
          [(k, [(dt, pynorm (pre ++ k))]), (pre ++ k, [(dt, pynorm (pre ++ k))])]) : Flat × Guide)).2 accG) key
        (by rw [hasKey_guideMerge, h, Bool.or_true])
    | null =>
      exact flattenFields_guide_mono rest pre dt
        (dictUpd ((([(k, pyStr JVal.null), (pre ++ k, pyStr JVal.null)],
          [(k, [(dt, pynorm (pre ++ k))]), (pre ++ k, [(dt, pynorm (pre ++ k))])]) : Flat × Guide)).1 accF)
        (guideMerge ((([(k, pyStr JVal.null), (pre ++ k, pyStr JVal.null)],
          [(k, [(dt, pynorm (pre ++ k))]), (pre ++ k, [(dt, pynorm (pre ++ k))])]) : Flat × Guide)).2 accG) key
        (by rw [hasKey_guideMerge, h, Bool.or_true])
  termination_by fs _ _ _ _ _ _ => fs.length

theorem flattenElems_guide_mono : ∀ (es : List JVal) (preK : String) (i : Nat)
    (dt : Option String) (accF : Flat) (accG : Guide) (key : String),
    hasKey accG key = true → hasKey (flattenElems es preK i dt accF accG).2 key = true
  | [], _, _, _, _, _, _, h => h
  | e :: rest, preK, i, dt, accF, accG, key, h =>
    flattenElems_guide_mono rest preK (i + 1) dt
      (dictUpd accF (flatten e (preK ++ Nat.repr i ++ ".") dt).1)
      (dictUpd accG (flatten e (preK ++ Nat.repr i ++ ".") dt).2) key
      (by rw [hasKey_dictUpd, h, Bool.true_or])
  termination_by es _ _ _ _ _ _ _ => es.length

theorem flatten_guide_complete_nonobj (v : JVal) (SS : List String) (dt : Option String)
    (hobj : v.isObj = false) :
    hasKey (flatten v (renderPre SS) dt).2 (render (SS ++ [])) = true := by
  cases v
  case obj fs => cases hobj
  all_goals
    rw [List.append_nil]
  all_goals
    show hasKey [(stripDot (renderPre SS), _)] (render SS) = true
  all_goals
    rw [stripDot_renderPre]
  all_goals
    simp [hasKey, alookup]

mutual

theorem flatten_guide_complete : ∀ (v : JVal) (SS : List String) (dt : Option String)
    (p : List String) (s : String), (p, s) ∈ leavesOf v →
    hasKey (flatten v (renderPre SS) dt).2 (render (SS ++ p)) = true
  | .obj fs, SS, dt, p, s, hm =>
    flattenFields_guide_complete fs SS _ [] [] p s hm
  | .str s0, SS, dt, p, s, hm => by
    injection List.mem_singleton.mp hm with hp hs
    subst hp
    exact flatten_guide_complete_nonobj (JVal.str s0) SS dt rfl
  | .num n0, SS, dt, p, s, hm => by
    injection List.mem_singleton.mp hm with hp hs
    subst hp
    exact flatten_guide_complete_nonobj (JVal.num n0) SS dt rfl
  | .boolv b0, SS, dt, p, s, hm => by
    injection List.mem_singleton.mp hm with hp hs
    subst hp
    exact flatten_guide_complete_nonobj (JVal.boolv b0) SS dt rfl
  | .null, SS, dt, p, s, hm => by
    injection List.mem_singleton.mp hm with hp hs
    subst hp
    exact flatten_guide_complete_nonobj JVal.null SS dt rfl
  | .arr es, SS, dt, p, s, hm => by
    injection List.mem_singleton.mp hm with hp hs
    subst hp
    exact flatten_guide_complete_nonobj (JVal.arr es) SS dt rfl

theorem flattenFields_guide_complete : ∀ (fs : List (String × JVal)) (SS : List String)
    (dt : Option String) (accF : Flat) (accG : Guide) (p : List String) (s : String),
    (p, s) ∈ leavesFields fs →
    hasKey (flattenFields fs (renderPre SS) dt accF accG).2 (render (SS ++ p)) = true
  | [], _, _, _, _, p, s, hm => by cases hm
  | (k1, v) :: rest, SS, dt, accF, accG, p, s, hm => by
    cases v with
    | obj gs =>
      have hmm : (p, s) ∈ (leavesOf (JVal.obj gs)).map (fun ps => (k1 :: ps.1, ps.2))
          ++ leavesFields rest := hm
      rcases List.mem_append.mp hmm with h1 | h2
      · obtain ⟨ps, hps, heq⟩ := List.mem_map.mp h1
        injection heq with hp hs2
        refine flattenFields_guide_mono rest (renderPre SS) dt _ _ _ ?_
        rw [hasKey_guideMerge]
        have hrw : (SS ++ [k1]) ++ ps.1 = SS ++ p := by
          rw [List.append_assoc]
          show SS ++ (k1 :: ps.1) = SS ++ p
          rw [hp]
        have hc : hasKey (flatten (JVal.obj gs) (renderPre SS ++ k1 ++ ".") dt).2
            (render (SS ++ p)) = true := by
          rw [renderPre_append_key SS k1, ← hrw]
          exact flatten_guide_complete (JVal.obj gs) (SS ++ [k1]) dt ps.1 ps.2 hps
        rw [hc, Bool.true_or]
      · exact flattenFields_guide_complete rest SS dt _ _ p s h2
    | arr es =>
      have hmm : (p, s) ∈ leavesElems k1 es 0 ++ leavesFields rest := hm
      rcases List.mem_append.mp hmm with h1 | h2
      · refine flattenFields_guide_mono rest (renderPre SS) dt _ _ _ ?_
        rw [hasKey_guideMerge]
        have hc : hasKey (flattenElems es (renderPre SS ++ k1 ++ ".") 0 dt [] []).2
            (render (SS ++ p)) = true := by
          rw [renderPre_append_key SS k1]
          exact flattenElems_guide_complete es k1 SS 0 dt [] [] p s h1
        rw [hc, Bool.true_or]
      · exact flattenFields_guide_complete rest SS dt _ _ p s h2
    | str s0 =>
      have hmm : (p, s) ∈ [([k1], pyStr (JVal.str s0))] ++ leavesFields rest := hm
      rcases List.mem_append.mp hmm with h1 | h2
      · injection List.mem_singleton.mp h1 with hp hs2
        subst hp
        refine flattenFields_guide_mono rest (renderPre SS) dt _ _ _ ?_
        rw [hasKey_guideMerge]
        have hc : hasKey [(k1, [(dt, pynorm (renderPre SS ++ k1))]), (renderPre SS ++ k1, [(dt, pynorm (renderPre SS ++ k1))])] (render (SS ++ [k1])) = true := by
          rw [hasKey, alookup]
          by_cases hk : k1 = render (SS ++ [k1])
          · rw [if_pos hk]
            rfl
          · rw [if_neg hk, alookup, if_pos (render_eq_renderPre_key SS k1)]
            rfl
        rw [hc, Bool.true_or]
      · exact flattenFields_guide_complete rest SS dt _ _ p s h2
    | num n0 =>
      have hmm : (p, s) ∈ [([k1], pyStr (JVal.num n0))] ++ leavesFields rest := hm
      rcases List.mem_append.mp hmm with h1 | h2
      · injection List.mem_singleton.mp h1 with hp hs2
        subst hp
        refine flattenFields_guide_mono rest (renderPre SS) dt _ _ _ ?_
        rw [hasKey_guideMerge]
        have hc : hasKey [(k1, [(dt, pynorm (renderPre SS ++ k1))]), (renderPre SS ++ k1, [(dt, pynorm (renderPre SS ++ k1))])] (render (SS ++ [k1])) = true := by
          rw [hasKey, alookup]
          by_cases hk : k1 = render (SS ++ [k1])
          · rw [if_pos hk]
            rfl
          · rw [if_neg hk, alookup, if_pos (render_eq_renderPre_key SS k1)]
            rfl
        rw [hc, Bool.true_or]
      · exact flattenFields_guide_complete rest SS dt _ _ p s h2
    | boolv b0 =>
      have hmm : (p, s) ∈ [([k1], pyStr (JVal.boolv b0))] ++ leavesFields rest := hm
      rcases List.mem_append.mp hmm with h1 | h2
      · injection List.mem_singleton.mp h1 with hp hs2
        subst hp
        refine flattenFields_guide_mono rest (renderPre SS) dt _ _ _ ?_
        rw [hasKey_guideMerge]
        have hc : hasKey [(k1, [(dt, pynorm (renderPre SS ++ k1))]), (renderPre SS ++ k1, [(dt, pynorm (renderPre SS ++ k1))])] (render (SS ++ [k1])) = true := by
          rw [hasKey, alookup]
          by_cases hk : k1 = render (SS ++ [k1])
          · rw [if_pos hk]
            rfl
          · rw [if_neg hk, alookup, if_pos (render_eq_renderPre_key SS k1)]
            rfl
        rw [hc, Bool.true_or]
      · exact flattenFields_guide_complete rest SS dt _ _ p s h2
    | null =>
      have hmm : (p, s) ∈ [([k1], pyStr JVal.null)] ++ leavesFields rest := hm
      rcases List.mem_append.mp hmm with h1 | h2
      · injection List.mem_singleton.mp h1 with hp hs2
        subst hp
        refine flattenFields_guide_mono rest (renderPre SS) dt _ _ _ ?_
        rw [hasKey_guideMerge]
        have hc : hasKey [(k1, [(dt, pynorm (renderPre SS ++ k1))]), (renderPre SS ++ k1, [(dt, pynorm (renderPre SS ++ k1))])] (render (SS ++ [k1])) = true := by
          rw [hasKey, alookup]
          by_cases hk : k1 = render (SS ++ [k1])
          · rw [if_pos hk]
            rfl
          · rw [if_neg hk, alookup, if_pos (render_eq_renderPre_key SS k1)]
            rfl
        rw [hc, Bool.true_or]
      · exact flattenFields_guide_complete rest SS dt _ _ p s h2

theorem flattenElems_guide_complete : ∀ (es : List JVal) (k1 : String) (SS : List String)
    (i : Nat) (dt : Option String) (accF : Flat) (accG : Guide) (p : List String)
    (s : String), (p, s) ∈ leavesElems k1 es i →
    hasKey (flattenElems es (renderPre (SS ++ [k1])) i dt accF accG).2
      (render (SS ++ p)) = true
  | [], _, _, _, _, _, _, p, s, hm => by cases hm
  | e :: rest, k1, SS, i, dt, accF, accG, p, s, hm => by
    cases e with
    | obj gs =>
      have hmm : (p, s) ∈ (leavesOf (JVal.obj gs)).map (fun ps => (k1 :: Nat.repr i :: ps.1, ps.2))
          ++ leavesElems k1 rest (i + 1) := hm
      rcases List.mem_append.mp hmm with h1 | h2
      · obtain ⟨ps, hps, heq⟩ := List.mem_map.mp h1
        injection heq with hp hs2
        refine flattenElems_guide_mono rest (renderPre (SS ++ [k1])) (i + 1) dt _ _ _ ?_
        rw [hasKey_dictUpd]
        have hrw : ((SS ++ [k1]) ++ [Nat.repr i]) ++ ps.1 = SS ++ p := by
          rw [List.append_assoc, List.append_assoc]
          show SS ++ (k1 :: Nat.repr i :: ps.1) = SS ++ p
          rw [hp]
        have hc : hasKey (flatten (JVal.obj gs) (renderPre (SS ++ [k1]) ++ Nat.repr i ++ ".") dt).2 (render (SS ++ p)) = true := by
          rw [renderPre_append_key (SS ++ [k1]) (Nat.repr i), ← hrw]
          exact flatten_guide_complete (JVal.obj gs) ((SS ++ [k1]) ++ [Nat.repr i]) dt
            ps.1 ps.2 hps
        rw [hc, Bool.or_true]
      · exact flattenElems_guide_complete rest k1 SS (i + 1) dt _ _ p s h2
    | str s0 =>
      have hmm : (p, s) ∈ [([k1, Nat.repr i], pyStr (JVal.str s0))]
          ++ leavesElems k1 rest (i + 1) := hm
      rcases List.mem_append.mp hmm with h1 | h2
      · injection List.mem_singleton.mp h1 with hp hs2
        subst hp
        refine flattenElems_guide_mono rest (renderPre (SS ++ [k1])) (i + 1) dt _ _ _ ?_
        rw [hasKey_dictUpd]
        have hrw : ((SS ++ [k1]) ++ [Nat.repr i]) ++ ([] : List String)
            = SS ++ [k1, Nat.repr i] := by
          rw [List.append_nil, List.append_assoc]
          rfl
        have hc : hasKey (flatten (JVal.str s0) (renderPre (SS ++ [k1]) ++ Nat.repr i ++ ".") dt).2 (render (SS ++ [k1, Nat.repr i])) = true := by
          rw [renderPre_append_key (SS ++ [k1]) (Nat.repr i), ← hrw]
          exact flatten_guide_complete_nonobj (JVal.str s0) ((SS ++ [k1]) ++ [Nat.repr i]) dt rfl
        rw [hc, Bool.or_true]
      · exact flattenElems_guide_complete rest k1 SS (i + 1) dt _ _ p s h2
    | num n0 =>
      have hmm : (p, s) ∈ [([k1, Nat.repr i], pyStr (JVal.num n0))]
          ++ leavesElems k1 rest (i + 1) := hm
      rcases List.mem_append.mp hmm with h1 | h2
      · injection List.mem_singleton.mp h1 with hp hs2
        subst hp
        refine flattenElems_guide_mono rest (renderPre (SS ++ [k1])) (i + 1) dt _ _ _ ?_
        rw [hasKey_dictUpd]
        have hrw : ((SS ++ [k1]) ++ [Nat.repr i]) ++ ([] : List String)
            = SS ++ [k1, Nat.repr i] := by
          rw [List.append_nil, List.append_assoc]
          rfl
        have hc : hasKey (flatten (JVal.num n0) (renderPre (SS ++ [k1]) ++ Nat.repr i ++ ".") dt).2 (render (SS ++ [k1, Nat.repr i])) = true := by
          rw [renderPre_append_key (SS ++ [k1]) (Nat.repr i), ← hrw]
          exact flatten_guide_complete_nonobj (JVal.num n0) ((SS ++ [k1]) ++ [Nat.repr i]) dt rfl
        rw [hc, Bool.or_true]
      · exact flattenElems_guide_complete rest k1 SS (i + 1) dt _ _ p s h2
    | boolv b0 =>
      have hmm : (p, s) ∈ [([k1, Nat.repr i], pyStr (JVal.boolv b0))]
          ++ leavesElems k1 rest (i + 1) := hm
      rcases List.mem_append.mp hmm with h1 | h2
      · injection List.mem_singleton.mp h1 with hp hs2
        subst hp
        refine flattenElems_guide_mono rest (renderPre (SS ++ [k1])) (i + 1) dt _ _ _ ?_
        rw [hasKey_dictUpd]
        have hrw : ((SS ++ [k1]) ++ [Nat.repr i]) ++ ([] : List String)
            = SS ++ [k1, Nat.repr i] := by
          rw [List.append_nil, List.append_assoc]
          rfl
        have hc : hasKey (flatten (JVal.boolv b0) (renderPre (SS ++ [k1]) ++ Nat.repr i ++ ".") dt).2 (render (SS ++ [k1, Nat.repr i])) = true := by
          rw [renderPre_append_key (SS ++ [k1]) (Nat.repr i), ← hrw]
          exact flatten_guide_complete_nonobj (JVal.boolv b0) ((SS ++ [k1]) ++ [Nat.repr i]) dt rfl
        rw [hc, Bool.or_true]
      · exact flattenElems_guide_complete rest k1 SS (i + 1) dt _ _ p s h2
    | null =>
      have hmm : (p, s) ∈ [([k1, Nat.repr i], pyStr JVal.null)]
          ++ leavesElems k1 rest (i + 1) := hm
      rcases List.mem_append.mp hmm with h1 | h2
      · injection List.mem_singleton.mp h1 with hp hs2
        subst hp
        refine flattenElems_guide_mono rest (renderPre (SS ++ [k1])) (i + 1) dt _ _ _ ?_
        rw [hasKey_dictUpd]
        have hrw : ((SS ++ [k1]) ++ [Nat.repr i]) ++ ([] : List String)
            = SS ++ [k1, Nat.repr i] := by
          rw [List.append_nil, List.append_assoc]
          rfl
        have hc : hasKey (flatten JVal.null (renderPre (SS ++ [k1]) ++ Nat.repr i ++ ".") dt).2 (render (SS ++ [k1, Nat.repr i])) = true := by
          rw [renderPre_append_key (SS ++ [k1]) (Nat.repr i), ← hrw]
          exact flatten_guide_complete_nonobj JVal.null ((SS ++ [k1]) ++ [Nat.repr i]) dt rfl
        rw [hc, Bool.or_true]
      · exact flattenElems_guide_complete rest k1 SS (i + 1) dt _ _ p s h2
    | arr es2 =>
      have hmm : (p, s) ∈ [([k1, Nat.repr i], pyStr (JVal.arr es2))]
          ++ leavesElems k1 rest (i + 1) := hm
      rcases List.mem_append.mp hmm with h1 | h2
      · injection List.mem_singleton.mp h1 with hp hs2
        subst hp
        refine flattenElems_guide_mono rest (renderPre (SS ++ [k1])) (i + 1) dt _ _ _ ?_
        rw [hasKey_dictUpd]
        have hrw : ((SS ++ [k1]) ++ [Nat.repr i]) ++ ([] : List String)
            = SS ++ [k1, Nat.repr i] := by
          rw [List.append_nil, List.append_assoc]
          rfl
        have hc : hasKey (flatten (JVal.arr es2) (renderPre (SS ++ [k1]) ++ Nat.repr i ++ ".") dt).2 (render (SS ++ [k1, Nat.repr i])) = true := by
          rw [renderPre_append_key (SS ++ [k1]) (Nat.repr i), ← hrw]
          exact flatten_guide_complete_nonobj (JVal.arr es2) ((SS ++ [k1]) ++ [Nat.repr i]) dt rfl
        rw [hc, Bool.or_true]
      · exact flattenElems_guide_complete rest k1 SS (i + 1) dt _ _ p s h2

end

theorem GuideVal_mono {L L2 : List (List String × String)} {SS : List String}
    {g : String × GuideInner} (hsub : ∀ x ∈ L, x ∈ L2) (h : GuideVal L SS g) :
    GuideVal L2 SS g := by
  intro e he
  obtain ⟨p, s, hm, hv, hk⟩ := h e he
  exact ⟨p, s, hsub _ hm, hv, hk⟩

theorem GuideVal_dictUpd {L : List (List String × String)} {SS : List String}
    {gk : String} {i1 i2 : GuideInner} (h1 : GuideVal L SS (gk, i1))
    (h2 : GuideVal L SS (gk, i2)) : GuideVal L SS (gk, dictUpd i1 i2) := by
  intro e he
  rcases mem_dictUpd he with h | h
  · exact h1 e h
  · exact h2 e h

theorem GuideVal_shift_field {gs : List (String × JVal)} {SS : List String} {k1 : String}
    {L : List (List String × String)} {g : String × GuideInner}
    (hsub : ∀ x ∈ (leavesOf (JVal.obj gs)).map (fun ps => (k1 :: ps.1, ps.2)), x ∈ L)
    (h : GuideVal (leavesOf (JVal.obj gs)) (SS ++ [k1]) g) : GuideVal L SS g := by
  intro e he
  obtain ⟨p, s, hm, hv, hk⟩ := h e he
  have hpne : p ≠ [] := leavesFields_ne_nil (show (p, s) ∈ leavesFields gs from hm)
  refine ⟨k1 :: p, s, hsub _ (List.mem_map.mpr ⟨(p, s), hm, rfl⟩), ?_, ?_⟩
  · rw [hv, List.append_assoc]
    rfl
  · rcases hk with hk | ⟨k2, hl, hk2⟩
    · left
      rw [hk, List.append_assoc]
      rfl
    · right
      refine ⟨k2, ?_, hk2⟩
      rw [getLast?_cons_of_ne_nil k1 hpne]
      exact hl

theorem GuideVal_shift_elem_obj {gs : List (String × JVal)} {SS : List String}
    {k1 : String} {i : Nat} {L : List (List String × String)} {g : String × GuideInner}
    (hsub : ∀ x ∈ (leavesOf (JVal.obj gs)).map
      (fun ps => (k1 :: Nat.repr i :: ps.1, ps.2)), x ∈ L)
    (h : GuideVal (leavesOf (JVal.obj gs)) ((SS ++ [k1]) ++ [Nat.repr i]) g) :
    GuideVal L SS g := by
  intro e he
  obtain ⟨p, s, hm, hv, hk⟩ := h e he
  have hpne : p ≠ [] := leavesFields_ne_nil (show (p, s) ∈ leavesFields gs from hm)
  refine ⟨k1 :: Nat.repr i :: p, s, hsub _ (List.mem_map.mpr ⟨(p, s), hm, rfl⟩), ?_, ?_⟩
  · rw [hv, List.append_assoc, List.append_assoc]
    rfl
  · rcases hk with hk | ⟨k2, hl, hk2⟩
    · left
      rw [hk, List.append_assoc, List.append_assoc]
      rfl
    · right
      refine ⟨k2, ?_, hk2⟩
      rw [getLast?_cons_of_ne_nil k1 (by simp),
        getLast?_cons_of_ne_nil (Nat.repr i) hpne]
      exact hl

theorem GuideVal_shift_elem_leaf (w : JVal) {SS : List String} {k1 : String} {i : Nat}
    {L : List (List String × String)} {g : String × GuideInner}
    (hlv : leavesOf w = [([], pyStr w)])
    (hsub : ([k1, Nat.repr i], pyStr w) ∈ L)
    (h : GuideVal (leavesOf w) ((SS ++ [k1]) ++ [Nat.repr i]) g) : GuideVal L SS g := by
  intro e he
  obtain ⟨p, s, hm, hv, hk⟩ := h e he
  rw [hlv] at hm
  injection List.mem_singleton.mp hm with hp hs
  subst hp
  refine ⟨[k1, Nat.repr i], pyStr w, hsub, ?_, ?_⟩
  · rw [hv, List.append_nil, List.append_assoc]
    rfl
  · rcases hk with hk | ⟨k2, hl, _⟩
    · left
      rw [hk, List.append_nil, List.append_assoc]
      rfl
    · cases hl

theorem flatten_guide_sound_nonobj (v : JVal) (SS : List String) (dt : Option String)
    (hobj : v.isObj = false) (hSSd : ∀ seg ∈ SS, seg.data.contains '.' = false)
    (hSSok : segsOK false SS = true) :
    ∀ g ∈ (flatten v (renderPre SS) dt).2, GuideVal (leavesOf v) SS g := by
  cases v
  case obj fs => cases hobj
  all_goals
    intro g hg
  all_goals
    have heq := List.mem_singleton.mp hg
  all_goals
    subst heq
  all_goals
    intro e he
  all_goals
    have heq2 := List.mem_singleton.mp he
  all_goals
    subst heq2
  all_goals
    refine ⟨[], _, List.mem_singleton.mpr rfl, ?_, Or.inl ?_⟩
  all_goals
    first
      | (show stripDot (pynorm (renderPre SS)) = render ((SS ++ []).map wildSeg)
         rw [List.append_nil]
         exact pynorm_renderPre_strip SS hSSd hSSok)
      | (show stripDot (renderPre SS) = render (SS ++ [])
         rw [List.append_nil]
         exact stripDot_renderPre SS)

mutual

theorem flatten_guide_sound : ∀ (v : JVal) (SS : List String) (dt : Option String),
    WFJ v = true → (∀ seg ∈ SS, seg.data.contains '.' = false) →
    segsOK false SS = true →
    ∀ g ∈ (flatten v (renderPre SS) dt).2, GuideVal (leavesOf v) SS g
  | .obj fs, SS, dt, hwf, hSSd, hSSok, g, hg =>
    flattenFields_guide_sound fs SS _ [] [] (leavesOf (JVal.obj fs)) (WFJ_obj hwf).2
      hSSd hSSok (fun x hx => hx) (fun g2 hg2 => by cases hg2) g hg
  | .str s0, SS, dt, _, hSSd, hSSok, g, hg =>
    flatten_guide_sound_nonobj (JVal.str s0) SS dt rfl hSSd hSSok g hg
  | .num n0, SS, dt, _, hSSd, hSSok, g, hg =>
    flatten_guide_sound_nonobj (JVal.num n0) SS dt rfl hSSd hSSok g hg
  | .boolv b0, SS, dt, _, hSSd, hSSok, g, hg =>
    flatten_guide_sound_nonobj (JVal.boolv b0) SS dt rfl hSSd hSSok g hg
  | .null, SS, dt, _, hSSd, hSSok, g, hg =>
    flatten_guide_sound_nonobj JVal.null SS dt rfl hSSd hSSok g hg
  | .arr es, SS, dt, _, hSSd, hSSok, g, hg =>
    flatten_guide_sound_nonobj (JVal.arr es) SS dt rfl hSSd hSSok g hg

theorem flattenFields_guide_sound : ∀ (fs : List (String × JVal)) (SS : List String)
    (dt : Option String) (accF : Flat) (accG : Guide)
    (L : List (List String × String)),
    WFFields fs = true → (∀ seg ∈ SS, seg.data.contains '.' = false) →
    segsOK false SS = true →
    (∀ x ∈ leavesFields fs, x ∈ L) →
    (∀ g ∈ accG, GuideVal L SS g) →
    ∀ g ∈ (flattenFields fs (renderPre SS) dt accF accG).2, GuideVal L SS g
  | [], _, _, _, _, _, _, _, _, _, hacc => hacc
  | (k1, v) :: rest, SS, dt, accF, accG, L, hwf, hSSd, hSSok, hsub, hacc => by
    obtain ⟨hk1, hv, hrest⟩ := WFFields_cons hwf
    have hSS2 : ∀ seg ∈ SS ++ [k1], seg.data.contains '.' = false :=
      dotfree_append hSSd (dotfree_single (keyOK_dotfree hk1))
    have hSSok2 : segsOK false (SS ++ [k1]) = true :=
      segsOK_append_key SS k1 (keyOK_nondigit hk1) hSSok
    cases v with
    | obj gs =>
      refine flattenFields_guide_sound rest SS dt
        (dictUpd (flatten (JVal.obj gs) (renderPre SS ++ k1 ++ ".") dt).1 accF)
        (guideMerge (flatten (JVal.obj gs) (renderPre SS ++ k1 ++ ".") dt).2 accG)
        L hrest hSSd hSSok
        (fun x hx => hsub x (List.mem_append_right _ hx)) ?_
      refine guideMerge_forall _ _ (GuideVal L SS) ?_ hacc
        (fun gk i1 i2 h1 h2 => GuideVal_dictUpd h1 h2)
      intro g2 hg2
      rw [renderPre_append_key SS k1] at hg2
      refine GuideVal_shift_field (fun x hx => hsub x (List.mem_append_left _ hx)) ?_
      exact flatten_guide_sound (JVal.obj gs) (SS ++ [k1]) dt hv hSS2 hSSok2 g2 hg2
    | arr es =>
      refine flattenFields_guide_sound rest SS dt
        (dictUpd (flattenElems es (renderPre SS ++ k1 ++ ".") 0 dt [] []).1 accF)
        (guideMerge (flattenElems es (renderPre SS ++ k1 ++ ".") 0 dt [] []).2 accG)
        L hrest hSSd hSSok
        (fun x hx => hsub x (List.mem_append_right _ hx)) ?_
      refine guideMerge_forall _ _ (GuideVal L SS) ?_ hacc
        (fun gk i1 i2 h1 h2 => GuideVal_dictUpd h1 h2)
      intro g2 hg2
      rw [renderPre_append_key SS k1] at hg2
      exact flattenElems_guide_sound es k1 SS 0 dt [] [] L hk1 hv hSSd hSSok
        (fun x hx => hsub x (List.mem_append_left _ hx)) (fun g3 hg3 => by cases hg3) g2 hg2
    | str s0 =>
      refine flattenFields_guide_sound rest SS dt
        (dictUpd [(k1, pyStr (JVal.str s0)), (renderPre SS ++ k1, pyStr (JVal.str s0))] accF)
        (guideMerge [(k1, [(dt, pynorm (renderPre SS ++ k1))]), (renderPre SS ++ k1, [(dt, pynorm (renderPre SS ++ k1))])] accG)
        L hrest hSSd hSSok
        (fun x hx => hsub x (List.mem_append_right _ hx)) ?_
      refine guideMerge_forall _ _ (GuideVal L SS) ?_ hacc
        (fun gk i1 i2 h1 h2 => GuideVal_dictUpd h1 h2)
      intro g2 hg2
      have hpk : pynorm (renderPre SS ++ k1) = render ((SS ++ [k1]).map wildSeg) := by
        rw [render_eq_renderPre_key SS k1]
        exact pynorm_render (SS ++ [k1])
          (dotfree_append hSSd (dotfree_single (keyOK_dotfree hk1)))
          (segsOK_append_key SS k1 (keyOK_nondigit hk1) hSSok)
          (by
            intro x hx
            rw [List.getLast?_concat] at hx
            injection hx with hx2
            rw [← hx2]
            exact keyOK_nondigit hk1)
      have hmemL : ([k1], pyStr (JVal.str s0)) ∈ L :=
        hsub _ (List.mem_append_left _ (List.mem_singleton.mpr rfl))
      rcases List.mem_cons.mp hg2 with hg3 | hg3
      · subst hg3
        intro e he
        have he2 := List.mem_singleton.mp he
        subst he2
        exact ⟨[k1], pyStr (JVal.str s0), hmemL, hpk, Or.inr ⟨k1, rfl, rfl⟩⟩
      · rcases List.mem_cons.mp hg3 with hg4 | hg4
        · subst hg4
          intro e he
          have he2 := List.mem_singleton.mp he
          subst he2
          exact ⟨[k1], pyStr (JVal.str s0), hmemL, hpk, Or.inl (render_eq_renderPre_key SS k1)⟩
        · cases hg4
    | num n0 =>
      refine flattenFields_guide_sound rest SS dt
        (dictUpd [(k1, pyStr (JVal.num n0)), (renderPre SS ++ k1, pyStr (JVal.num n0))] accF)
        (guideMerge [(k1, [(dt, pynorm (renderPre SS ++ k1))]), (renderPre SS ++ k1, [(dt, pynorm (renderPre SS ++ k1))])] accG)
        L hrest hSSd hSSok
        (fun x hx => hsub x (List.mem_append_right _ hx)) ?_
      refine guideMerge_forall _ _ (GuideVal L SS) ?_ hacc
        (fun gk i1 i2 h1 h2 => GuideVal_dictUpd h1 h2)
      intro g2 hg2
      have hpk : pynorm (renderPre SS ++ k1) = render ((SS ++ [k1]).map wildSeg) := by
        rw [render_eq_renderPre_key SS k1]
        exact pynorm_render (SS ++ [k1])
          (dotfree_append hSSd (dotfree_single (keyOK_dotfree hk1)))
          (segsOK_append_key SS k1 (keyOK_nondigit hk1) hSSok)
          (by
            intro x hx
            rw [List.getLast?_concat] at hx
            injection hx with hx2
            rw [← hx2]
            exact keyOK_nondigit hk1)
      have hmemL : ([k1], pyStr (JVal.num n0)) ∈ L :=
        hsub _ (List.mem_append_left _ (List.mem_singleton.mpr rfl))
      rcases List.mem_cons.mp hg2 with hg3 | hg3
      · subst hg3
        intro e he
        have he2 := List.mem_singleton.mp he
        subst he2
        exact ⟨[k1], pyStr (JVal.num n0), hmemL, hpk, Or.inr ⟨k1, rfl, rfl⟩⟩
      · rcases List.mem_cons.mp hg3 with hg4 | hg4
        · subst hg4
          intro e he
          have he2 := List.mem_singleton.mp he
          subst he2
          exact ⟨[k1], pyStr (JVal.num n0), hmemL, hpk, Or.inl (render_eq_renderPre_key SS k1)⟩
        · cases hg4
    | boolv b0 =>
      refine flattenFields_guide_sound rest SS dt
        (dictUpd [(k1, pyStr (JVal.boolv b0)), (renderPre SS ++ k1, pyStr (JVal.boolv b0))] accF)
        (guideMerge [(k1, [(dt, pynorm (renderPre SS ++ k1))]), (renderPre SS ++ k1, [(dt, pynorm (renderPre SS ++ k1))])] accG)
        L hrest hSSd hSSok
        (fun x hx => hsub x (List.mem_append_right _ hx)) ?_
      refine guideMerge_forall _ _ (GuideVal L SS) ?_ hacc
        (fun gk i1 i2 h1 h2 => GuideVal_dictUpd h1 h2)
      intro g2 hg2
      have hpk : pynorm (renderPre SS ++ k1) = render ((SS ++ [k1]).map wildSeg) := by
        rw [render_eq_renderPre_key SS k1]
        exact pynorm_render (SS ++ [k1])
          (dotfree_append hSSd (dotfree_single (keyOK_dotfree hk1)))
          (segsOK_append_key SS k1 (keyOK_nondigit hk1) hSSok)
          (by
            intro x hx
            rw [List.getLast?_concat] at hx
            injection hx with hx2
            rw [← hx2]
            exact keyOK_nondigit hk1)
      have hmemL : ([k1], pyStr (JVal.boolv b0)) ∈ L :=
        hsub _ (List.mem_append_left _ (List.mem_singleton.mpr rfl))
      rcases List.mem_cons.mp hg2 with hg3 | hg3
      · subst hg3
        intro e he
        have he2 := List.mem_singleton.mp he
        subst he2
        exact ⟨[k1], pyStr (JVal.boolv b0), hmemL, hpk, Or.inr ⟨k1, rfl, rfl⟩⟩
      · rcases List.mem_cons.mp hg3 with hg4 | hg4
        · subst hg4
          intro e he
          have he2 := List.mem_singleton.mp he
          subst he2
          exact ⟨[k1], pyStr (JVal.boolv b0), hmemL, hpk, Or.inl (render_eq_renderPre_key SS k1)⟩
        · cases hg4
    | null =>
      refine flattenFields_guide_sound rest SS dt
        (dictUpd [(k1, pyStr JVal.null), (renderPre SS ++ k1, pyStr JVal.null)] accF)
        (guideMerge [(k1, [(dt, pynorm (renderPre SS ++ k1))]), (renderPre SS ++ k1, [(dt, pynorm (renderPre SS ++ k1))])] accG)
        L hrest hSSd hSSok
        (fun x hx => hsub x (List.mem_append_right _ hx)) ?_
      refine guideMerge_forall _ _ (GuideVal L SS) ?_ hacc
        (fun gk i1 i2 h1 h2 => GuideVal_dictUpd h1 h2)
      intro g2 hg2
      have hpk : pynorm (renderPre SS ++ k1) = render ((SS ++ [k1]).map wildSeg) := by
        rw [render_eq_renderPre_key SS k1]
        exact pynorm_render (SS ++ [k1])
          (dotfree_append hSSd (dotfree_single (keyOK_dotfree hk1)))
          (segsOK_append_key SS k1 (keyOK_nondigit hk1) hSSok)
          (by
            intro x hx
            rw [List.getLast?_concat] at hx
            injection hx with hx2
            rw [← hx2]
            exact keyOK_nondigit hk1)
      have hmemL : ([k1], pyStr JVal.null) ∈ L :=
        hsub _ (List.mem_append_left _ (List.mem_singleton.mpr rfl))
      rcases List.mem_cons.mp hg2 with hg3 | hg3
      · subst hg3
        intro e he
        have he2 := List.mem_singleton.mp he
        subst he2
        exact ⟨[k1], pyStr JVal.null, hmemL, hpk, Or.inr ⟨k1, rfl, rfl⟩⟩
      · rcases List.mem_cons.mp hg3 with hg4 | hg4
        · subst hg4
          intro e he
          have he2 := List.mem_singleton.mp he
          subst he2
          exact ⟨[k1], pyStr JVal.null, hmemL, hpk, Or.inl (render_eq_renderPre_key SS k1)⟩
        · cases hg4

theorem flattenElems_guide_sound : ∀ (es : List JVal) (k1 : String) (SS : List String)
    (i : Nat) (dt : Option String) (accF : Flat) (accG : Guide)
    (L : List (List String × String)),
    keyOK k1 = true → WFElems es = true →
    (∀ seg ∈ SS, seg.data.contains '.' = false) → segsOK false SS = true →
    (∀ x ∈ leavesElems k1 es i, x ∈ L) →
    (∀ g ∈ accG, GuideVal L SS g) →
    ∀ g ∈ (flattenElems es (renderPre (SS ++ [k1])) i dt accF accG).2, GuideVal L SS g
  | [], _, _, _, _, _, _, _, _, _, _, _, _, hacc => hacc
  | e :: rest, k1, SS, i, dt, accF, accG, L, hk1, hwf, hSSd, hSSok, hsub, hacc => by
    obtain ⟨he, hrest⟩ := WFElems_cons hwf
    have hSS2 : ∀ seg ∈ SS ++ [k1], seg.data.contains '.' = false :=
      dotfree_append hSSd (dotfree_single (keyOK_dotfree hk1))
    have hSS3 : ∀ seg ∈ (SS ++ [k1]) ++ [Nat.repr i], seg.data.contains '.' = false :=
      dotfree_append hSS2 (dotfree_single (natRepr_dotfree i))
    have hSSok3 : segsOK false ((SS ++ [k1]) ++ [Nat.repr i]) = true := by
      rw [List.append_assoc]
      exact segsOK_append_idx SS k1 i (keyOK_nondigit hk1) hSSok
    cases e with
    | obj gs =>
      refine flattenElems_guide_sound rest k1 SS (i + 1) dt
        (dictUpd accF (flatten (JVal.obj gs) (renderPre (SS ++ [k1]) ++ Nat.repr i ++ ".") dt).1)
        (dictUpd accG (flatten (JVal.obj gs) (renderPre (SS ++ [k1]) ++ Nat.repr i ++ ".") dt).2)
        L hk1 hrest hSSd hSSok
        (fun x hx => hsub x (List.mem_append_right _ hx)) ?_
      intro g2 hg2
      rcases mem_dictUpd hg2 with h3 | h3
      · exact hacc g2 h3
      · rw [renderPre_append_key (SS ++ [k1]) (Nat.repr i)] at h3
        refine GuideVal_shift_elem_obj (fun x hx => hsub x (List.mem_append_left _ hx)) ?_
        exact flatten_guide_sound (JVal.obj gs) ((SS ++ [k1]) ++ [Nat.repr i]) dt he
          hSS3 hSSok3 g2 h3
    | str s0 =>
      refine flattenElems_guide_sound rest k1 SS (i + 1) dt
        (dictUpd accF (flatten (JVal.str s0) (renderPre (SS ++ [k1]) ++ Nat.repr i ++ ".") dt).1)
        (dictUpd accG (flatten (JVal.str s0) (renderPre (SS ++ [k1]) ++ Nat.repr i ++ ".") dt).2)
        L hk1 hrest hSSd hSSok
        (fun x hx => hsub x (List.mem_append_right _ hx)) ?_
      intro g2 hg2
      rcases mem_dictUpd hg2 with h3 | h3
      · exact hacc g2 h3
      · rw [renderPre_append_key (SS ++ [k1]) (Nat.repr i)] at h3
        refine GuideVal_shift_elem_leaf (JVal.str s0) rfl
          (hsub _ (List.mem_append_left _ (List.mem_singleton.mpr rfl))) ?_
        exact flatten_guide_sound_nonobj (JVal.str s0) ((SS ++ [k1]) ++ [Nat.repr i]) dt rfl
          hSS3 hSSok3 g2 h3
    | num n0 =>
      refine flattenElems_guide_sound rest k1 SS (i + 1) dt
        (dictUpd accF (flatten (JVal.num n0) (renderPre (SS ++ [k1]) ++ Nat.repr i ++ ".") dt).1)
        (dictUpd accG (flatten (JVal.num n0) (renderPre (SS ++ [k1]) ++ Nat.repr i ++ ".") dt).2)
        L hk1 hrest hSSd hSSok
        (fun x hx => hsub x (List.mem_append_right _ hx)) ?_
      intro g2 hg2
      rcases mem_dictUpd hg2 with h3 | h3
      · exact hacc g2 h3
      · rw [renderPre_append_key (SS ++ [k1]) (Nat.repr i)] at h3
        refine GuideVal_shift_elem_leaf (JVal.num n0) rfl
          (hsub _ (List.mem_append_left _ (List.mem_singleton.mpr rfl))) ?_
        exact flatten_guide_sound_nonobj (JVal.num n0) ((SS ++ [k1]) ++ [Nat.repr i]) dt rfl
          hSS3 hSSok3 g2 h3
    | boolv b0 =>
      refine flattenElems_guide_sound rest k1 SS (i + 1) dt
        (dictUpd accF (flatten (JVal.boolv b0) (renderPre (SS ++ [k1]) ++ Nat.repr i ++ ".") dt).1)
        (dictUpd accG (flatten (JVal.boolv b0) (renderPre (SS ++ [k1]) ++ Nat.repr i ++ ".") dt).2)
        L hk1 hrest hSSd hSSok
        (fun x hx => hsub x (List.mem_append_right _ hx)) ?_
      intro g2 hg2
      rcases mem_dictUpd hg2 with h3 | h3
      · exact hacc g2 h3
      · rw [renderPre_append_key (SS ++ [k1]) (Nat.repr i)] at h3
        refine GuideVal_shift_elem_leaf (JVal.boolv b0) rfl
          (hsub _ (List.mem_append_left _ (List.mem_singleton.mpr rfl))) ?_
        exact flatten_guide_sound_nonobj (JVal.boolv b0) ((SS ++ [k1]) ++ [Nat.repr i]) dt rfl
          hSS3 hSSok3 g2 h3
    | null =>
      refine flattenElems_guide_sound rest k1 SS (i + 1) dt
        (dictUpd accF (flatten JVal.null (renderPre (SS ++ [k1]) ++ Nat.repr i ++ ".") dt).1)
        (dictUpd accG (flatten JVal.null (renderPre (SS ++ [k1]) ++ Nat.repr i ++ ".") dt).2)
        L hk1 hrest hSSd hSSok
        (fun x hx => hsub x (List.mem_append_right _ hx)) ?_
      intro g2 hg2
      rcases mem_dictUpd hg2 with h3 | h3
      · exact hacc g2 h3
      · rw [renderPre_append_key (SS ++ [k1]) (Nat.repr i)] at h3
        refine GuideVal_shift_elem_leaf JVal.null rfl
          (hsub _ (List.mem_append_left _ (List.mem_singleton.mpr rfl))) ?_
        exact flatten_guide_sound_nonobj JVal.null ((SS ++ [k1]) ++ [Nat.repr i]) dt rfl
          hSS3 hSSok3 g2 h3
    | arr es2 =>
      refine flattenElems_guide_sound rest k1 SS (i + 1) dt
        (dictUpd accF (flatten (JVal.arr es2) (renderPre (SS ++ [k1]) ++ Nat.repr i ++ ".") dt).1)
        (dictUpd accG (flatten (JVal.arr es2) (renderPre (SS ++ [k1]) ++ Nat.repr i ++ ".") dt).2)
        L hk1 hrest hSSd hSSok
        (fun x hx => hsub x (List.mem_append_right _ hx)) ?_
      intro g2 hg2
      rcases mem_dictUpd hg2 with h3 | h3
      · exact hacc g2 h3
      · rw [renderPre_append_key (SS ++ [k1]) (Nat.repr i)] at h3
        refine GuideVal_shift_elem_leaf (JVal.arr es2) rfl
          (hsub _ (List.mem_append_left _ (List.mem_singleton.mpr rfl))) ?_
        exact flatten_guide_sound_nonobj (JVal.arr es2) ((SS ++ [k1]) ++ [Nat.repr i]) dt rfl
          hSS3 hSSok3 g2 h3

end

/-! ### The short key of a scalar field resolves first-seen-wins -/

theorem WFFields_append_left : ∀ {fs1 fs2 : List (String × JVal)},
    WFFields (fs1 ++ fs2) = true → WFFields fs1 = true := by
  intro fs1
  induction fs1 with
  | nil => intro fs2 h; rfl
  | cons kv rest ih =>
    intro fs2 h
    obtain ⟨k0, v0⟩ := kv
    obtain ⟨h1, h2, h3⟩ := WFFields_cons h
    rw [WFFields, Bool.and_eq_true, Bool.and_eq_true]
    exact ⟨⟨h1, h2⟩, ih h3⟩

theorem scalar_head_alookup (k : String) (w : JVal) (fs2 : List (String × JVal))
    (pre : String) (dt : Option String) (accG : Guide)
    (hobj : w.isObj = false) (harr : w.isArr = false) :
    alookup (flattenFields ((k, w) :: fs2) pre dt [] accG).1 k = some (pyStr w) := by
  cases w
  case obj gs => cases hobj
  case arr es => cases harr
  case str s0 =>
    have e1 : alookup (flattenFields ((k, JVal.str s0) :: fs2) pre dt [] accG).1 k
        = (alookup (dictUpd [(k, pyStr (JVal.str s0)), (pre ++ k, pyStr (JVal.str s0))] []) k).orElse
          (fun _ => alookup (flattenFields fs2 pre dt []
            (guideMerge [(k, [(dt, pynorm (pre ++ k))]), (pre ++ k, [(dt, pynorm (pre ++ k))])] accG)).1 k) :=
      flattenFields_alookup_acc fs2 pre dt
        (dictUpd [(k, pyStr (JVal.str s0)), (pre ++ k, pyStr (JVal.str s0))] [])
        (guideMerge [(k, [(dt, pynorm (pre ++ k))]), (pre ++ k, [(dt, pynorm (pre ++ k))])] accG) k
    rw [e1, dictUpd_nil_right, alookup, if_pos rfl]
    rfl
  case num n0 =>
    have e1 : alookup (flattenFields ((k, JVal.num n0) :: fs2) pre dt [] accG).1 k
        = (alookup (dictUpd [(k, pyStr (JVal.num n0)), (pre ++ k, pyStr (JVal.num n0))] []) k).orElse
          (fun _ => alookup (flattenFields fs2 pre dt []
            (guideMerge [(k, [(dt, pynorm (pre ++ k))]), (pre ++ k, [(dt, pynorm (pre ++ k))])] accG)).1 k) :=
      flattenFields_alookup_acc fs2 pre dt
        (dictUpd [(k, pyStr (JVal.num n0)), (pre ++ k, pyStr (JVal.num n0))] [])
        (guideMerge [(k, [(dt, pynorm (pre ++ k))]), (pre ++ k, [(dt, pynorm (pre ++ k))])] accG) k
    rw [e1, dictUpd_nil_right, alookup, if_pos rfl]
    rfl
  case boolv b0 =>
    have e1 : alookup (flattenFields ((k, JVal.boolv b0) :: fs2) pre dt [] accG).1 k
        = (alookup (dictUpd [(k, pyStr (JVal.boolv b0)), (pre ++ k, pyStr (JVal.boolv b0))] []) k).orElse
          (fun _ => alookup (flattenFields fs2 pre dt []
            (guideMerge [(k, [(dt, pynorm (pre ++ k))]), (pre ++ k, [(dt, pynorm (pre ++ k))])] accG)).1 k) :=
      flattenFields_alookup_acc fs2 pre dt
        (dictUpd [(k, pyStr (JVal.boolv b0)), (pre ++ k, pyStr (JVal.boolv b0))] [])
        (guideMerge [(k, [(dt, pynorm (pre ++ k))]), (pre ++ k, [(dt, pynorm (pre ++ k))])] accG) k
    rw [e1, dictUpd_nil_right, alookup, if_pos rfl]
    rfl
  case null =>
    have e1 : alookup (flattenFields ((k, JVal.null) :: fs2) pre dt [] accG).1 k
        = (alookup (dictUpd [(k, pyStr JVal.null), (pre ++ k, pyStr JVal.null)] []) k).orElse
          (fun _ => alookup (flattenFields fs2 pre dt []
            (guideMerge [(k, [(dt, pynorm (pre ++ k))]), (pre ++ k, [(dt, pynorm (pre ++ k))])] accG)).1 k) :=
      flattenFields_alookup_acc fs2 pre dt
        (dictUpd [(k, pyStr JVal.null), (pre ++ k, pyStr JVal.null)] [])
        (guideMerge [(k, [(dt, pynorm (pre ++ k))]), (pre ++ k, [(dt, pynorm (pre ++ k))])] accG) k
    rw [e1, dictUpd_nil_right, alookup, if_pos rfl]
    rfl

theorem flattenFields_short_key_first (fs1 fs2 : List (String × JVal)) (k : String)
    (w : JVal) (dt : Option String) (accG : Guide)
    (hkdf : k.data.contains '.' = false)
    (hobj : w.isObj = false) (harr : w.isArr = false)
    (hearlier : ∀ kv ∈ leavesFields fs1, kv.1.getLast? ≠ some k) :
    alookup (flattenFields (fs1 ++ (k, w) :: fs2) (renderPre []) dt [] accG).1 k
      = some (pyStr w) := by
  rw [flattenFields_append]
  rw [flattenFields_alookup_acc ((k, w) :: fs2) (renderPre []) dt _ _ k]
  have hF1 : alookup (flattenFields fs1 (renderPre []) dt [] accG).1 k = none := by
    apply alookup_eq_none
    intro kv hkv hc
    rcases flattenFields_flat_sound fs1 [] dt [] accG kv hkv with hS | hS
    · obtain ⟨p, s2, hm, _, hf⟩ := hS
      rcases hf with hf | ⟨k2, hl, hk2⟩
      · rw [hc, List.nil_append] at hf
        obtain ⟨k3, r3, hp3, _⟩ := leavesFields_shape fs1 p s2 hm
        subst hp3
        cases r3 with
        | nil =>
          refine hearlier (k3 :: [], s2) hm ?_
          have hk3 : k = k3 := hf
          show some k3 = some k
          rw [hk3]
        | cons r4 r5 =>
          exact absurd hf (short_ne_render hkdf (by simp))
      · rw [hc] at hk2
        refine hearlier (p, s2) hm ?_
        rw [hl, ← hk2]
    · cases hS
  rw [hF1]
  have h2 := scalar_head_alookup k w fs2 (renderPre []) dt
    (flattenFields fs1 (renderPre []) dt [] accG).2 hobj harr
  rw [h2]
  rfl

/-- C3 (counterexample): the claim fails on general records.  In
`recShadow` the top-level scalar leaf `k` is not reachable under its
fully-qualified dotted path — the earlier field's nested leaf claimed the
key `k` first and first-seen wins — and in `recIdx` the coverage-guide
value stored for the leaf `a.0.0` is `a.[n].0`, keeping the raw numeric
array index because the non-overlapping regex pass consumed the
separating dot. -/
theorem C3_counterexample_shadow_and_raw_index :
    ((["k"], pyStr (JVal.num 1)) ∈ leavesOf recShadow ∧
      alookup (flatten recShadow "" none).1 (render ["k"])
        ≠ some (pyStr (JVal.num 1))) ∧
    ((["a", "0", "0"], pyStr (JVal.num 5)) ∈ leavesOf recIdx ∧
      alookup (flatten recIdx "" none).2 (render ["a", "0", "0"])
        = some [(none, "a.[n].0")] ∧
      hasRawIndex "a.[n].0" = true) := by
  decide

/-- C3 (amended): for a well-formed record — dot-free, non-all-digits
object keys and duplicate-free key lists — every genuinely nested leaf,
one whose fully-qualified path has at least two segments, is reachable in
the flat map under its dotted path with its stringified value; the
coverage guide holds an entry keyed by that path, and every per-devtype
value stored under that entry is the path with every numeric array index
normalized to the wildcard marker. -/
theorem C3_flatten_faithful (fs : List (String × JVal)) (p : List String) (s : String)
    (hwf : WFJ (JVal.obj fs) = true)
    (hleaf : (p, s) ∈ leavesOf (JVal.obj fs))
    (hlen : 2 ≤ p.length) :
    alookup (flatten (JVal.obj fs) "" none).1 (render p) = some s ∧
    hasKey (flatten (JVal.obj fs) "" none).2 (render p) = true ∧
    ∀ inner, alookup (flatten (JVal.obj fs) "" none).2 (render p) = some inner →
      ∀ e ∈ inner, e.2 = render (p.map wildSeg) := by
  refine ⟨?_, ?_, ?_⟩
  · have h := flatten_alookup_leaf (JVal.obj fs) [] none hwf
      (by intro seg hseg; cases hseg) p s hleaf
      (by rw [List.nil_append]; exact hlen)
    rw [List.nil_append] at h
    exact h
  · have h := flatten_guide_complete (JVal.obj fs) [] none p s hleaf
    rw [List.nil_append] at h
    exact h
  · intro inner hinner e he
    have hmem : (render p, inner) ∈ (flatten (JVal.obj fs) (renderPre []) none).2 :=
      alookup_mem _ _ _ hinner
    have hsound := flatten_guide_sound (JVal.obj fs) [] none hwf
      (by intro seg hseg; cases hseg) rfl (render p, inner) hmem
    obtain ⟨q, s2, hq, hv, hkey⟩ := hsound e he
    rw [List.nil_append] at hv hkey
    rcases hkey with hkey | ⟨k2, hl, hk2⟩
    · have hqdf : ∀ seg ∈ q, seg.data.contains '.' = false :=
        fun seg hseg => leavesOf_dotfree (JVal.obj fs) hwf q s2 hq seg hseg
      have hpdf : ∀ seg ∈ p, seg.data.contains '.' = false :=
        fun seg hseg => leavesOf_dotfree (JVal.obj fs) hwf p s hleaf seg hseg
      have hpne : p ≠ [] := by
        intro hcn
        rw [hcn] at hlen
        simp at hlen
      have hqne : q ≠ [] :=
        leavesFields_ne_nil (show (q, s2) ∈ leavesFields fs from hq)
      have hpq : p = q := render_injective p q hpne hqne hpdf hqdf hkey
      rw [hv, hpq]
    · have hk2mem : k2 ∈ q := List.mem_of_mem_getLast? hl
      have hk2df : k2.data.contains '.' = false :=
        leavesOf_dotfree (JVal.obj fs) hwf q s2 hq k2 hk2mem
      exact absurd hk2.symm (short_ne_render hk2df hlen)

/-- C3 (amended, witness): on the record `{"a": {"b": "x"}}` the nested
leaf at the path `a.b` is reachable in the flat map with its value. -/
theorem C3_flatten_faithful_witness :
    alookup (flatten (JVal.obj [("a", JVal.obj [("b", JVal.str "x")])]) "" none).1
      (render ["a", "b"]) = some (pyStr (JVal.str "x")) :=
  (C3_flatten_faithful [("a", JVal.obj [("b", JVal.str "x")])] ["a", "b"]
    (pyStr (JVal.str "x")) (by decide) (by decide) (by decide)).1

/-- C9 (counterexample): `recShadow` holds the top-level scalar field `k`
with value 1 and, in an earlier field, the nested leaf `d.k` whose final
segment is also `k`; the flat map's entry for the short key `k` holds the
nested leaf's stringified value, not the top-level field's, because the
accumulation gives the first-seen occurrence priority and the nested leaf
was seen first. -/
theorem C9_counterexample_shadowed_short_key :
    (["d", "k"], pyStr (JVal.num 2)) ∈ leavesOf recShadow ∧
    (["k"], pyStr (JVal.num 1)) ∈ leavesOf recShadow ∧
    alookup (flatten recShadow "" none).1 "k" = some (pyStr (JVal.num 2)) ∧
    pyStr (JVal.num 2) ≠ pyStr (JVal.num 1) := by
  decide

/-- C9 (amended): short keys resolve first-seen-wins in field-iteration
order, not top-level-first.  If the record holds a top-level scalar field
`k` and no leaf of any earlier field ends in the segment `k`, then the
flat map's entry for the short key `k` is the top-level field's
stringified value. -/
theorem C9_short_key_first_seen (fs1 fs2 : List (String × JVal)) (k : String) (w : JVal)
    (hwf : WFJ (JVal.obj (fs1 ++ (k, w) :: fs2)) = true)
    (hobj : w.isObj = false) (harr : w.isArr = false)
    (hearlier : ∀ kv ∈ leavesFields fs1, kv.1.getLast? ≠ some k) :
    alookup (flatten (JVal.obj (fs1 ++ (k, w) :: fs2)) "" none).1 k
      = some (pyStr w) := by
  have hWFf : WFFields (fs1 ++ (k, w) :: fs2) = true := (WFJ_obj hwf).2
  have hkOK : keyOK k = true :=
    WFFields_keyOK hWFf (show (k, w) ∈ fs1 ++ (k, w) :: fs2 by simp)
  exact flattenFields_short_key_first fs1 fs2 k w _ []
    (keyOK_dotfree hkOK) hobj harr hearlier

/-- C9 (amended, witness): in `{"d": {"m": 2}, "x": 1}` no leaf of the
earlier field ends in `x`, so the flat short key `x` holds the top-level
value. -/
theorem C9_short_key_first_seen_witness :
    alookup (flatten (JVal.obj ([("d", JVal.obj [("m", JVal.num 2)])]
      ++ ("x", JVal.num 1) :: [])) "" none).1 "x" = some (pyStr (JVal.num 1)) :=
  C9_short_key_first_seen [("d", JVal.obj [("m", JVal.num 2)])] [] "x" (JVal.num 1)
    (by decide) (by decide) (by decide) (by decide)

end Automagic

